import Mathlib

/-!
# SWE-PPM: process-grid layout, dimensional-splitting block and collector

A shallow embedding of

* the layout section of `worker` in `src/examples/swe_hpx.cpp`
  (block counts, block position, local cell counts, boundary types and
  neighbour ids),
* the sweep and update routines, the in-process ghost exchange, the message
  tags, the wait, the transfer descriptors and the index expressions of
  `SWE_DimensionalSplittingChameleon` in
  `src/blocks/SWE_DimensionalSplittingChameleon.cpp`, and
* `serialize` and `deserialize` of `CollectorCharm` in
  `src/tools/CollectorCharm.hpp`.

Integer variables of the layout section are unbounded (`Nat` for the
`std::size_t` rank numbers, `Int` for the `int` cell counts and neighbour ids):
rank counts are worker-thread counts, far below the width of `int`, so no
conversion in that section wraps.
-/

namespace SWE

/-! ## Process-grid layout (`worker`, swe_hpx.cpp) -/

/-- The four sides of a block: the indices `BND_LEFT`, `BND_RIGHT`,
`BND_BOTTOM`, `BND_TOP` of the per-side arrays. -/
inductive BoundaryEdge where
  | BND_LEFT
  | BND_RIGHT
  | BND_BOTTOM
  | BND_TOP
  deriving DecidableEq

/-- Modelled from the spec: the enum `BoundaryType` is declared in a header that
is not among the sources; the data model lists its values as OUTFLOW, WALL,
CONNECT (cross-rank) and CONNECT_WITHIN_RANK. -/
inductive BoundaryType where
  | OUTFLOW
  | WALL
  | CONNECT
  | CONNECT_WITHIN_RANK
  deriving DecidableEq

/-- The loop `while (totalHpxRanks % blockCountY != 0) blockCountY--;`
started at the given value of `blockCountY`.  The recursion is on the loop
variable; reaching `blockCountY = 0` would evaluate `totalHpxRanks % 0`, which
is a division by zero in the source, reported as `none`. -/
def blockCountYLoop (totalHpxRanks : Nat) : Nat → Option Nat
  | 0 => none
  | y + 1 =>
    if totalHpxRanks % (y + 1) ≠ 0 then blockCountYLoop totalHpxRanks y
    else some (y + 1)

/-- The locals that the layout section of `worker` computes for one rank. -/
structure WorkerLayout where
  blockCountX : Nat
  blockCountY : Nat
  localBlockPositionX : Nat
  localBlockPositionY : Nat
  nxBlockSimulation : Int
  nxRemainderSimulation : Int
  nyBlockSimulation : Int
  nyRemainderSimulation : Int
  nxLocal : Int
  nyLocal : Int
  boundaries : BoundaryEdge → BoundaryType
  myNeighbours : BoundaryEdge → Int

/-- The layout section of `worker` (swe_hpx.cpp, lines 131-175) for rank
`rank` of `totalRanks`.  `std::sqrt` followed by the conversion to `int` is
`Nat.sqrt` (the double-precision root of an integer below `2^52`, truncated, is
its integer square root); `int / int` is truncating division; the scenario's
`getBoundaryType` is the parameter `scenarioBoundaryType`.  The result is `none`
when the block-count loop divides by zero. -/
def worker (rank totalRanks : Nat) (nxRequested nyRequested : Int)
    (scenarioBoundaryType : BoundaryEdge → BoundaryType) : Option WorkerLayout :=
  match blockCountYLoop totalRanks (Nat.sqrt totalRanks) with
  | none => none
  | some blockCountY =>
    let blockCountX : Nat := totalRanks / blockCountY
    let localBlockPositionX : Nat := rank / blockCountY
    let localBlockPositionY : Nat := rank % blockCountY
    let nxBlockSimulation : Int := Int.tdiv nxRequested blockCountX
    let nxRemainderSimulation : Int :=
      nxRequested - ((blockCountX : Int) - 1) * Int.tdiv nxRequested blockCountX
    let nyBlockSimulation : Int := Int.tdiv nyRequested blockCountY
    let nyRemainderSimulation : Int :=
      nyRequested - ((blockCountY : Int) - 1) * Int.tdiv nyRequested blockCountY
    let nxLocal : Int :=
      if (localBlockPositionX : Int) < (blockCountX : Int) - 1 then nxBlockSimulation
      else nxRemainderSimulation
    let nyLocal : Int :=
      if (localBlockPositionY : Int) < (blockCountY : Int) - 1 then nyBlockSimulation
      else nyRemainderSimulation
    let boundaries : BoundaryEdge → BoundaryType := fun e =>
      match e with
      | .BND_LEFT =>
        if 0 < localBlockPositionX then .CONNECT else scenarioBoundaryType .BND_LEFT
      | .BND_RIGHT =>
        if (localBlockPositionX : Int) < (blockCountX : Int) - 1 then .CONNECT
        else scenarioBoundaryType .BND_RIGHT
      | .BND_BOTTOM =>
        if 0 < localBlockPositionY then .CONNECT else scenarioBoundaryType .BND_BOTTOM
      | .BND_TOP =>
        if (localBlockPositionY : Int) < (blockCountY : Int) - 1 then .CONNECT
        else scenarioBoundaryType .BND_TOP
    let myNeighbours : BoundaryEdge → Int := fun e =>
      match e with
      | .BND_LEFT =>
        if 0 < localBlockPositionX then (rank : Int) - (blockCountY : Int) else -1
      | .BND_RIGHT =>
        if (localBlockPositionX : Int) < (blockCountX : Int) - 1
        then (rank : Int) + (blockCountY : Int) else -1
      | .BND_BOTTOM =>
        if 0 < localBlockPositionY then (rank : Int) - 1 else -1
      | .BND_TOP =>
        if (localBlockPositionY : Int) < (blockCountY : Int) - 1 then (rank : Int) + 1
        else -1
    some
      { blockCountX := blockCountX
        blockCountY := blockCountY
        localBlockPositionX := localBlockPositionX
        localBlockPositionY := localBlockPositionY
        nxBlockSimulation := nxBlockSimulation
        nxRemainderSimulation := nxRemainderSimulation
        nyBlockSimulation := nyBlockSimulation
        nyRemainderSimulation := nyRemainderSimulation
        nxLocal := nxLocal
        nyLocal := nyLocal
        boundaries := boundaries
        myNeighbours := myNeighbours }

/-! ## The dimensional-splitting block (SWE_DimensionalSplittingChameleon.cpp)

The scalar type `α` stands for `float`.  The routines below only use the
operations named in their instance arguments, so every statement proved for all
`α` holds whatever the rounding of these operations is; statements that need
exact arithmetic ask for an ordered field, and statements about the values that
the program stores are made for `Binary32`. -/

/-- Modelled from the spec: the class `Float2D` is declared in a header that is
not among the sources; it is a 2-D array indexed `[x][y]`.  An array is the map
from an index pair to the entry stored there; its allocated shape is not part
of the model. -/
abbrev Float2D (α : Type) := Nat → Nat → α

/-- The assignment `a[x][y] = v`. -/
def Float2D.set {α : Type} (a : Float2D α) (x y : Nat) (v : α) : Float2D α :=
  fun i j => if i = x ∧ j = y then v else a i j

/-- The members of a `SWE_DimensionalSplittingChameleon` block (those of the base
class `SWE_Block` included) that the routines of the source file read or
write. -/
structure SWE_DimensionalSplittingChameleon (α : Type) where
  nx : Nat
  ny : Nat
  dx : α
  dy : α
  originX : α
  originY : α
  localTimestepping : Bool
  h : Float2D α
  hu : Float2D α
  hv : Float2D α
  b : Float2D α
  bufferH : Float2D α
  bufferHu : Float2D α
  bufferHv : Float2D α
  hStar : Float2D α
  huStar : Float2D α
  hNetUpdatesLeft : Float2D α
  hNetUpdatesRight : Float2D α
  huNetUpdatesLeft : Float2D α
  huNetUpdatesRight : Float2D α
  hNetUpdatesBelow : Float2D α
  hNetUpdatesAbove : Float2D α
  hvNetUpdatesBelow : Float2D α
  hvNetUpdatesAbove : Float2D α
  maxTimestep : α
  totalLocalTimestep : α
  borderTimestep : BoundaryEdge → α
  boundaryType : BoundaryEdge → BoundaryType
  neighbourRankId : BoundaryEdge → Int
  myRank : Int

/-- The values that one call of `solver.computeNetUpdates` stores through its
five reference arguments. -/
structure NetUpdates (α : Type) where
  hUpdateLeft : α
  hUpdateRight : α
  huUpdateLeft : α
  huUpdateRight : α
  maxWaveSpeed : α

/-- The pointwise flux operator `solver.computeNetUpdates` (external): its six
value arguments `hL hR huL huR bL bR`, then the value that the wave-speed
reference holds at the call. -/
abbrev Solver (α : Type) := α → α → α → α → α → α → α → NetUpdates α

/-- How a routine that contains an `assert` ends: it returns, or the assertion
fails and the process aborts; either way with the block as it is then. -/
inductive Run (σ : Type) where
  | returned (s : σ)
  | assertionViolation (s : σ)

/-- The block at the end of a run. -/
def Run.state {σ : Type} : Run σ → σ
  | .returned s => s
  | .assertionViolation s => s

/-- The loop `for (int i = lo; i < hi; i++) body`. -/
def forLoop {σ : Type} (lo hi : Nat) (body : Nat → σ → σ) (s : σ) : σ :=
  (List.range' lo (hi - lo)).foldl (fun t i => body i t) s

/-- The payload kinds of the ghost-layer messages: `h`, `hu`, `hv` and the
timestep. -/
inductive TagKind where
  | H
  | HU
  | HV
  | TS
  deriving DecidableEq

/-- The bit pattern of a 32-bit `int`: its value modulo `2^32`. -/
def int32Bits (n : Int) : Nat := (n % 2 ^ 32).toNat

/-- The 32-bit `int` with a given bit pattern (two's complement). -/
def int32OfBits (bits : Nat) : Int :=
  if bits % 2 ^ 32 < 2 ^ 31 then ((bits % 2 ^ 32 : Nat) : Int)
  else ((bits % 2 ^ 32 : Nat) : Int) - 2 ^ 32

/-- The bit patterns of `int tagH = 1 << 30`, `tagHU = 2 << 30`,
`tagHV = 3 << 30`, `tagTS = 0 << 30` (lines 211-214 and 364-367), the shifts
evaluated in 32 bits. -/
def tagConstantBits : TagKind → Nat
  | .H => (1 <<< 30) % 2 ^ 32
  | .HU => (2 <<< 30) % 2 ^ 32
  | .HV => (3 <<< 30) % 2 ^ 32
  | .TS => (0 <<< 30) % 2 ^ 32

/-- The message tag `((int) origin) & tagKind` of `setGhostLayer` and
`receiveGhostLayer`, for the value `origin` of the cast `(int) originX` or
`(int) originY`. -/
def messageTag (kind : TagKind) (origin : Int) : Int :=
  int32OfBits (int32Bits origin &&& tagConstantBits kind)

namespace SWE_DimensionalSplittingChameleon

variable {α : Type}

/-- One `solver.computeNetUpdates` call of the x-sweep, on the edge between the
cells `(x, y)` and `(x + 1, y)`; the second component is the local
`maxHorizontalWaveSpeed`. -/
def horizontalEdge (solver : Solver α) (x y : Nat)
    (st : SWE_DimensionalSplittingChameleon α × α) : SWE_DimensionalSplittingChameleon α × α :=
  let blk := st.1
  let r := solver (blk.h x y) (blk.h (x + 1) y) (blk.hu x y) (blk.hu (x + 1) y)
    (blk.b x y) (blk.b (x + 1) y) st.2
  ({ blk with
      hNetUpdatesLeft := blk.hNetUpdatesLeft.set x y r.hUpdateLeft
      hNetUpdatesRight := blk.hNetUpdatesRight.set (x + 1) y r.hUpdateRight
      huNetUpdatesLeft := blk.huNetUpdatesLeft.set x y r.huUpdateLeft
      huNetUpdatesRight := blk.huNetUpdatesRight.set (x + 1) y r.huUpdateRight },
    r.maxWaveSpeed)

/-- The x-sweep loops of `computeNumericalFluxesHorizontal` (lines 516-532, and
474-486 of the kernel), run in source order, with `maxHorizontalWaveSpeed`
starting at `(float) 0.`. -/
def xSweep [Zero α] (solver : Solver α) (blk : SWE_DimensionalSplittingChameleon α) :
    SWE_DimensionalSplittingChameleon α × α :=
  forLoop 0 (blk.nx + 1)
    (fun x => forLoop 0 (blk.ny + 2) (fun y => horizontalEdge solver x y)) (blk, 0)

/-- The value of the local `maxHorizontalWaveSpeed` after the x-sweep loops. -/
def maxHorizontalWaveSpeed [Zero α] (solver : Solver α)
    (blk : SWE_DimensionalSplittingChameleon α) : α :=
  (xSweep solver blk).2

/-- The member function `computeNumericalFluxesHorizontal` (lines 504-540).
`allGhostlayersInSync` and `getRoundTimestep` are member functions of the base
class, which is not among the sources; they are parameters. -/
def computeNumericalFluxesHorizontal [Zero α] [Mul α] [Div α] [OfScientific α]
    (allGhostlayersInSync : SWE_DimensionalSplittingChameleon α → Bool)
    (getRoundTimestep : SWE_DimensionalSplittingChameleon α → α → α)
    (solver : Solver α) (blk : SWE_DimensionalSplittingChameleon α) :
    SWE_DimensionalSplittingChameleon α :=
  if !allGhostlayersInSync blk then blk
  else
    let st := xSweep solver blk
    let blk1 := { st.1 with maxTimestep := 0.4 * (st.1.dx / st.2) }
    if blk1.localTimestepping then
      { blk1 with maxTimestep := getRoundTimestep blk1 blk1.maxTimestep }
    else blk1

/-- The free function `computeNumericalFluxesHorizontalKernel` (lines 443-497)
on a block whose arrays are the ones passed in; the second component is the
value stored through the `maxTimestep` pointer. -/
def computeNumericalFluxesHorizontalKernel [Zero α] [Mul α] [Div α] [OfScientific α]
    (solver : Solver α) (blk : SWE_DimensionalSplittingChameleon α) :
    SWE_DimensionalSplittingChameleon α × α :=
  let st := xSweep solver blk
  let blk1 := { st.1 with maxTimestep := 0.4 * (st.1.dx / st.2) }
  (blk1, blk1.maxTimestep)

/-- The statements that follow the x-sweep loops of
`computeNumericalFluxesHorizontal` (lines 536-539), for the value that the loops
have left in `maxHorizontalWaveSpeed`. -/
def horizontalTimestep [Mul α] [Div α] [OfScientific α]
    (getRoundTimestep : SWE_DimensionalSplittingChameleon α → α → α)
    (blk : SWE_DimensionalSplittingChameleon α) (maxHorizontalWaveSpeed : α) :
    SWE_DimensionalSplittingChameleon α :=
  let blk1 := { blk with maxTimestep := 0.4 * (blk.dx / maxHorizontalWaveSpeed) }
  if blk1.localTimestepping then
    { blk1 with maxTimestep := getRoundTimestep blk1 blk1.maxTimestep }
  else blk1

/-- The body of the loop that sets the intermediary `Q*` states (lines 647-648). -/
def intermediateCell [Add α] [Sub α] [Mul α] [Div α] (x y : Nat)
    (blk : SWE_DimensionalSplittingChameleon α) : SWE_DimensionalSplittingChameleon α :=
  let blk1 := { blk with
    hStar := blk.hStar.set x y
      (blk.h x y - (blk.maxTimestep / blk.dx)
        * (blk.hNetUpdatesLeft x y + blk.hNetUpdatesRight x y)) }
  { blk1 with
    huStar := blk1.huStar.set x y
      (blk1.hu x y - (blk1.maxTimestep / blk1.dx)
        * (blk1.huNetUpdatesLeft x y + blk1.huNetUpdatesRight x y)) }

/-- The loops that set the intermediary states (lines 645-650). -/
def intermediateStates [Add α] [Sub α] [Mul α] [Div α]
    (blk : SWE_DimensionalSplittingChameleon α) : SWE_DimensionalSplittingChameleon α :=
  forLoop 1 (blk.nx + 1) (fun x => forLoop 0 (blk.ny + 2) (fun y => intermediateCell x y)) blk

/-- One `solver.computeNetUpdates` call of the y-sweep, on the edge between the
cells `(x, y)` and `(x, y + 1)`; the second component is the local
`maxVerticalWaveSpeed`. -/
def verticalEdge (solver : Solver α) (x y : Nat)
    (st : SWE_DimensionalSplittingChameleon α × α) : SWE_DimensionalSplittingChameleon α × α :=
  let blk := st.1
  let r := solver (blk.h x y) (blk.h x (y + 1)) (blk.hv x y) (blk.hv x (y + 1))
    (blk.b x y) (blk.b x (y + 1)) st.2
  ({ blk with
      hNetUpdatesBelow := blk.hNetUpdatesBelow.set x y r.hUpdateLeft
      hNetUpdatesAbove := blk.hNetUpdatesAbove.set x (y + 1) r.hUpdateRight
      hvNetUpdatesBelow := blk.hvNetUpdatesBelow.set x y r.huUpdateLeft
      hvNetUpdatesAbove := blk.hvNetUpdatesAbove.set x (y + 1) r.huUpdateRight },
    r.maxWaveSpeed)

/-- The y-sweep loops of `computeNumericalFluxesVertical` (lines 658-674), run in
source order, with `maxVerticalWaveSpeed` starting at `(float) 0.`. -/
def ySweep [Zero α] (solver : Solver α) (blk : SWE_DimensionalSplittingChameleon α) :
    SWE_DimensionalSplittingChameleon α × α :=
  forLoop 1 (blk.nx + 1)
    (fun x => forLoop 0 (blk.ny + 1) (fun y => verticalEdge solver x y)) (blk, 0)

/-- The member function `computeNumericalFluxesVertical` (lines 638-706): the
intermediary states, then the y-sweep.  Its CFL assertion (line 680) is
commented out, so the function always returns. -/
def computeNumericalFluxesVertical [Zero α] [Add α] [Sub α] [Mul α] [Div α]
    (allGhostlayersInSync : SWE_DimensionalSplittingChameleon α → Bool)
    (solver : Solver α) (blk : SWE_DimensionalSplittingChameleon α) :
    SWE_DimensionalSplittingChameleon α :=
  if !allGhostlayersInSync blk then blk
  else (ySweep solver (intermediateStates blk)).1

/-- The function `std::abs` on a scalar. -/
def fabs [Zero α] [Neg α] [LT α] [DecidableRel (fun a b : α => a < b)] (a : α) : α :=
  if a < 0 then -a else a

/-- The body of the update loop (lines 727-729). -/
def updateCell [Add α] [Sub α] [Mul α] [Div α] (x y : Nat)
    (blk : SWE_DimensionalSplittingChameleon α) : SWE_DimensionalSplittingChameleon α :=
  let blk1 := { blk with
    h := blk.h.set x y
      (blk.hStar x y - (blk.maxTimestep / blk.dx)
        * (blk.hNetUpdatesBelow x y + blk.hNetUpdatesAbove x y)) }
  let blk2 := { blk1 with hu := blk1.hu.set x y (blk1.huStar x y) }
  { blk2 with
    hv := blk2.hv.set x y
      (blk2.hv x y - (blk2.maxTimestep / blk2.dx)
        * (blk2.hvNetUpdatesBelow x y + blk2.hvNetUpdatesAbove x y)) }

/-- The update loops (lines 725-731). -/
def updateLoops [Add α] [Sub α] [Mul α] [Div α]
    (blk : SWE_DimensionalSplittingChameleon α) : SWE_DimensionalSplittingChameleon α :=
  forLoop 1 (blk.nx + 1) (fun x => forLoop 1 (blk.ny + 1) (fun y => updateCell x y)) blk

/-- The condition of the `assert` of `updateUnknowns` (line 722). -/
def timestepAssertion [Zero α] [Sub α] [Neg α] [LT α] [DecidableRel (fun a b : α => a < b)]
    [OfScientific α] (blk : SWE_DimensionalSplittingChameleon α) (dt : α) : Bool :=
  decide (fabs (dt - blk.maxTimestep) < 0.00001)

/-- The member function `updateUnknowns` (lines 714-735).  `NDEBUG` tells whether
the build defines that symbol, in which case `assert` expands to nothing. -/
def updateUnknowns [Zero α] [Add α] [Sub α] [Mul α] [Div α] [Neg α] [LT α]
    [DecidableRel (fun a b : α => a < b)] [OfScientific α] (NDEBUG : Bool)
    (allGhostlayersInSync : SWE_DimensionalSplittingChameleon α → Bool)
    (blk : SWE_DimensionalSplittingChameleon α) (dt : α) :
    Run (SWE_DimensionalSplittingChameleon α) :=
  if !allGhostlayersInSync blk then .returned blk
  else if !NDEBUG && !timestepAssertion blk dt then .assertionViolation blk
  else .returned (updateLoops blk)

/-- The assignment `block->maxTimestep = t`. -/
def setMaxTimestep (blk : SWE_DimensionalSplittingChameleon α) (t : α) :
    SWE_DimensionalSplittingChameleon α :=
  { blk with maxTimestep := t }

/-- The condition of the `assert` of `computeNumericalFluxesVerticalKernel`
(line 626), for the value of the local `maxVerticalWaveSpeed`. -/
def cflAssertionVertical [Mul α] [Div α] [LT α] [DecidableRel (fun a b : α => a < b)]
    [OfScientific α] (blk : SWE_DimensionalSplittingChameleon α)
    (maxVerticalWaveSpeed : α) : Bool :=
  decide (blk.maxTimestep < 0.7 * (blk.dy / maxVerticalWaveSpeed))

/-- The free function `computeNumericalFluxesVerticalKernel` (lines 559-631) on a
block whose arrays are the ones passed in; `maxTimestep` is the value behind
the pointer of that name.  `NDEBUG` tells whether the build defines that
symbol, in which case the assertion is compiled out. -/
def computeNumericalFluxesVerticalKernel [Zero α] [Add α] [Sub α] [Mul α] [Div α] [LT α]
    [DecidableRel (fun a b : α => a < b)] [OfScientific α] (NDEBUG : Bool)
    (solver : Solver α) (blk : SWE_DimensionalSplittingChameleon α) (maxTimestep : α) :
    Run (SWE_DimensionalSplittingChameleon α) :=
  let st := ySweep solver (intermediateStates (setMaxTimestep blk maxTimestep))
  if !NDEBUG && !cflAssertionVertical st.1 st.2 then .assertionViolation st.1
  else .returned st.1

/-- The value of the local `maxVerticalWaveSpeed` after the y-sweep loops of a
block that enters `computeNumericalFluxesVertical` or its kernel. -/
def maxVerticalWaveSpeed [Zero α] [Add α] [Sub α] [Mul α] [Div α] (solver : Solver α)
    (blk : SWE_DimensionalSplittingChameleon α) : α :=
  (ySweep solver (intermediateStates blk)).2

/-- The assignment `borderTimestep[side] = t`. -/
def setBorderTimestep (blk : SWE_DimensionalSplittingChameleon α) (side : BoundaryEdge)
    (t : α) : SWE_DimensionalSplittingChameleon α :=
  { blk with borderTimestep := fun e => if e = side then t else blk.borderTimestep e }

/-- The body of the copy loops of a left or right edge (lines 296-298 and
304-306): entry `i` of column `xSource` of the neighbour's `h`, `hu`, `hv`
(read through `getWaterHeight()`, `getMomentumHorizontal()`,
`getMomentumVertical()`) goes to entry `i` of column `xGhost` of the ghost
buffers. -/
def receiveColumnCell (xGhost xSource : Nat) (neighbour : SWE_DimensionalSplittingChameleon α)
    (i : Nat) (blk : SWE_DimensionalSplittingChameleon α) :
    SWE_DimensionalSplittingChameleon α :=
  let blk1 := { blk with bufferH := blk.bufferH.set xGhost i (neighbour.h xSource i) }
  let blk2 := { blk1 with bufferHu := blk1.bufferHu.set xGhost i (neighbour.hu xSource i) }
  { blk2 with bufferHv := blk2.bufferHv.set xGhost i (neighbour.hv xSource i) }

/-- The body of the copy loops of a top or bottom edge (lines 312-314 and
320-322): entry `i` of row `ySource` of the neighbour goes to entry `i` of row
`yGhost` of the ghost buffers. -/
def receiveRowCell (yGhost ySource : Nat) (neighbour : SWE_DimensionalSplittingChameleon α)
    (i : Nat) (blk : SWE_DimensionalSplittingChameleon α) :
    SWE_DimensionalSplittingChameleon α :=
  let blk1 := { blk with bufferH := blk.bufferH.set i yGhost (neighbour.h i ySource) }
  let blk2 := { blk1 with bufferHu := blk1.bufferHu.set i yGhost (neighbour.hu i ySource) }
  { blk2 with bufferHv := blk2.bufferHv.set i yGhost (neighbour.hv i ySource) }

/-- The condition `boundaryType[side] == CONNECT_WITHIN_RANK && isReceivable(side)`
of the four in-process blocks of `receiveGhostLayer`; `isReceivable` is the
value that the base-class member function of that name returns for each side. -/
def receivesLocally (isReceivable : BoundaryEdge → Bool)
    (blk : SWE_DimensionalSplittingChameleon α) (side : BoundaryEdge) : Bool :=
  decide (blk.boundaryType side = BoundaryType.CONNECT_WITHIN_RANK) && isReceivable side

/-- The `BND_RIGHT` block of `receiveGhostLayer` (lines 293-300); `right` is the
block behind the pointer of that name, and `getTotalLocalTimestep()` reads its
`totalLocalTimestep`. -/
def receiveRight (isReceivable : BoundaryEdge → Bool)
    (right : SWE_DimensionalSplittingChameleon α) (blk : SWE_DimensionalSplittingChameleon α) :
    SWE_DimensionalSplittingChameleon α :=
  if receivesLocally isReceivable blk .BND_RIGHT then
    forLoop 1 (blk.ny + 1) (receiveColumnCell (blk.nx + 1) 1 right)
      (setBorderTimestep blk .BND_RIGHT right.totalLocalTimestep)
  else blk

/-- The `BND_LEFT` block of `receiveGhostLayer` (lines 301-308): the column read
from the neighbour is this block's `nx`. -/
def receiveLeft (isReceivable : BoundaryEdge → Bool)
    (left : SWE_DimensionalSplittingChameleon α) (blk : SWE_DimensionalSplittingChameleon α) :
    SWE_DimensionalSplittingChameleon α :=
  if receivesLocally isReceivable blk .BND_LEFT then
    forLoop 1 (blk.ny + 1) (receiveColumnCell 0 blk.nx left)
      (setBorderTimestep blk .BND_LEFT left.totalLocalTimestep)
  else blk

/-- The `BND_TOP` block of `receiveGhostLayer` (lines 309-316). -/
def receiveTop (isReceivable : BoundaryEdge → Bool)
    (top : SWE_DimensionalSplittingChameleon α) (blk : SWE_DimensionalSplittingChameleon α) :
    SWE_DimensionalSplittingChameleon α :=
  if receivesLocally isReceivable blk .BND_TOP then
    forLoop 1 (blk.nx + 1) (receiveRowCell (blk.ny + 1) 1 top)
      (setBorderTimestep blk .BND_TOP top.totalLocalTimestep)
  else blk

/-- The `BND_BOTTOM` block of `receiveGhostLayer` (lines 317-324): the row read
from the neighbour is this block's `ny`. -/
def receiveBottom (isReceivable : BoundaryEdge → Bool)
    (bottom : SWE_DimensionalSplittingChameleon α) (blk : SWE_DimensionalSplittingChameleon α) :
    SWE_DimensionalSplittingChameleon α :=
  if receivesLocally isReceivable blk .BND_BOTTOM then
    forLoop 1 (blk.nx + 1) (receiveRowCell 0 blk.ny bottom)
      (setBorderTimestep blk .BND_BOTTOM bottom.totalLocalTimestep)
  else blk

/-- The in-process part of `receiveGhostLayer` (lines 289-324): the four
`CONNECT_WITHIN_RANK` blocks in source order. -/
def receiveGhostLayerLocal (isReceivable : BoundaryEdge → Bool)
    (right left top bottom : SWE_DimensionalSplittingChameleon α)
    (blk : SWE_DimensionalSplittingChameleon α) : SWE_DimensionalSplittingChameleon α :=
  receiveBottom isReceivable bottom
    (receiveTop isReceivable top
      (receiveLeft isReceivable left
        (receiveRight isReceivable right blk)))

/-- The member function `receiveGhostLayer` (lines 289-441).  The transport is
external: `mpiReceive` gives the block once the sixteen `MPI_Irecv` have
written what they received and the code that `MPI_Waitall` returns.
`MPI_SUCCESS` is the constant of the MPI header; `checkAllGhostlayers` is a
member function of the base class.  The result is the list of the lines printed
(rank and code of `"%d: No success %d"`) and the block on return; the function
has no other exit. -/
def receiveGhostLayer (isReceivable : BoundaryEdge → Bool)
    (right left top bottom : SWE_DimensionalSplittingChameleon α)
    (mpiReceive : SWE_DimensionalSplittingChameleon α → SWE_DimensionalSplittingChameleon α × Int)
    (MPI_SUCCESS : Int)
    (checkAllGhostlayers :
      SWE_DimensionalSplittingChameleon α → SWE_DimensionalSplittingChameleon α)
    (blk : SWE_DimensionalSplittingChameleon α) :
    List (Int × Int) × SWE_DimensionalSplittingChameleon α :=
  let blk1 := receiveGhostLayerLocal isReceivable right left top bottom blk
  let received := mpiReceive blk1
  let code := received.2
  let printed := if code ≠ MPI_SUCCESS then [(received.1.myRank, code)] else []
  (printed, checkAllGhostlayers received.1)

/-- One full iteration of a block: x-sweep, y-sweep, then `updateUnknowns` with the
block's `maxTimestep` as `dt` (the order of the driver loop, swe_hpx.cpp lines
257-266, with the two sweeps of this block class). -/
def fullIteration [Zero α] [Add α] [Sub α] [Mul α] [Div α] [Neg α] [LT α]
    [DecidableRel (fun a b : α => a < b)] [OfScientific α] (NDEBUG : Bool)
    (allGhostlayersInSync : SWE_DimensionalSplittingChameleon α → Bool)
    (getRoundTimestep : SWE_DimensionalSplittingChameleon α → α → α)
    (solver : Solver α) (blk : SWE_DimensionalSplittingChameleon α) :
    Run (SWE_DimensionalSplittingChameleon α) :=
  let blk1 := computeNumericalFluxesHorizontal allGhostlayersInSync getRoundTimestep solver blk
  let blk2 := computeNumericalFluxesVertical allGhostlayersInSync solver blk1
  updateUnknowns NDEBUG allGhostlayersInSync blk2 blk2.maxTimestep

/-- A number of iterations, each a ghost refresh (`refreshGhosts`, external)
followed by one full iteration; an assertion violation ends the run. -/
def iterations [Zero α] [Add α] [Sub α] [Mul α] [Div α] [Neg α] [LT α]
    [DecidableRel (fun a b : α => a < b)] [OfScientific α] (NDEBUG : Bool)
    (allGhostlayersInSync : SWE_DimensionalSplittingChameleon α → Bool)
    (getRoundTimestep : SWE_DimensionalSplittingChameleon α → α → α)
    (solver : Solver α)
    (refreshGhosts : SWE_DimensionalSplittingChameleon α → SWE_DimensionalSplittingChameleon α) :
    Nat → SWE_DimensionalSplittingChameleon α → Run (SWE_DimensionalSplittingChameleon α)
  | 0, blk => .returned blk
  | n + 1, blk =>
    match fullIteration NDEBUG allGhostlayersInSync getRoundTimestep solver
        (refreshGhosts blk) with
    | .returned blk' =>
      iterations NDEBUG allGhostlayersInSync getRoundTimestep solver refreshGhosts n blk'
    | .assertionViolation blk' => .assertionViolation blk'

/-- Lake at rest at surface level `c`: on the whole block, ghost ring included, the
momenta are zero, `b + h = c` and `h > 0`. -/
def LakeAtRest [Zero α] [Add α] [LT α] (c : α) (blk : SWE_DimensionalSplittingChameleon α) :
    Prop :=
  ∀ x y, x ≤ blk.nx + 1 → y ≤ blk.ny + 1 →
    blk.hu x y = 0 ∧ blk.hv x y = 0 ∧ blk.b x y + blk.h x y = c ∧ 0 < blk.h x y

/-- A flux operator that returns zero net updates and a positive wave speed
whenever both sides of the edge have zero momentum, equal surface level `b + h`
and `h > 0`. -/
def WellBalanced [Zero α] [Add α] [LT α] (solver : Solver α) : Prop :=
  ∀ hL hR huL huR bL bR w : α, huL = 0 → huR = 0 → bL + hL = bR + hR → 0 < hL → 0 < hR →
    (solver hL hR huL huR bL bR w).hUpdateLeft = 0 ∧
    (solver hL hR huL huR bL bR w).hUpdateRight = 0 ∧
    (solver hL hR huL huR bL bR w).huUpdateLeft = 0 ∧
    (solver hL hR huL huR bL bR w).huUpdateRight = 0 ∧
    0 < (solver hL hR huL huR bL bR w).maxWaveSpeed

/-! ### The transfer descriptors of the ghost exchange

`int` offsets are unbounded here: an array of `(nx + 2) * (ny + 2)` floats that
can be allocated has fewer than `2^31` elements in every run of the program, so
no offset computed below wraps. -/

/-- The arguments `count`, `blocklength`, `stride` of an
`MPI_Type_vector(count, blocklength, stride, MPI_FLOAT, _)` call. -/
structure VectorType where
  count : Nat
  blocklength : Nat
  stride : Nat

/-- The element offsets, from the first element of the array, that a transfer
of `count` items of `MPI_FLOAT` at `getRawPointer() + startIndex` addresses. -/
def contiguousOffsets (startIndex count : Nat) : List Nat :=
  (List.range count).map (fun k => startIndex + k)

/-- The element offsets that a transfer of one item of a vector type of floats
addresses when its buffer argument points `start` elements into the array:
block `i` of the `count` blocks begins `i * stride` elements after the buffer
and holds `blocklength` elements. -/
def vectorOffsets (t : VectorType) (start : Nat) : List Nat :=
  (List.range (t.count * t.blocklength)).map
    (fun k => start + (k / t.blocklength) * t.stride + k % t.blocklength)

/-- The datatype committed by the constructor (line 103):
`MPI_Type_vector(nx, 1, ny + 2, MPI_FLOAT, &HORIZONTAL_BOUNDARY)`. -/
def HORIZONTAL_BOUNDARY (nx ny : Nat) : VectorType :=
  { count := nx, blocklength := 1, stride := ny + 2 }

/-- The element offsets of `h` (and likewise `hu`, `hv`) that the `MPI_Isend`
calls of `setGhostLayer` (lines 220-286) address on each side.
`elementOffset x y` is the offset of the element `[x][y]`, so that the buffer
argument `&h[1][1]` points `elementOffset 1 1` elements into the array; the
class `Float2D` that fixes it is not among the sources, so it is a parameter. -/
def setGhostLayerOffsets (elementOffset : Nat → Nat → Nat) (nx ny : Nat) :
    BoundaryEdge → List Nat
  | .BND_LEFT => contiguousOffsets (ny + 2 + 1) ny
  | .BND_RIGHT => contiguousOffsets (nx * (ny + 2) + 1) ny
  | .BND_BOTTOM => vectorOffsets (HORIZONTAL_BOUNDARY nx ny) (elementOffset 1 1)
  | .BND_TOP => vectorOffsets (HORIZONTAL_BOUNDARY nx ny) (elementOffset 1 ny)

/-- The element offsets of `bufferH` (and likewise `bufferHu`, `bufferHv`) that
the `MPI_Irecv` calls of `receiveGhostLayer` (lines 369-426) address on each
side. -/
def receiveGhostLayerOffsets (elementOffset : Nat → Nat → Nat) (nx ny : Nat) :
    BoundaryEdge → List Nat
  | .BND_LEFT => contiguousOffsets 1 ny
  | .BND_RIGHT => contiguousOffsets ((nx + 1) * (ny + 2) + 1) ny
  | .BND_BOTTOM => vectorOffsets (HORIZONTAL_BOUNDARY nx ny) (elementOffset 1 0)
  | .BND_TOP => vectorOffsets (HORIZONTAL_BOUNDARY nx ny) (elementOffset 1 (ny + 1))

/-! ### The array accesses of the sweeps and the update -/

/-- The arrays of a block that the sweeps and the update index. -/
inductive BlockArray where
  | h
  | hu
  | hv
  | b
  | hStar
  | huStar
  | hNetUpdatesLeft
  | hNetUpdatesRight
  | huNetUpdatesLeft
  | huNetUpdatesRight
  | hNetUpdatesBelow
  | hNetUpdatesAbove
  | hvNetUpdatesBelow
  | hvNetUpdatesAbove
  deriving DecidableEq

/-- One evaluation of an index expression `array[x][y]`; `isWrite` tells whether
the element is assigned (or handed to the solver as a result reference). -/
structure ArrayAccess where
  array : BlockArray
  x : Nat
  y : Nat
  isWrite : Bool
  deriving DecidableEq

/-- The shapes `(cols, rows)` that the constructor gives the arrays (lines
76-99).  The state arrays `h`, `hu`, `hv`, `b` are allocated by the base-class
constructor, which is not among the sources; theirs is the shape that the
assertions of `setGhostLayer` (lines 200-205) check. -/
def allocatedShape (nx ny : Nat) : BlockArray → Nat × Nat
  | .h => (nx + 2, ny + 2)
  | .hu => (nx + 2, ny + 2)
  | .hv => (nx + 2, ny + 2)
  | .b => (nx + 2, ny + 2)
  | .hStar => (nx + 1, ny + 2)
  | .huStar => (nx + 1, ny + 2)
  | .hNetUpdatesLeft => (nx + 2, ny + 2)
  | .hNetUpdatesRight => (nx + 2, ny + 2)
  | .huNetUpdatesLeft => (nx + 2, ny + 2)
  | .huNetUpdatesRight => (nx + 2, ny + 2)
  | .hNetUpdatesBelow => (nx + 1, ny + 2)
  | .hNetUpdatesAbove => (nx + 1, ny + 2)
  | .hvNetUpdatesBelow => (nx + 1, ny + 2)
  | .hvNetUpdatesAbove => (nx + 1, ny + 2)

/-- The index expressions of the `computeNetUpdates` call of the x-sweep
(lines 523-530), in source order. -/
def horizontalEdgeAccesses (x y : Nat) : List ArrayAccess :=
  [ ⟨.h, x, y, false⟩, ⟨.h, x + 1, y, false⟩,
    ⟨.hu, x, y, false⟩, ⟨.hu, x + 1, y, false⟩,
    ⟨.b, x, y, false⟩, ⟨.b, x + 1, y, false⟩,
    ⟨.hNetUpdatesLeft, x, y, true⟩, ⟨.hNetUpdatesRight, x + 1, y, true⟩,
    ⟨.huNetUpdatesLeft, x, y, true⟩, ⟨.huNetUpdatesRight, x + 1, y, true⟩ ]

/-- The index expressions of the loop body that sets the intermediary states
(lines 647-648). -/
def intermediateCellAccesses (x y : Nat) : List ArrayAccess :=
  [ ⟨.hStar, x, y, true⟩, ⟨.h, x, y, false⟩,
    ⟨.hNetUpdatesLeft, x, y, false⟩, ⟨.hNetUpdatesRight, x, y, false⟩,
    ⟨.huStar, x, y, true⟩, ⟨.hu, x, y, false⟩,
    ⟨.huNetUpdatesLeft, x, y, false⟩, ⟨.huNetUpdatesRight, x, y, false⟩ ]

/-- The index expressions of the `computeNetUpdates` call of the y-sweep
(lines 665-672). -/
def verticalEdgeAccesses (x y : Nat) : List ArrayAccess :=
  [ ⟨.h, x, y, false⟩, ⟨.h, x, y + 1, false⟩,
    ⟨.hv, x, y, false⟩, ⟨.hv, x, y + 1, false⟩,
    ⟨.b, x, y, false⟩, ⟨.b, x, y + 1, false⟩,
    ⟨.hNetUpdatesBelow, x, y, true⟩, ⟨.hNetUpdatesAbove, x, y + 1, true⟩,
    ⟨.hvNetUpdatesBelow, x, y, true⟩, ⟨.hvNetUpdatesAbove, x, y + 1, true⟩ ]

/-- The index expressions of the body of the update loop (lines 727-729). -/
def updateCellAccesses (x y : Nat) : List ArrayAccess :=
  [ ⟨.h, x, y, true⟩, ⟨.hStar, x, y, false⟩,
    ⟨.hNetUpdatesBelow, x, y, false⟩, ⟨.hNetUpdatesAbove, x, y, false⟩,
    ⟨.hu, x, y, true⟩, ⟨.huStar, x, y, false⟩,
    ⟨.hv, x, y, true⟩, ⟨.hv, x, y, false⟩,
    ⟨.hvNetUpdatesBelow, x, y, false⟩, ⟨.hvNetUpdatesAbove, x, y, false⟩ ]

/-- The accesses of the x-sweep loops (lines 516-532), in execution order. -/
def xSweepAccesses (nx ny : Nat) : List ArrayAccess :=
  forLoop 0 (nx + 1)
    (fun x => forLoop 0 (ny + 2) (fun y acc => acc ++ horizontalEdgeAccesses x y)) []

/-- The accesses of the loops that set the intermediary states (lines 645-650). -/
def intermediateStatesAccesses (nx ny : Nat) : List ArrayAccess :=
  forLoop 1 (nx + 1)
    (fun x => forLoop 0 (ny + 2) (fun y acc => acc ++ intermediateCellAccesses x y)) []

/-- The accesses of the y-sweep loops (lines 658-674). -/
def ySweepAccesses (nx ny : Nat) : List ArrayAccess :=
  forLoop 1 (nx + 1)
    (fun x => forLoop 0 (ny + 1) (fun y acc => acc ++ verticalEdgeAccesses x y)) []

/-- The accesses of the update loops of `updateUnknowns` (lines 725-731). -/
def updateLoopsAccesses (nx ny : Nat) : List ArrayAccess :=
  forLoop 1 (nx + 1)
    (fun x => forLoop 1 (ny + 1) (fun y acc => acc ++ updateCellAccesses x y)) []

/-- The entries that a list of accesses writes. -/
def writtenEntries (l : List ArrayAccess) : List (BlockArray × Nat × Nat) :=
  (l.filter (fun a => a.isWrite)).map (fun a => (a.array, a.x, a.y))

end SWE_DimensionalSplittingChameleon

/-! ### Scalars with the special values of `float`

Exact rational arithmetic on the finite values, and the IEEE 754 rules for the
infinities and for not-a-number (rounding and the sign of zero are left out: a
zero divisor counts as `+0`). -/

/-- A `float` value: a finite number, an infinity, or not-a-number. -/
inductive XReal where
  | num (q : ℚ)
  | posInf
  | negInf
  | nan
  deriving DecidableEq

namespace XReal

/-- Negation. -/
def neg : XReal → XReal
  | num q => num (-q)
  | posInf => negInf
  | negInf => posInf
  | nan => nan

/-- Addition: `inf + (-inf)` is not a number. -/
def add : XReal → XReal → XReal
  | nan, _ => nan
  | _, nan => nan
  | num a, num b => num (a + b)
  | posInf, negInf => nan
  | negInf, posInf => nan
  | posInf, _ => posInf
  | _, posInf => posInf
  | negInf, _ => negInf
  | _, negInf => negInf

/-- The product of `+inf` with a value: `inf * 0` is not a number. -/
def mulPosInf : XReal → XReal
  | nan => nan
  | num q => if q = 0 then nan else if 0 < q then posInf else negInf
  | posInf => posInf
  | negInf => negInf

/-- Multiplication. -/
def mul : XReal → XReal → XReal
  | nan, _ => nan
  | _, nan => nan
  | num a, num b => num (a * b)
  | posInf, x => mulPosInf x
  | negInf, x => neg (mulPosInf x)
  | x, posInf => mulPosInf x
  | x, negInf => neg (mulPosInf x)

/-- Division: a nonzero number over zero is an infinity, `0 / 0` and `inf / inf`
are not numbers, a number over an infinity is zero. -/
def div : XReal → XReal → XReal
  | nan, _ => nan
  | _, nan => nan
  | num a, num b =>
    if b = 0 then (if a = 0 then nan else if 0 < a then posInf else negInf) else num (a / b)
  | num _, posInf => num 0
  | num _, negInf => num 0
  | posInf, num b => if 0 ≤ b then posInf else negInf
  | negInf, num b => if 0 ≤ b then negInf else posInf
  | posInf, posInf => nan
  | posInf, negInf => nan
  | negInf, posInf => nan
  | negInf, negInf => nan

/-- The comparison `<`: false as soon as one side is not a number. -/
def blt : XReal → XReal → Bool
  | nan, _ => false
  | _, nan => false
  | num a, num b => decide (a < b)
  | negInf, negInf => false
  | negInf, _ => true
  | _, negInf => false
  | posInf, _ => false
  | num _, posInf => true

instance : Zero XReal := ⟨num 0⟩

instance : Neg XReal := ⟨neg⟩

instance : Add XReal := ⟨add⟩

instance : Sub XReal := ⟨fun a b => add a (neg b)⟩

instance : Mul XReal := ⟨mul⟩

instance : Div XReal := ⟨div⟩

instance : LT XReal := ⟨fun a b => blt a b = true⟩

instance : DecidableRel (fun a b : XReal => a < b) :=
  fun a b => inferInstanceAs (Decidable (blt a b = true))

instance : OfScientific XReal :=
  ⟨fun m s e => num (OfScientific.ofScientific m s e)⟩

end XReal

/-! ### Binary32

The `float` of the program: IEEE 754 binary32 with rounding to nearest, ties to
even, after every operation (no contraction of a product and a sum into one
fused operation).  The two zeros are one value, and there is one not-a-number. -/

/-- Rounding to the nearest integer, ties to the even one. -/
def roundHalfEven (x : ℚ) : ℤ :=
  if x - ⌊x⌋ < 1 / 2 then ⌊x⌋
  else if 1 / 2 < x - ⌊x⌋ then ⌊x⌋ + 1
  else if ⌊x⌋ % 2 = 0 then ⌊x⌋ else ⌊x⌋ + 1

/-- The exponent of the unit in the last place of the binary32 values next to
`q`: 24 significant bits, and the exponent of the subnormal range at the
bottom. -/
def ulpExponent (q : ℚ) : ℤ := max (Int.log 2 |q| - 23) (-149)

/-- The binary32 value nearest to the rational `q`: an infinity from `2^128`
on. -/
def roundToBinary32 (q : ℚ) : XReal :=
  let v : ℚ := (roundHalfEven (q / (2 : ℚ) ^ ulpExponent q) : ℚ) * (2 : ℚ) ^ ulpExponent q
  if (2 : ℚ) ^ (128 : ℕ) ≤ v then XReal.posInf
  else if v ≤ -(2 : ℚ) ^ (128 : ℕ) then XReal.negInf
  else XReal.num v

/-- A `float` variable of the program. -/
structure Binary32 where
  val : XReal
  deriving DecidableEq

namespace Binary32

/-- The result of an operation whose exact value is `x`. -/
def round : XReal → Binary32
  | .num q => ⟨roundToBinary32 q⟩
  | x => ⟨x⟩

instance : Zero Binary32 := ⟨⟨XReal.num 0⟩⟩

instance : Neg Binary32 := ⟨fun a => ⟨-a.val⟩⟩

instance : Add Binary32 := ⟨fun a b => round (a.val + b.val)⟩

instance : Sub Binary32 := ⟨fun a b => round (a.val - b.val)⟩

instance : Mul Binary32 := ⟨fun a b => round (a.val * b.val)⟩

instance : Div Binary32 := ⟨fun a b => round (a.val / b.val)⟩

instance : LT Binary32 := ⟨fun a b => a.val < b.val⟩

instance : DecidableRel (fun a b : Binary32 => a < b) :=
  fun a b => inferInstanceAs (Decidable (a.val < b.val))

/-- A decimal literal converted to `float`, as `(float) .4` is.  The tolerance
`0.00001` of the timestep assertion is a `double` in the source; its conversion
moves it by less than `1e-12`, which leaves the comparison as it is at the
differences 0 and not-a-number. -/
instance : OfScientific Binary32 :=
  ⟨fun m s e => round (XReal.num (OfScientific.ofScientific m s e))⟩

/-- Neither an infinity nor not-a-number. -/
def isFinite (a : Binary32) : Bool :=
  match a.val with
  | .num _ => true
  | _ => false

/-- The number that a finite value stands for (0 for the others). -/
def toRat (a : Binary32) : ℚ :=
  match a.val with
  | .num q => q
  | _ => 0

/-- A value that a `float` variable can hold: rounding leaves it as it is. -/
def IsValue (a : Binary32) : Prop := round a.val = a

end Binary32

namespace SWE_DimensionalSplittingChameleon

/-- The sums of the two net updates of every interior cell, as the two sweeps of
one iteration leave them, are finite. -/
def NetUpdateSumsFinite
    (allGhostlayersInSync : SWE_DimensionalSplittingChameleon Binary32 → Bool)
    (getRoundTimestep : SWE_DimensionalSplittingChameleon Binary32 → Binary32 → Binary32)
    (solver : Solver Binary32) (blk : SWE_DimensionalSplittingChameleon Binary32) : Prop :=
  ∀ x y, 1 ≤ x → x ≤ blk.nx → 1 ≤ y → y ≤ blk.ny →
    ((xSweep solver blk).1.hNetUpdatesLeft x y
      + (xSweep solver blk).1.hNetUpdatesRight x y).isFinite = true ∧
    ((xSweep solver blk).1.huNetUpdatesLeft x y
      + (xSweep solver blk).1.huNetUpdatesRight x y).isFinite = true ∧
    ((computeNumericalFluxesVertical allGhostlayersInSync solver
        (computeNumericalFluxesHorizontal allGhostlayersInSync getRoundTimestep solver
          blk)).hNetUpdatesBelow x y
      + (computeNumericalFluxesVertical allGhostlayersInSync solver
        (computeNumericalFluxesHorizontal allGhostlayersInSync getRoundTimestep solver
          blk)).hNetUpdatesAbove x y).isFinite = true ∧
    ((computeNumericalFluxesVertical allGhostlayersInSync solver
        (computeNumericalFluxesHorizontal allGhostlayersInSync getRoundTimestep solver
          blk)).hvNetUpdatesBelow x y
      + (computeNumericalFluxesVertical allGhostlayersInSync solver
        (computeNumericalFluxesHorizontal allGhostlayersInSync getRoundTimestep solver
          blk)).hvNetUpdatesAbove x y).isFinite = true

end SWE_DimensionalSplittingChameleon

/-! ### A concrete block -/

/-- A block of 1 x 1 interior cells over the rationals: water height 2, stored
intermediate height 1, everything else zero, `dx = dy = 1`, `maxTimestep = 0`. -/
def exampleBlock : SWE_DimensionalSplittingChameleon ℚ :=
  { nx := 1
    ny := 1
    dx := 1
    dy := 1
    originX := 0
    originY := 0
    localTimestepping := false
    h := fun _ _ => 2
    hu := fun _ _ => 0
    hv := fun _ _ => 0
    b := fun _ _ => 0
    bufferH := fun _ _ => 0
    bufferHu := fun _ _ => 0
    bufferHv := fun _ _ => 0
    hStar := fun _ _ => 1
    huStar := fun _ _ => 0
    hNetUpdatesLeft := fun _ _ => 0
    hNetUpdatesRight := fun _ _ => 0
    huNetUpdatesLeft := fun _ _ => 0
    huNetUpdatesRight := fun _ _ => 0
    hNetUpdatesBelow := fun _ _ => 0
    hNetUpdatesAbove := fun _ _ => 0
    hvNetUpdatesBelow := fun _ _ => 0
    hvNetUpdatesAbove := fun _ _ => 0
    maxTimestep := 0
    totalLocalTimestep := 0
    borderTimestep := fun _ => 0
    boundaryType := fun _ => BoundaryType.WALL
    neighbourRankId := fun _ => -1
    myRank := 0 }

/-- A flux operator that reports no net updates and raises the wave speed to at
least 1. -/
def exampleSolver : Solver ℚ :=
  fun _ _ _ _ _ _ w => { hUpdateLeft := 0, hUpdateRight := 0, huUpdateLeft := 0,
                         huUpdateRight := 0, maxWaveSpeed := max w 1 }

/-- Ghost layers that are always in sync. -/
def alwaysInSync : SWE_DimensionalSplittingChameleon ℚ → Bool := fun _ => true

/-- Ghost layers that are never in sync. -/
def neverInSync : SWE_DimensionalSplittingChameleon ℚ → Bool := fun _ => false

/-- A rounding of the timestep that halves it. -/
def halfTimestep : SWE_DimensionalSplittingChameleon ℚ → ℚ → ℚ := fun _ t => t / 2

/-- The concrete block with all four sides connected within the rank. -/
def connectedBlock : SWE_DimensionalSplittingChameleon ℚ :=
  { exampleBlock with boundaryType := fun _ => BoundaryType.CONNECT_WITHIN_RANK }

/-- A remainder block of the layout: 3 x 1 interior cells, connected within the
rank on all sides (5 cells over 2 block columns give columns of 2 and 3
cells). -/
def remainderBlock : SWE_DimensionalSplittingChameleon ℚ :=
  { exampleBlock with nx := 3, boundaryType := fun _ => BoundaryType.CONNECT_WITHIN_RANK }

/-- The left neighbour of the remainder block: 2 x 1 interior cells, with water
height `x` in column `x`. -/
def leftNeighbour : SWE_DimensionalSplittingChameleon ℚ :=
  { exampleBlock with nx := 2, h := fun x _ => (x : ℚ) }

/-- Every side is receivable. -/
def allReceivable : BoundaryEdge → Bool := fun _ => true

/-- A transport whose wait returns the error code 1 and that delivers nothing. -/
def failedTransport :
    SWE_DimensionalSplittingChameleon ℚ → SWE_DimensionalSplittingChameleon ℚ × Int :=
  fun blk => (blk, 1)

/-- A `checkAllGhostlayers` that leaves a trace: it stores 7 in `maxTimestep`. -/
def markChecked : SWE_DimensionalSplittingChameleon ℚ → SWE_DimensionalSplittingChameleon ℚ :=
  fun blk => SWE_DimensionalSplittingChameleon.setMaxTimestep blk 7

/-- A block of 1 x 1 interior cells over the scalars with special values: water
height 2, everything else zero, `dx = dy = 1`. -/
def stillBlock : SWE_DimensionalSplittingChameleon XReal :=
  { nx := 1
    ny := 1
    dx := XReal.num 1
    dy := XReal.num 1
    originX := 0
    originY := 0
    localTimestepping := false
    h := fun _ _ => XReal.num 2
    hu := fun _ _ => 0
    hv := fun _ _ => 0
    b := fun _ _ => 0
    bufferH := fun _ _ => 0
    bufferHu := fun _ _ => 0
    bufferHv := fun _ _ => 0
    hStar := fun _ _ => 0
    huStar := fun _ _ => 0
    hNetUpdatesLeft := fun _ _ => 0
    hNetUpdatesRight := fun _ _ => 0
    huNetUpdatesLeft := fun _ _ => 0
    huNetUpdatesRight := fun _ _ => 0
    hNetUpdatesBelow := fun _ _ => 0
    hNetUpdatesAbove := fun _ _ => 0
    hvNetUpdatesBelow := fun _ _ => 0
    hvNetUpdatesAbove := fun _ _ => 0
    maxTimestep := 0
    totalLocalTimestep := 0
    borderTimestep := fun _ => 0
    boundaryType := fun _ => BoundaryType.WALL
    neighbourRankId := fun _ => -1
    myRank := 0 }

/-- A flux operator that reports zero net updates and wave speed 0 on every
edge. -/
def stillSolver : Solver XReal :=
  fun _ _ _ _ _ _ _ => { hUpdateLeft := 0, hUpdateRight := 0, huUpdateLeft := 0,
                         huUpdateRight := 0, maxWaveSpeed := 0 }

/-- Ghost layers of the still block that are always in sync. -/
def stillInSync : SWE_DimensionalSplittingChameleon XReal → Bool := fun _ => true

/-- A rounding of the timestep that returns its argument. -/
def keepTimestep : SWE_DimensionalSplittingChameleon XReal → XReal → XReal := fun _ t => t

/-- A neighbour block that has advanced to time 5. -/
def laterNeighbour : SWE_DimensionalSplittingChameleon ℚ :=
  { exampleBlock with totalLocalTimestep := 5 }

/-! ## The Charm collector (`tools/CollectorCharm.hpp`)

`D` stands for `double`.  The members of the collector are declared in the base
class `Collector`, whose header is not among the sources:

* `flop_ctr` has a type `F` of that header; the conversions between `F` and
  `double` that the two assignments `arr[0] = flop_ctr` and
  `instance.flop_ctr = arr[0]` perform are parameters;
* `total_ctrs[i]` is a `std::chrono::duration<double>`, the type of the value
  that `deserialize` assigns to it, held as its `count()`, a `double` of
  seconds;
* `measure_ctrs[i]` is a `std::chrono::steady_clock::time_point`, held as the
  tick count `time_since_epoch().count()`, a 64-bit integer.  The tick period of
  the steady clock is fixed by the C++ library, not by the program; the number
  of ticks in one millisecond is a parameter.
-/

/-- Memory holding `double`s, addressed by element; a `double *` is an address
in it, and `arr[i]` is the element at address `arr + i`. -/
abbrev DoubleMemory (D : Type) := Nat → D

/-- The assignment `*p = v`. -/
def DoubleMemory.store {D : Type} (mem : DoubleMemory D) (p : Nat) (v : D) : DoubleMemory D :=
  fun q => if q = p then v else mem q

/-- The value that a 64-bit two's-complement integer holds for the exact result
`n`. -/
def wrapInt64 (n : Int) : Int := (n + 2 ^ 63) % 2 ^ 64 - 2 ^ 63

/-- The members of a `CollectorCharm` that `serialize` and `deserialize` read or
write. -/
structure CollectorCharm (F D : Type) where
  flop_ctr : F
  total_ctrs : Nat → D
  measure_ctrs : Nat → Int

namespace CollectorCharm

variable {F D : Type}

/-- The member function `serialize` (lines 21-35): the memory after the call and
the returned pointer.  `toDouble` is the conversion of `arr[0] = flop_ctr`,
`tickToDouble` the cast `(double)` of a tick count. -/
def serialize (toDouble : F → D) (tickToDouble : Int → D) (c : CollectorCharm F D)
    (mem : DoubleMemory D) (arr : Nat) (all : Bool) : DoubleMemory D × Nat :=
  let mem1 := mem.store (arr + 0) (toDouble c.flop_ctr)
  let mem2 := forLoop 0 4 (fun i m => m.store (arr + (i + 1)) (c.total_ctrs i)) mem1
  let mem3 :=
    if all then
      forLoop 0 4 (fun i m => m.store (arr + (i + 5)) (tickToDouble (c.measure_ctrs i))) mem2
    else mem2
  (mem3, arr)

/-- The static member function `deserialize` (lines 37-55).  `fresh` is the
default-constructed `instance`; `ofDouble` is the conversion of
`instance.flop_ctr = arr[0]`, `doubleToLong` the cast `(long)`;
`std::chrono::steady_clock::time_point(std::chrono::milliseconds(n))` is the
time point `n * ticksPerMillisecond` ticks after the epoch, the product being
formed in the 64-bit tick count.  The line printed for `CTR_WALL` is not part of
the result. -/
def deserialize (fresh : CollectorCharm F D) (ofDouble : D → F) (doubleToLong : D → Int)
    (ticksPerMillisecond : Int) (mem : DoubleMemory D) (arr : Nat) (all : Bool) :
    CollectorCharm F D :=
  let inst1 := { fresh with flop_ctr := ofDouble (mem (arr + 0)) }
  let inst2 := forLoop 0 4
    (fun i (c : CollectorCharm F D) =>
      { c with total_ctrs := fun j => if j = i then mem (arr + (i + 1)) else c.total_ctrs j })
    inst1
  if all then
    forLoop 0 4
      (fun i (c : CollectorCharm F D) =>
        { c with
          measure_ctrs := fun j =>
            if j = i then wrapInt64 (doubleToLong (mem (arr + (i + 5))) * ticksPerMillisecond)
            else c.measure_ctrs j })
      inst2
  else inst2

end CollectorCharm

/-! ### A concrete collector -/

/-- A collector with `double` members: 12 flops, totals of 1, 2, 3 and 4
seconds, and measurements started 5, 6, 7 and 8 ticks after the epoch. -/
def exampleCollector : CollectorCharm ℚ ℚ :=
  { flop_ctr := 12
    total_ctrs := fun i => (i : ℚ) + 1
    measure_ctrs := fun i => (i : Int) + 5 }

/-- A default-constructed collector with `double` members. -/
def freshCollector : CollectorCharm ℚ ℚ :=
  { flop_ctr := 0
    total_ctrs := fun _ => 0
    measure_ctrs := fun _ => 0 }

/-- The cast `(double)` of a tick count that a `double` represents exactly. -/
def exactTickToDouble : Int → ℚ := fun t => (t : ℚ)

/-- The cast `(long)` of a `double`: truncation towards zero. -/
def truncateToLong : ℚ → Int := fun q => Int.tdiv q.num (q.den : Int)

/-- Empty memory. -/
def zeroMemory : DoubleMemory ℚ := fun _ => 0

/-- The ticks per millisecond of a steady clock that counts nanoseconds. -/
def nanosecondClock : Int := 1000000

/-! ### Concrete blocks in binary32 -/

/-- The value 1. -/
def one32 : Binary32 := ⟨XReal.num 1⟩

/-- The value 3. -/
def three32 : Binary32 := ⟨XReal.num 3⟩

/-- Scenario A of the specification in binary32: 10 x 10 interior cells,
`dx = dy = 1`, flat bathymetry `b = -1`, water height `h = 1`, zero momentum,
all sides WALL. -/
def scenarioA32 : SWE_DimensionalSplittingChameleon Binary32 :=
  { nx := 10
    ny := 10
    dx := one32
    dy := one32
    originX := 0
    originY := 0
    localTimestepping := false
    h := fun _ _ => one32
    hu := fun _ _ => 0
    hv := fun _ _ => 0
    b := fun _ _ => -one32
    bufferH := fun _ _ => 0
    bufferHu := fun _ _ => 0
    bufferHv := fun _ _ => 0
    hStar := fun _ _ => 0
    huStar := fun _ _ => 0
    hNetUpdatesLeft := fun _ _ => 0
    hNetUpdatesRight := fun _ _ => 0
    huNetUpdatesLeft := fun _ _ => 0
    huNetUpdatesRight := fun _ _ => 0
    hNetUpdatesBelow := fun _ _ => 0
    hNetUpdatesAbove := fun _ _ => 0
    hvNetUpdatesBelow := fun _ _ => 0
    hvNetUpdatesAbove := fun _ _ => 0
    maxTimestep := 0
    totalLocalTimestep := 0
    borderTimestep := fun _ => 0
    boundaryType := fun _ => BoundaryType.WALL
    neighbourRankId := fun _ => -1
    myRank := 0 }

/-- The lake at rest of Scenario A on a block of 1 x 1 interior cells. -/
def smallLake : SWE_DimensionalSplittingChameleon Binary32 :=
  { scenarioA32 with nx := 1, ny := 1 }

/-- The small lake with a cell width of `2^100`. -/
def wideLake : SWE_DimensionalSplittingChameleon Binary32 :=
  { smallLake with dx := ⟨XReal.num (2 ^ 100)⟩, dy := ⟨XReal.num (2 ^ 100)⟩ }

/-- The small lake under local timestepping, with every stored net update equal
to 1. -/
def localLake : SWE_DimensionalSplittingChameleon Binary32 :=
  { smallLake with
    localTimestepping := true
    hNetUpdatesLeft := fun _ _ => one32
    hNetUpdatesRight := fun _ _ => one32
    huNetUpdatesLeft := fun _ _ => one32
    huNetUpdatesRight := fun _ _ => one32
    hNetUpdatesBelow := fun _ _ => one32
    hNetUpdatesAbove := fun _ _ => one32
    hvNetUpdatesBelow := fun _ _ => one32
    hvNetUpdatesAbove := fun _ _ => one32 }

/-- The wave speed `2^(-100)`. -/
def slowSpeed : Binary32 := ⟨XReal.num (1 / 2 ^ 100)⟩

/-- A flux operator that returns zero net updates and the wave speed `s` on
every edge. -/
def restSolver (s : Binary32) : Solver Binary32 :=
  fun _ _ _ _ _ _ _ =>
    { hUpdateLeft := 0, hUpdateRight := 0, huUpdateLeft := 0, huUpdateRight := 0,
      maxWaveSpeed := s }

/-- A flux operator that returns the net updates 1 and the wave speed 1 on every
edge. -/
def unitSolver : Solver Binary32 :=
  fun _ _ _ _ _ _ _ =>
    { hUpdateLeft := one32, hUpdateRight := one32, huUpdateLeft := one32,
      huUpdateRight := one32, maxWaveSpeed := one32 }

/-- Ghost layers that are always in sync. -/
def inSync32 : SWE_DimensionalSplittingChameleon Binary32 → Bool := fun _ => true

/-- A rounding of the timestep that returns its argument. -/
def keepTimestep32 : SWE_DimensionalSplittingChameleon Binary32 → Binary32 → Binary32 :=
  fun _ t => t

/-- A rounding of the timestep that returns 0. -/
def zeroTimestep32 : SWE_DimensionalSplittingChameleon Binary32 → Binary32 → Binary32 :=
  fun _ _ => 0

/-! ## Theorems -/

/-! ### Facts about the block-count loop -/

theorem blockCountYLoop_spec (P : Nat) :
    ∀ s : Nat, 1 ≤ s →
      ∃ y, blockCountYLoop P s = some y ∧ 1 ≤ y ∧ y ≤ s ∧ P % y = 0 ∧
        ∀ z, y < z → z ≤ s → P % z ≠ 0 := by
  intro s
  induction s with
  | zero => intro h; omega
  | succ n ih =>
    intro _
    by_cases hdiv : P % (n + 1) = 0
    · refine ⟨n + 1, ?_, by omega, le_refl _, hdiv, ?_⟩
      · simp [blockCountYLoop, hdiv]
      · intro z hz hz'; omega
    · have hn : 1 ≤ n := by
        rcases Nat.eq_zero_or_pos n with h0 | h0
        · subst h0; exact absurd (Nat.mod_one P) hdiv
        · exact h0
      obtain ⟨y, hy, hy1, hyn, hmod, hmax⟩ := ih hn
      refine ⟨y, ?_, hy1, by omega, hmod, ?_⟩
      · simp [blockCountYLoop, hdiv, hy]
      · intro z hz hz'
        rcases Nat.lt_or_ge n z with h | h
        · have : z = n + 1 := by omega
          subst this; exact hdiv
        · exact hmax z hz h

/-- The block counts of `P ≥ 1` ranks: the loop returns the largest divisor `y`
of `P` with `1 ≤ y ≤ ⌊√P⌋`. -/
theorem blockCount_facts (P : Nat) (hP : 1 ≤ P) :
    ∃ y, blockCountYLoop P (Nat.sqrt P) = some y ∧ 1 ≤ y ∧ y ≤ Nat.sqrt P ∧
      P / y * y = P ∧ y ≤ P / y ∧ ∀ z, y < z → z ≤ Nat.sqrt P → P % z ≠ 0 := by
  have hs : 1 ≤ Nat.sqrt P := Nat.sqrt_pos.2 hP
  obtain ⟨y, hy, hy1, hys, hmod, hmax⟩ := blockCountYLoop_spec P (Nat.sqrt P) hs
  refine ⟨y, hy, hy1, hys, Nat.div_mul_cancel (Nat.dvd_of_mod_eq_zero hmod), ?_, hmax⟩
  have h1 : y * y ≤ Nat.sqrt P * Nat.sqrt P := Nat.mul_le_mul hys hys
  have h2 : y * y ≤ P := le_trans h1 (Nat.sqrt_le P)
  exact (Nat.le_div_iff_mul_le (by omega)).2 h2

/-- Position of a rank in a grid of `X * Y` blocks. -/
theorem position_of_rank {P X Y r : Nat} (hY : 1 ≤ Y) (hXY : X * Y = P) (hr : r < P) :
    r / Y < X ∧ r % Y < Y ∧ r / Y * Y + r % Y = r := by
  refine ⟨?_, Nat.mod_lt _ (by omega), Nat.div_add_mod' r Y⟩
  apply Nat.div_lt_of_lt_mul
  rw [Nat.mul_comm, hXY]
  exact hr

/-- Rank of a grid position. -/
theorem rank_of_position {P X Y bx cy : Nat} (hXY : X * Y = P) (hx : bx < X) (hy : cy < Y) :
    bx * Y + cy < P ∧ (bx * Y + cy) / Y = bx ∧ (bx * Y + cy) % Y = cy := by
  have hY : 0 < Y := by omega
  refine ⟨?_, ?_, ?_⟩
  · have h1 : (bx + 1) * Y ≤ X * Y := Nat.mul_le_mul_right Y hx
    have h2 : (bx + 1) * Y = bx * Y + Y := by ring
    omega
  · rw [Nat.add_comm, Nat.add_mul_div_right _ _ hY, Nat.div_eq_of_lt hy, Nat.zero_add]
  · rw [Nat.add_comm, Nat.add_mul_mod_self_right, Nat.mod_eq_of_lt hy]

/-- Unfolding of `worker` once the loop result is known. -/
theorem worker_eq_of_loop {P y : Nat} (h : blockCountYLoop P (Nat.sqrt P) = some y)
    (r : Nat) (nx ny : Int) (sc : BoundaryEdge → BoundaryType) :
    ∃ L, worker r P nx ny sc = some L ∧ L.blockCountY = y ∧ L.blockCountX = P / y ∧
      L.localBlockPositionX = r / y ∧ L.localBlockPositionY = r % y ∧
      L.nxLocal = (if ((r / y : Nat) : Int) < ((P / y : Nat) : Int) - 1
        then Int.tdiv nx ((P / y : Nat) : Int)
        else nx - (((P / y : Nat) : Int) - 1) * Int.tdiv nx ((P / y : Nat) : Int)) ∧
      L.nyLocal = (if ((r % y : Nat) : Int) < (y : Int) - 1
        then Int.tdiv ny (y : Int)
        else ny - ((y : Int) - 1) * Int.tdiv ny (y : Int)) := by
  simp only [worker, h]
  exact ⟨_, rfl, rfl, rfl, rfl, rfl, rfl, rfl⟩

/-- Unfolding of the per-side results of `worker` once the loop result is
known. -/
theorem worker_sides_of_loop {P y : Nat} (h : blockCountYLoop P (Nat.sqrt P) = some y)
    (r : Nat) (nx ny : Int) (sc : BoundaryEdge → BoundaryType) :
    ∃ L, worker r P nx ny sc = some L ∧ L.blockCountY = y ∧ L.blockCountX = P / y ∧
      L.localBlockPositionX = r / y ∧ L.localBlockPositionY = r % y ∧
      L.myNeighbours .BND_LEFT = (if 0 < r / y then (r : Int) - (y : Int) else -1) ∧
      L.myNeighbours .BND_RIGHT =
        (if ((r / y : Nat) : Int) < ((P / y : Nat) : Int) - 1 then (r : Int) + (y : Int)
          else -1) ∧
      L.myNeighbours .BND_BOTTOM = (if 0 < r % y then (r : Int) - 1 else -1) ∧
      L.myNeighbours .BND_TOP =
        (if ((r % y : Nat) : Int) < (y : Int) - 1 then (r : Int) + 1 else -1) ∧
      L.boundaries .BND_LEFT = (if 0 < r / y then .CONNECT else sc .BND_LEFT) ∧
      L.boundaries .BND_RIGHT =
        (if ((r / y : Nat) : Int) < ((P / y : Nat) : Int) - 1 then .CONNECT
          else sc .BND_RIGHT) ∧
      L.boundaries .BND_BOTTOM = (if 0 < r % y then .CONNECT else sc .BND_BOTTOM) ∧
      L.boundaries .BND_TOP =
        (if ((r % y : Nat) : Int) < (y : Int) - 1 then .CONNECT else sc .BND_TOP) := by
  simp only [worker, h]
  exact ⟨_, rfl, rfl, rfl, rfl, rfl, rfl, rfl, rfl, rfl, rfl, rfl, rfl, rfl⟩

/-- Sum of the cell counts of a row of `m + 1` blocks: `m` blocks of `q` cells and
one block with the remainder. -/
theorem sum_local_cells (m : Nat) (n q : Int) (f : Nat → Int)
    (hf : ∀ i, i < m + 1 →
      f i = if (i : Int) < ((m + 1 : Nat) : Int) - 1 then q
        else n - (((m + 1 : Nat) : Int) - 1) * q) :
    ∑ i ∈ Finset.range (m + 1), f i = n := by
  rw [Finset.sum_range_succ, Finset.sum_congr rfl (g := fun _ => q)]
  · rw [hf m (by omega), if_neg (by push_cast; omega)]
    simp
  · intro i hi
    have hi' := Finset.mem_range.1 hi
    rw [hf i (by omega), if_pos (by push_cast; omega)]

/-! ### Process-grid layout -/

/-- C1: for every rank count `P ≥ 1` the layout computation of `worker`
terminates (the loop started at `⌊√P⌋` returns a value, without a division by
zero), with `blockCountX = P / blockCountY`, `blockCountY ≥ 1` and
`blockCountX * blockCountY = P`. -/
theorem worker_blockCounts (rank P : Nat) (nx ny : Int) (sc : BoundaryEdge → BoundaryType)
    (hP : 1 ≤ P) :
    ∃ L, worker rank P nx ny sc = some L ∧
      blockCountYLoop P (Nat.sqrt P) = some L.blockCountY ∧
      L.blockCountX = P / L.blockCountY ∧
      1 ≤ L.blockCountY ∧ L.blockCountX * L.blockCountY = P := by
  obtain ⟨y, hy, hy1, _, hmul, _, _⟩ := blockCount_facts P hP
  obtain ⟨L, hL, hLy, hLx, _⟩ := worker_eq_of_loop hy rank nx ny sc
  refine ⟨L, hL, ?_, ?_, ?_, ?_⟩
  · rw [hLy]; exact hy
  · rw [hLx, hLy]
  · rw [hLy]; exact hy1
  · rw [hLx, hLy]; exact hmul

/-- Instance of C1 at rank 3 of 6 ranks. -/
theorem worker_blockCounts_witness :
    1 ≤ 6 ∧ ∃ L, worker 3 6 100 100 (fun _ => BoundaryType.WALL) = some L ∧
      blockCountYLoop 6 (Nat.sqrt 6) = some L.blockCountY ∧
      L.blockCountX = 6 / L.blockCountY ∧
      1 ≤ L.blockCountY ∧ L.blockCountX * L.blockCountY = 6 :=
  ⟨by decide, worker_blockCounts 3 6 100 100 (fun _ => BoundaryType.WALL) (by decide)⟩

/-- C2: for every rank count `P ≥ 1` the block counts computed by `worker`
satisfy `blockCountX ≥ blockCountY`; they are equal when `P` is a perfect
square (and only then). -/
theorem worker_blockCountX_ge (rank P : Nat) (nx ny : Int)
    (sc : BoundaryEdge → BoundaryType) (hP : 1 ≤ P) :
    ∃ L, worker rank P nx ny sc = some L ∧ L.blockCountY ≤ L.blockCountX ∧
      (∀ k, P = k * k → L.blockCountX = k ∧ L.blockCountY = k) ∧
      (L.blockCountX = L.blockCountY → ∃ k, P = k * k) := by
  obtain ⟨y, hy, hy1, hys, hmul, hle, hmax⟩ := blockCount_facts P hP
  obtain ⟨L, hL, hLy, hLx, _⟩ := worker_eq_of_loop hy rank nx ny sc
  refine ⟨L, hL, ?_, ?_, ?_⟩
  · rw [hLx, hLy]; exact hle
  · intro k hk
    have hsq : Nat.sqrt P = k := by rw [hk]; exact Nat.sqrt_eq k
    have hk1 : 1 ≤ k := by
      rcases Nat.eq_zero_or_pos k with h0 | h0
      · subst h0; omega
      · exact h0
    have hyk : y = k := by
      rcases Nat.lt_or_ge y k with hlt | hge
      · exact absurd (by rw [hk]; exact Nat.mul_mod_left k k) (hmax k hlt (by omega))
      · omega
    rw [hLx, hLy, hyk]
    refine ⟨?_, rfl⟩
    rw [hk]; exact Nat.mul_div_cancel k (by omega)
  · intro hxy
    refine ⟨y, ?_⟩
    rw [hLx, hLy] at hxy
    rw [hxy] at hmul
    exact hmul.symm

/-- Instance of C2 at rank 0 of 12 ranks. -/
theorem worker_blockCountX_ge_witness :
    1 ≤ 12 ∧ ∃ L, worker 0 12 100 100 (fun _ => BoundaryType.WALL) = some L ∧
      L.blockCountY ≤ L.blockCountX ∧
      (∀ k, 12 = k * k → L.blockCountX = k ∧ L.blockCountY = k) ∧
      (L.blockCountX = L.blockCountY → ∃ k, 12 = k * k) :=
  ⟨by decide, worker_blockCountX_ge 0 12 100 100 (fun _ => BoundaryType.WALL) (by decide)⟩

/-- C3: for every `P ≥ 1` the map `r ↦ (r / blockCountY, r mod blockCountY)` that
`worker` uses for the block position is a bijection from the ranks `0..P-1`
onto the grid `{0..blockCountX-1} × {0..blockCountY-1}`, with inverse
`(bx, cy) ↦ bx * blockCountY + cy`: every rank lands inside the grid, every
grid position is the position of the rank `bx * blockCountY + cy < P`, and no
two ranks share a position. -/
theorem worker_position_bijection (P : Nat) (nx ny : Int)
    (sc : BoundaryEdge → BoundaryType) (hP : 1 ≤ P) :
    ∃ X Y : Nat,
      (∀ r, r < P → ∃ L, worker r P nx ny sc = some L ∧
        L.blockCountX = X ∧ L.blockCountY = Y ∧
        L.localBlockPositionX = r / Y ∧ L.localBlockPositionY = r % Y ∧
        L.localBlockPositionX < X ∧ L.localBlockPositionY < Y ∧
        L.localBlockPositionX * Y + L.localBlockPositionY = r) ∧
      (∀ bx cy, bx < X → cy < Y → bx * Y + cy < P ∧
        ∃ L, worker (bx * Y + cy) P nx ny sc = some L ∧
          L.localBlockPositionX = bx ∧ L.localBlockPositionY = cy) ∧
      (∀ r s L M, r < P → s < P →
        worker r P nx ny sc = some L → worker s P nx ny sc = some M →
        L.localBlockPositionX = M.localBlockPositionX →
        L.localBlockPositionY = M.localBlockPositionY → r = s) := by
  obtain ⟨y, hy, hy1, _, hmul, _, _⟩ := blockCount_facts P hP
  refine ⟨P / y, y, ?_, ?_, ?_⟩
  · intro r hr
    obtain ⟨L, hL, hLy, hLx, hpx, hpy, _⟩ := worker_eq_of_loop hy r nx ny sc
    obtain ⟨h1, h2, h3⟩ := position_of_rank hy1 hmul hr
    exact ⟨L, hL, hLx, hLy, hpx, hpy, by rw [hpx]; exact h1, by rw [hpy]; exact h2,
      by rw [hpx, hpy]; exact h3⟩
  · intro bx cy hbx hcy
    obtain ⟨h1, h2, h3⟩ := rank_of_position hmul hbx hcy
    obtain ⟨L, hL, _, _, hpx, hpy, _⟩ := worker_eq_of_loop hy (bx * y + cy) nx ny sc
    exact ⟨h1, L, hL, by rw [hpx]; exact h2, by rw [hpy]; exact h3⟩
  · intro r s L M _ _ hL hM hx hyy
    obtain ⟨L', hL', _, _, hpx, hpy, _⟩ := worker_eq_of_loop hy r nx ny sc
    obtain ⟨M', hM', _, _, hqx, hqy, _⟩ := worker_eq_of_loop hy s nx ny sc
    have eL : L' = L := Option.some.inj (hL'.symm.trans hL)
    have eM : M' = M := Option.some.inj (hM'.symm.trans hM)
    subst eL; subst eM
    rw [hpx, hqx] at hx
    rw [hpy, hqy] at hyy
    have hr := Nat.div_add_mod' r y
    have hs := Nat.div_add_mod' s y
    rw [hx, hyy] at hr
    omega

/-- Instance of C3 for 6 ranks. -/
theorem worker_position_bijection_witness :
    1 ≤ 6 ∧ ∃ X Y : Nat,
      (∀ r, r < 6 → ∃ L, worker r 6 100 100 (fun _ => BoundaryType.WALL) = some L ∧
        L.blockCountX = X ∧ L.blockCountY = Y ∧
        L.localBlockPositionX = r / Y ∧ L.localBlockPositionY = r % Y ∧
        L.localBlockPositionX < X ∧ L.localBlockPositionY < Y ∧
        L.localBlockPositionX * Y + L.localBlockPositionY = r) ∧
      (∀ bx cy, bx < X → cy < Y → bx * Y + cy < 6 ∧
        ∃ L, worker (bx * Y + cy) 6 100 100 (fun _ => BoundaryType.WALL) = some L ∧
          L.localBlockPositionX = bx ∧ L.localBlockPositionY = cy) ∧
      (∀ r s L M, r < 6 → s < 6 →
        worker r 6 100 100 (fun _ => BoundaryType.WALL) = some L →
        worker s 6 100 100 (fun _ => BoundaryType.WALL) = some M →
        L.localBlockPositionX = M.localBlockPositionX →
        L.localBlockPositionY = M.localBlockPositionY → r = s) :=
  ⟨by decide, worker_position_bijection 6 100 100 (fun _ => BoundaryType.WALL) (by decide)⟩

/-- C4: for every `P ≥ 1` and requested resolution `nxRequested, nyRequested ≥ 0`
the per-block cell counts tile the domain: every block column except the
rightmost gets `nxRequested / blockCountX` cells, the rightmost gets the
remainder, and the `nxLocal` of the `blockCountX` block columns sum to
`nxRequested`; likewise `nyLocal` over the `blockCountY` block rows. -/
theorem worker_cells_tile (P : Nat) (nx ny : Int) (sc : BoundaryEdge → BoundaryType)
    (hP : 1 ≤ P) (hnx : 0 ≤ nx) (hny : 0 ≤ ny) :
    ∃ (X Y : Nat) (L : Nat → WorkerLayout),
      (∀ r, r < P → worker r P nx ny sc = some (L r) ∧
        (L r).blockCountX = X ∧ (L r).blockCountY = Y) ∧
      (∀ bx cy, bx < X → cy < Y →
        (L (bx * Y + cy)).nxLocal =
          (if bx + 1 < X then nx / (X : Int) else nx - ((X : Int) - 1) * (nx / (X : Int))) ∧
        (L (bx * Y + cy)).nyLocal =
          (if cy + 1 < Y then ny / (Y : Int) else ny - ((Y : Int) - 1) * (ny / (Y : Int)))) ∧
      (∀ cy, cy < Y → ∑ bx ∈ Finset.range X, (L (bx * Y + cy)).nxLocal = nx) ∧
      (∀ bx, bx < X → ∑ cy ∈ Finset.range Y, (L (bx * Y + cy)).nyLocal = ny) := by
  obtain ⟨y, hy, hy1, _, hmul, hle, _⟩ := blockCount_facts P hP
  choose L hL using fun r => worker_eq_of_loop hy r nx ny sc
  have hX1 : 1 ≤ P / y := le_trans hy1 hle
  have hnxL : ∀ bx cy, bx < P / y → cy < y → (L (bx * y + cy)).nxLocal =
      (if (bx : Int) < ((P / y : Nat) : Int) - 1 then nx / ((P / y : Nat) : Int)
        else nx - (((P / y : Nat) : Int) - 1) * (nx / ((P / y : Nat) : Int))) := by
    intro bx cy hbx hcy
    obtain ⟨_, _, _, _, _, h6, _⟩ := hL (bx * y + cy)
    rw [h6, (rank_of_position hmul hbx hcy).2.1, Int.tdiv_eq_ediv hnx (by omega)]
  have hnyL : ∀ bx cy, bx < P / y → cy < y → (L (bx * y + cy)).nyLocal =
      (if (cy : Int) < (y : Int) - 1 then ny / (y : Int)
        else ny - ((y : Int) - 1) * (ny / (y : Int))) := by
    intro bx cy hbx hcy
    obtain ⟨_, _, _, _, _, _, h7⟩ := hL (bx * y + cy)
    rw [h7, (rank_of_position hmul hbx hcy).2.2, Int.tdiv_eq_ediv hny (by omega)]
  refine ⟨P / y, y, L, ?_, ?_, ?_, ?_⟩
  · intro r _
    obtain ⟨h1, h2, h3, _⟩ := hL r
    exact ⟨h1, h3, h2⟩
  · intro bx cy hbx hcy
    rw [hnxL bx cy hbx hcy, hnyL bx cy hbx hcy]
    constructor
    · by_cases hc : bx + 1 < P / y
      · rw [if_pos hc, if_pos (by omega)]
      · rw [if_neg hc, if_neg (by omega)]
    · by_cases hc : cy + 1 < y
      · rw [if_pos hc, if_pos (by omega)]
      · rw [if_neg hc, if_neg (by omega)]
  · intro cy hcy
    obtain ⟨m, hm⟩ : ∃ m, P / y = m + 1 := ⟨P / y - 1, by omega⟩
    rw [hm]
    apply sum_local_cells m nx (nx / ((m + 1 : Nat) : Int))
    intro i hi
    have := hnxL i cy (by omega) hcy
    rw [hm] at this
    exact this
  · intro bx hbx
    obtain ⟨m, hm⟩ : ∃ m, y = m + 1 := ⟨y - 1, by omega⟩
    subst hm
    apply sum_local_cells m ny (ny / ((m + 1 : Nat) : Int))
    intro i hi
    exact hnyL bx i hbx hi

/-- Instance of C4: 6 ranks on a 100 x 50 domain. -/
theorem worker_cells_tile_witness :
    1 ≤ 6 ∧ (0 : Int) ≤ 100 ∧ (0 : Int) ≤ 50 ∧
    ∃ (X Y : Nat) (L : Nat → WorkerLayout),
      (∀ r, r < 6 → worker r 6 100 50 (fun _ => BoundaryType.WALL) = some (L r) ∧
        (L r).blockCountX = X ∧ (L r).blockCountY = Y) ∧
      (∀ bx cy, bx < X → cy < Y →
        (L (bx * Y + cy)).nxLocal =
          (if bx + 1 < X then 100 / (X : Int)
            else 100 - ((X : Int) - 1) * (100 / (X : Int))) ∧
        (L (bx * Y + cy)).nyLocal =
          (if cy + 1 < Y then 50 / (Y : Int)
            else 50 - ((Y : Int) - 1) * (50 / (Y : Int)))) ∧
      (∀ cy, cy < Y → ∑ bx ∈ Finset.range X, (L (bx * Y + cy)).nxLocal = 100) ∧
      (∀ bx, bx < X → ∑ cy ∈ Finset.range Y, (L (bx * Y + cy)).nyLocal = 50) :=
  ⟨by decide, by decide, by decide,
    worker_cells_tile 6 100 50 (fun _ => BoundaryType.WALL) (by decide) (by decide)
      (by decide)⟩

/-- The block-count loop for two ranks starts and stops at `⌊√2⌋ = 1`. -/
theorem blockCountYLoop_two : blockCountYLoop 2 (Nat.sqrt 2) = some 1 := by
  have h : Nat.sqrt 2 = 1 := (Nat.eq_sqrt.2 ⟨by decide, by decide⟩).symm
  rw [h]; rfl

/-- C5, counterexample: with two ranks (`blockCountX = 2`, `blockCountY = 1`) and a
requested resolution of 1 x 1 cells, rank 0 is handed `nxLocal = 1 / 2 = 0`
interior cells, which is not a positive cell count. -/
theorem worker_nxLocal_not_positive :
    (1 ≤ 2 ∧ (1 : Int) ≤ 1 ∧ (1 : Int) ≤ 1 ∧ 0 < 2) ∧
    ∃ L, worker 0 2 1 1 (fun _ => BoundaryType.WALL) = some L ∧
      L.blockCountX = 2 ∧ L.nxLocal = 0 ∧ ¬ (0 < L.nxLocal ∧ 0 < L.nyLocal) := by
  refine ⟨by decide, ?_⟩
  obtain ⟨L, hL, _, hX, _, _, hnx, _⟩ :=
    worker_eq_of_loop blockCountYLoop_two 0 1 1 (fun _ => BoundaryType.WALL)
  have h0 : L.nxLocal = 0 := by rw [hnx]; decide
  refine ⟨L, hL, by rw [hX], h0, ?_⟩
  rw [h0]
  intro h
  exact absurd h.1 (by decide)

/-- C5, amended: for every `P ≥ 1` and every requested resolution
`nxRequested ≥ 1`, `nyRequested ≥ 1`, the interior cell counts `nxLocal` and
`nyLocal` handed to the block constructor are positive for every rank `r < P`
exactly when `nxRequested ≥ blockCountX` and `nyRequested ≥ blockCountY`. -/
theorem worker_local_cells_positive_iff (P : Nat) (nx ny : Int)
    (sc : BoundaryEdge → BoundaryType) (hP : 1 ≤ P) (hnx : 1 ≤ nx) (hny : 1 ≤ ny) :
    ∃ X Y : Nat,
      (∀ r, r < P → ∃ L, worker r P nx ny sc = some L ∧
        L.blockCountX = X ∧ L.blockCountY = Y) ∧
      ((∀ r, r < P → ∃ L, worker r P nx ny sc = some L ∧ 0 < L.nxLocal ∧ 0 < L.nyLocal) ↔
        ((X : Int) ≤ nx ∧ (Y : Int) ≤ ny)) := by
  obtain ⟨y, hy, hy1, _, hmul, hle, _⟩ := blockCount_facts P hP
  have hX1 : 1 ≤ P / y := le_trans hy1 hle
  have hXpos : (0 : Int) < ((P / y : Nat) : Int) := by omega
  have hYpos : (0 : Int) < (y : Int) := by omega
  refine ⟨P / y, y, ?_, ?_, ?_⟩
  · intro r _
    obtain ⟨L, hL, hLy, hLx, _⟩ := worker_eq_of_loop hy r nx ny sc
    exact ⟨L, hL, hLx, hLy⟩
  · intro hall
    obtain ⟨L, hL, hpx, hpy⟩ := hall 0 (by omega)
    obtain ⟨L', hL', _, _, _, _, h6, h7⟩ := worker_eq_of_loop hy 0 nx ny sc
    have eL : L' = L := Option.some.inj (hL'.symm.trans hL)
    subst eL
    rw [h6, Int.tdiv_eq_ediv (by omega) (by omega)] at hpx
    rw [h7, Int.tdiv_eq_ediv (by omega) (by omega)] at hpy
    simp only [Nat.zero_div, Nat.zero_mod, Nat.cast_zero] at hpx hpy
    constructor
    · by_cases hc : (0 : Int) < ((P / y : Nat) : Int) - 1
      · rw [if_pos hc] at hpx
        have h1 : (1 : Int) ≤ nx / ((P / y : Nat) : Int) := hpx
        have h2 := (Int.le_ediv_iff_mul_le hXpos).1 h1
        omega
      · omega
    · by_cases hc : (0 : Int) < (y : Int) - 1
      · rw [if_pos hc] at hpy
        have h1 : (1 : Int) ≤ ny / (y : Int) := hpy
        have h2 := (Int.le_ediv_iff_mul_le hYpos).1 h1
        omega
      · omega
  · rintro ⟨hx, hyy⟩ r _
    obtain ⟨L, hL, _, _, _, _, h6, h7⟩ := worker_eq_of_loop hy r nx ny sc
    refine ⟨L, hL, ?_, ?_⟩
    · rw [h6, Int.tdiv_eq_ediv (by omega) (by omega)]
      have h1 : (1 : Int) ≤ nx / ((P / y : Nat) : Int) :=
        (Int.le_ediv_iff_mul_le hXpos).2 (by omega)
      have h2 : nx / ((P / y : Nat) : Int) * ((P / y : Nat) : Int) ≤ nx :=
        Int.ediv_mul_le nx (by omega)
      split
      · omega
      · have h3 : (((P / y : Nat) : Int) - 1) * (nx / ((P / y : Nat) : Int))
            = nx / ((P / y : Nat) : Int) * ((P / y : Nat) : Int)
              - nx / ((P / y : Nat) : Int) := by ring
        omega
    · rw [h7, Int.tdiv_eq_ediv (by omega) (by omega)]
      have h1 : (1 : Int) ≤ ny / (y : Int) :=
        (Int.le_ediv_iff_mul_le hYpos).2 (by omega)
      have h2 : ny / (y : Int) * (y : Int) ≤ ny := Int.ediv_mul_le ny (by omega)
      split
      · omega
      · have h3 : ((y : Int) - 1) * (ny / (y : Int))
            = ny / (y : Int) * (y : Int) - ny / (y : Int) := by ring
        omega

/-- Instance of the amended C5: 6 ranks on a 100 x 50 domain. -/
theorem worker_local_cells_positive_iff_witness :
    1 ≤ 6 ∧ (1 : Int) ≤ 100 ∧ (1 : Int) ≤ 50 ∧
    ∃ X Y : Nat,
      (∀ r, r < 6 → ∃ L, worker r 6 100 50 (fun _ => BoundaryType.WALL) = some L ∧
        L.blockCountX = X ∧ L.blockCountY = Y) ∧
      ((∀ r, r < 6 → ∃ L, worker r 6 100 50 (fun _ => BoundaryType.WALL) = some L ∧
          0 < L.nxLocal ∧ 0 < L.nyLocal) ↔
        ((X : Int) ≤ 100 ∧ (Y : Int) ≤ 50)) :=
  ⟨by decide, by decide, by decide,
    worker_local_cells_positive_iff 6 100 50 (fun _ => BoundaryType.WALL) (by decide)
      (by decide) (by decide)⟩

/-- C6: for every `P ≥ 1` and rank `r < P` at grid position `(bx, cy)` the
neighbour ids are `left = r - blockCountY`, `right = r + blockCountY`,
`bottom = r - 1`, `top = r + 1`, each replaced by `-1` exactly when the block
lies on that domain edge (`bx = 0`, `bx = blockCountX - 1`, `cy = 0`,
`cy = blockCountY - 1`); the boundary type of a side is CONNECT when its
neighbour id is not `-1` and the scenario's boundary type of that side
otherwise, so that, the scenario's own types being OUTFLOW or WALL, it is
CONNECT exactly when the neighbour id is not `-1`. -/
theorem worker_neighbours (r P : Nat) (nx ny : Int) (sc : BoundaryEdge → BoundaryType)
    (hP : 1 ≤ P) (hr : r < P) :
    ∃ L, worker r P nx ny sc = some L ∧
      L.myNeighbours .BND_LEFT =
        (if L.localBlockPositionX = 0 then -1 else (r : Int) - (L.blockCountY : Int)) ∧
      L.myNeighbours .BND_RIGHT =
        (if L.localBlockPositionX = L.blockCountX - 1 then -1
          else (r : Int) + (L.blockCountY : Int)) ∧
      L.myNeighbours .BND_BOTTOM =
        (if L.localBlockPositionY = 0 then -1 else (r : Int) - 1) ∧
      L.myNeighbours .BND_TOP =
        (if L.localBlockPositionY = L.blockCountY - 1 then -1 else (r : Int) + 1) ∧
      (L.myNeighbours .BND_LEFT = -1 ↔ L.localBlockPositionX = 0) ∧
      (L.myNeighbours .BND_RIGHT = -1 ↔ L.localBlockPositionX = L.blockCountX - 1) ∧
      (L.myNeighbours .BND_BOTTOM = -1 ↔ L.localBlockPositionY = 0) ∧
      (L.myNeighbours .BND_TOP = -1 ↔ L.localBlockPositionY = L.blockCountY - 1) ∧
      (∀ e, L.boundaries e = if L.myNeighbours e = -1 then sc e else .CONNECT) ∧
      ((∀ e, sc e ≠ .CONNECT) →
        ∀ e, (L.boundaries e = .CONNECT ↔ L.myNeighbours e ≠ -1)) := by
  obtain ⟨y, hy, hy1, _, hmul, hle, _⟩ := blockCount_facts P hP
  obtain ⟨hbx, hcy, hdm⟩ := position_of_rank hy1 hmul hr
  obtain ⟨L, hL, hLy, hLx, hpx, hpy, nl, nr, nb, nt, bl, br, bb, bt⟩ :=
    worker_sides_of_loop hy r nx ny sc
  have hry : 0 < r / y → y ≤ r := by
    intro h
    have : 1 * y ≤ r / y * y := Nat.mul_le_mul_right y h
    omega
  have hL1 : L.myNeighbours .BND_LEFT =
      (if L.localBlockPositionX = 0 then -1 else (r : Int) - (L.blockCountY : Int)) := by
    rw [nl, hpx, hLy]
    by_cases hc : 0 < r / y
    · rw [if_pos hc, if_neg (by omega)]
    · rw [if_neg hc, if_pos (by omega)]
  have hL2 : L.myNeighbours .BND_RIGHT =
      (if L.localBlockPositionX = L.blockCountX - 1 then -1
        else (r : Int) + (L.blockCountY : Int)) := by
    rw [nr, hpx, hLx, hLy]
    by_cases hc : ((r / y : Nat) : Int) < ((P / y : Nat) : Int) - 1
    · rw [if_pos hc, if_neg (by omega)]
    · rw [if_neg hc, if_pos (by omega)]
  have hL3 : L.myNeighbours .BND_BOTTOM =
      (if L.localBlockPositionY = 0 then -1 else (r : Int) - 1) := by
    rw [nb, hpy]
    by_cases hc : 0 < r % y
    · rw [if_pos hc, if_neg (by omega)]
    · rw [if_neg hc, if_pos (by omega)]
  have hL4 : L.myNeighbours .BND_TOP =
      (if L.localBlockPositionY = L.blockCountY - 1 then -1 else (r : Int) + 1) := by
    rw [nt, hpy, hLy]
    by_cases hc : ((r % y : Nat) : Int) < (y : Int) - 1
    · rw [if_pos hc, if_neg (by omega)]
    · rw [if_neg hc, if_pos (by omega)]
  have e1 : L.myNeighbours .BND_LEFT = -1 ↔ L.localBlockPositionX = 0 := by
    rw [hL1, hpx, hLy]
    by_cases hc : r / y = 0
    · simp [hc]
    · have := hry (by omega)
      rw [if_neg hc]
      constructor
      · intro h; omega
      · intro h; exact absurd h hc
  have e2 : L.myNeighbours .BND_RIGHT = -1 ↔ L.localBlockPositionX = L.blockCountX - 1 := by
    rw [hL2]
    by_cases hc : L.localBlockPositionX = L.blockCountX - 1
    · simp [hc]
    · rw [if_neg hc]
      constructor
      · intro h; omega
      · intro h; exact absurd h hc
  have e3 : L.myNeighbours .BND_BOTTOM = -1 ↔ L.localBlockPositionY = 0 := by
    rw [hL3, hpy]
    by_cases hc : r % y = 0
    · simp [hc]
    · rw [if_neg hc]
      constructor
      · intro h; omega
      · intro h; exact absurd h hc
  have e4 : L.myNeighbours .BND_TOP = -1 ↔ L.localBlockPositionY = L.blockCountY - 1 := by
    rw [hL4]
    by_cases hc : L.localBlockPositionY = L.blockCountY - 1
    · simp [hc]
    · rw [if_neg hc]
      constructor
      · intro h; omega
      · intro h; exact absurd h hc
  have hbnd : ∀ e, L.boundaries e = if L.myNeighbours e = -1 then sc e else .CONNECT := by
    intro e
    cases e
    · by_cases hc : L.localBlockPositionX = 0
      · rw [if_pos (e1.2 hc), bl, if_neg (by rw [← hpx]; omega)]
      · rw [if_neg (fun h => hc (e1.1 h)), bl, if_pos (by rw [← hpx]; omega)]
    · by_cases hc : L.localBlockPositionX = L.blockCountX - 1
      · rw [if_pos (e2.2 hc), br, if_neg (by rw [hpx, hLx] at hc; omega)]
      · rw [if_neg (fun h => hc (e2.1 h)), br, if_pos (by rw [hpx, hLx] at hc; omega)]
    · by_cases hc : L.localBlockPositionY = 0
      · rw [if_pos (e3.2 hc), bb, if_neg (by rw [← hpy]; omega)]
      · rw [if_neg (fun h => hc (e3.1 h)), bb, if_pos (by rw [← hpy]; omega)]
    · by_cases hc : L.localBlockPositionY = L.blockCountY - 1
      · rw [if_pos (e4.2 hc), bt, if_neg (by rw [hpy, hLy] at hc; omega)]
      · rw [if_neg (fun h => hc (e4.1 h)), bt, if_pos (by rw [hpy, hLy] at hc; omega)]
  refine ⟨L, hL, hL1, hL2, hL3, hL4, e1, e2, e3, e4, hbnd, ?_⟩
  intro hsc e
  rw [hbnd e]
  by_cases hc : L.myNeighbours e = -1
  · rw [if_pos hc]
    exact ⟨fun h => absurd h (hsc e), fun h => absurd hc h⟩
  · rw [if_neg hc]
    exact ⟨fun _ => hc, fun _ => rfl⟩

/-- Instance of C6 at rank 3 of 6 ranks. -/
theorem worker_neighbours_witness :
    1 ≤ 6 ∧ 3 < 6 ∧
    (∀ e : BoundaryEdge, (fun _ => BoundaryType.WALL) e ≠ BoundaryType.CONNECT) ∧
    ∃ L, worker 3 6 100 100 (fun _ => BoundaryType.WALL) = some L ∧
      L.myNeighbours .BND_LEFT =
        (if L.localBlockPositionX = 0 then -1 else ((3 : Nat) : Int) - (L.blockCountY : Int)) ∧
      L.myNeighbours .BND_RIGHT =
        (if L.localBlockPositionX = L.blockCountX - 1 then -1
          else ((3 : Nat) : Int) + (L.blockCountY : Int)) ∧
      L.myNeighbours .BND_BOTTOM =
        (if L.localBlockPositionY = 0 then -1 else ((3 : Nat) : Int) - 1) ∧
      L.myNeighbours .BND_TOP =
        (if L.localBlockPositionY = L.blockCountY - 1 then -1 else ((3 : Nat) : Int) + 1) ∧
      (L.myNeighbours .BND_LEFT = -1 ↔ L.localBlockPositionX = 0) ∧
      (L.myNeighbours .BND_RIGHT = -1 ↔ L.localBlockPositionX = L.blockCountX - 1) ∧
      (L.myNeighbours .BND_BOTTOM = -1 ↔ L.localBlockPositionY = 0) ∧
      (L.myNeighbours .BND_TOP = -1 ↔ L.localBlockPositionY = L.blockCountY - 1) ∧
      (∀ e, L.boundaries e =
        if L.myNeighbours e = -1 then (fun _ => BoundaryType.WALL) e else .CONNECT) ∧
      ((∀ e : BoundaryEdge, (fun _ => BoundaryType.WALL) e ≠ BoundaryType.CONNECT) →
        ∀ e, (L.boundaries e = .CONNECT ↔ L.myNeighbours e ≠ -1)) :=
  ⟨by decide, by decide, fun _ h => BoundaryType.noConfusion h,
    worker_neighbours 3 6 100 100 (fun _ => BoundaryType.WALL) (by decide) (by decide)⟩

/-- Quotient and remainder of the successor of a rank. -/
theorem succ_position (y r : Nat) (hy : 1 ≤ y) :
    (r % y + 1 < y → (r + 1) / y = r / y ∧ (r + 1) % y = r % y + 1) ∧
    (¬ r % y + 1 < y → (r + 1) % y = 0) := by
  have hdm : r / y * y + r % y = r := Nat.div_add_mod' r y
  have hlt : r % y < y := Nat.mod_lt _ (by omega)
  constructor
  · intro h
    obtain ⟨_, h2, h3⟩ :=
      @rank_of_position ((r / y + 1) * y) (r / y + 1) y (r / y) (r % y + 1) rfl (by omega) h
    have e : r + 1 = r / y * y + (r % y + 1) := by omega
    rw [e]
    exact ⟨h2, h3⟩
  · intro h
    obtain ⟨_, _, h3⟩ :=
      @rank_of_position ((r / y + 2) * y) (r / y + 2) y (r / y + 1) 0 rfl (by omega)
        (by omega)
    have e : r + 1 = (r / y + 1) * y + 0 := by
      have : (r / y + 1) * y = r / y * y + y := by ring
      omega
    rw [e]
    exact h3

/-- Quotient and remainder of a rank moved by one grid column. -/
theorem add_column_position (y r : Nat) (hy : 1 ≤ y) :
    (r + y) / y = r / y + 1 ∧ (r + y) % y = r % y :=
  ⟨Nat.add_div_right r (by omega), Nat.add_mod_right r y⟩

/-- C24: the neighbour assignment of `worker` stays in range and is mutual.
For every `P ≥ 1` and every rank `r < P`: each neighbour id of `r` that is not
`-1` is a rank in `[0, P)`; and for every rank `s < P`, `s` is the right
neighbour of `r` exactly when `r` is the left neighbour of `s`, `s` is the top
neighbour of `r` exactly when `r` is the bottom neighbour of `s`, and a
neighbour `s` of `r` lies at the grid position adjacent to that of `r` on the
side in question (right: one column further, left: one column back, top: one
row further, bottom: one row back, the other coordinate being the same). -/
theorem worker_neighbours_mutual (P : Nat) (nx ny : Int) (sc : BoundaryEdge → BoundaryType)
    (hP : 1 ≤ P) (r : Nat) (hr : r < P) :
    ∃ L, worker r P nx ny sc = some L ∧
      (∀ e, L.myNeighbours e ≠ -1 → 0 ≤ L.myNeighbours e ∧ L.myNeighbours e < (P : Int)) ∧
      ∀ s, s < P → ∃ Ls, worker s P nx ny sc = some Ls ∧
        (L.myNeighbours .BND_RIGHT = (s : Int) ↔ Ls.myNeighbours .BND_LEFT = (r : Int)) ∧
        (L.myNeighbours .BND_TOP = (s : Int) ↔ Ls.myNeighbours .BND_BOTTOM = (r : Int)) ∧
        (L.myNeighbours .BND_RIGHT = (s : Int) →
          Ls.localBlockPositionX = L.localBlockPositionX + 1 ∧
          Ls.localBlockPositionY = L.localBlockPositionY) ∧
        (L.myNeighbours .BND_LEFT = (s : Int) →
          Ls.localBlockPositionX + 1 = L.localBlockPositionX ∧
          Ls.localBlockPositionY = L.localBlockPositionY) ∧
        (L.myNeighbours .BND_TOP = (s : Int) →
          Ls.localBlockPositionX = L.localBlockPositionX ∧
          Ls.localBlockPositionY = L.localBlockPositionY + 1) ∧
        (L.myNeighbours .BND_BOTTOM = (s : Int) →
          Ls.localBlockPositionX = L.localBlockPositionX ∧
          Ls.localBlockPositionY + 1 = L.localBlockPositionY) := by
  obtain ⟨y, hy, hy1, _, hmul, hle, _⟩ := blockCount_facts P hP
  obtain ⟨hbx, hcy, hdm⟩ := position_of_rank hy1 hmul hr
  obtain ⟨L, hL, hLy, hLx, hpx, hpy, nl, nr, nb, nt, _, _, _, _⟩ :=
    worker_sides_of_loop hy r nx ny sc
  have hge : ∀ t : Nat, 0 < t / y → y ≤ t := by
    intro t h
    have h1 : 1 * y ≤ t / y * y := Nat.mul_le_mul_right y h
    have h2 : t / y * y + t % y = t := Nat.div_add_mod' t y
    omega
  have hright : r / y + 1 < P / y → r + y < P := by
    intro h
    obtain ⟨h1, _, _⟩ := @rank_of_position P (P / y) y (r / y + 1) (r % y) hmul h hcy
    have : (r / y + 1) * y = r / y * y + y := by ring
    omega
  have htop : r % y + 1 < y → r + 1 < P := by
    intro h
    obtain ⟨h1, _, _⟩ := @rank_of_position P (P / y) y (r / y) (r % y + 1) hmul hbx h
    omega
  refine ⟨L, hL, ?_, ?_⟩
  · intro e he
    cases e
    · rw [nl] at he ⊢
      by_cases hc : 0 < r / y
      · have := hge r hc
        rw [if_pos hc]
        omega
      · rw [if_neg hc] at he
        exact absurd rfl he
    · rw [nr] at he ⊢
      by_cases hc : ((r / y : Nat) : Int) < ((P / y : Nat) : Int) - 1
      · have := hright (by omega)
        rw [if_pos hc]
        omega
      · rw [if_neg hc] at he
        exact absurd rfl he
    · rw [nb] at he ⊢
      by_cases hc : 0 < r % y
      · have : r % y ≤ r := Nat.mod_le r y
        rw [if_pos hc]
        omega
      · rw [if_neg hc] at he
        exact absurd rfl he
    · rw [nt] at he ⊢
      by_cases hc : ((r % y : Nat) : Int) < (y : Int) - 1
      · have := htop (by omega)
        rw [if_pos hc]
        omega
      · rw [if_neg hc] at he
        exact absurd rfl he
  · intro s hs
    obtain ⟨hsx, hsy, hsdm⟩ := position_of_rank hy1 hmul hs
    obtain ⟨Ls, hLs, _, _, hqx, hqy, ml, mr, mb, mt, _, _, _, _⟩ :=
      worker_sides_of_loop hy s nx ny sc
    have hcolr := add_column_position y r hy1
    have hcols := add_column_position y s hy1
    have hsuccr := succ_position y r hy1
    have hsuccs := succ_position y s hy1
    refine ⟨Ls, hLs, ?_, ?_, ?_, ?_, ?_, ?_⟩
    · rw [nr, ml]
      constructor
      · intro h
        by_cases hc : ((r / y : Nat) : Int) < ((P / y : Nat) : Int) - 1
        · rw [if_pos hc] at h
          have hsr : s = r + y := by omega
          have h0 : 0 < s / y := by rw [hsr, hcolr.1]; omega
          rw [if_pos h0]
          omega
        · rw [if_neg hc] at h
          omega
      · intro h
        by_cases hc : 0 < s / y
        · rw [if_pos hc] at h
          have := hge s hc
          have hsr : s = r + y := by omega
          have h1 : r / y + 1 < P / y := by
            have := hcolr.1
            rw [← hsr] at this
            omega
          rw [if_pos (by omega)]
          omega
        · rw [if_neg hc] at h
          omega
    · rw [nt, mb]
      constructor
      · intro h
        by_cases hc : ((r % y : Nat) : Int) < (y : Int) - 1
        · rw [if_pos hc] at h
          have hsr : s = r + 1 := by omega
          have h0 : 0 < s % y := by
            rw [hsr, (hsuccr.1 (by omega)).2]
            omega
          rw [if_pos h0]
          omega
        · rw [if_neg hc] at h
          omega
      · intro h
        by_cases hc : 0 < s % y
        · rw [if_pos hc] at h
          have hsr : s = r + 1 := by omega
          have h1 : r % y + 1 < y := by
            by_contra hn
            have := hsuccr.2 hn
            rw [← hsr] at this
            omega
          rw [if_pos (by omega)]
          omega
        · rw [if_neg hc] at h
          omega
    · rw [nr, hqx, hqy, hpx, hpy]
      intro h
      by_cases hc : ((r / y : Nat) : Int) < ((P / y : Nat) : Int) - 1
      · rw [if_pos hc] at h
        have hsr : s = r + y := by omega
        rw [hsr]
        exact hcolr
      · rw [if_neg hc] at h
        omega
    · rw [nl, hqx, hqy, hpx, hpy]
      intro h
      by_cases hc : 0 < r / y
      · rw [if_pos hc] at h
        have := hge r hc
        have hsr : r = s + y := by omega
        rw [hsr]
        exact ⟨hcols.1.symm, hcols.2.symm⟩
      · rw [if_neg hc] at h
        omega
    · rw [nt, hqx, hqy, hpx, hpy]
      intro h
      by_cases hc : ((r % y : Nat) : Int) < (y : Int) - 1
      · rw [if_pos hc] at h
        have hsr : s = r + 1 := by omega
        rw [hsr]
        exact hsuccr.1 (by omega)
      · rw [if_neg hc] at h
        omega
    · rw [nb, hqx, hqy, hpx, hpy]
      intro h
      by_cases hc : 0 < r % y
      · rw [if_pos hc] at h
        have : r % y ≤ r := Nat.mod_le r y
        have hsr : r = s + 1 := by omega
        have h1 : s % y + 1 < y := by
          by_contra hn
          have := hsuccs.2 hn
          rw [← hsr] at this
          omega
        have := hsuccs.1 h1
        rw [hsr]
        exact ⟨this.1.symm, this.2.symm⟩
      · rw [if_neg hc] at h
        omega

/-- Instance of C24 at rank 3 of 6 ranks. -/
theorem worker_neighbours_mutual_witness :
    1 ≤ 6 ∧ 3 < 6 ∧
    ∃ L, worker 3 6 100 100 (fun _ => BoundaryType.WALL) = some L ∧
      (∀ e, L.myNeighbours e ≠ -1 →
        0 ≤ L.myNeighbours e ∧ L.myNeighbours e < ((6 : Nat) : Int)) ∧
      ∀ s, s < 6 → ∃ Ls, worker s 6 100 100 (fun _ => BoundaryType.WALL) = some Ls ∧
        (L.myNeighbours .BND_RIGHT = (s : Int) ↔
          Ls.myNeighbours .BND_LEFT = ((3 : Nat) : Int)) ∧
        (L.myNeighbours .BND_TOP = (s : Int) ↔
          Ls.myNeighbours .BND_BOTTOM = ((3 : Nat) : Int)) ∧
        (L.myNeighbours .BND_RIGHT = (s : Int) →
          Ls.localBlockPositionX = L.localBlockPositionX + 1 ∧
          Ls.localBlockPositionY = L.localBlockPositionY) ∧
        (L.myNeighbours .BND_LEFT = (s : Int) →
          Ls.localBlockPositionX + 1 = L.localBlockPositionX ∧
          Ls.localBlockPositionY = L.localBlockPositionY) ∧
        (L.myNeighbours .BND_TOP = (s : Int) →
          Ls.localBlockPositionX = L.localBlockPositionX ∧
          Ls.localBlockPositionY = L.localBlockPositionY + 1) ∧
        (L.myNeighbours .BND_BOTTOM = (s : Int) →
          Ls.localBlockPositionX = L.localBlockPositionX ∧
          Ls.localBlockPositionY + 1 = L.localBlockPositionY) :=
  ⟨by decide, by decide,
    worker_neighbours_mutual 6 100 100 (fun _ => BoundaryType.WALL) (by decide) 3 (by decide)⟩

/-! ### Loops -/

/-- Reading an array after the assignment `a[x][y] = v`. -/
theorem Float2D.set_apply {α : Type} (a : Float2D α) (x y : Nat) (v : α) (i j : Nat) :
    Float2D.set a x y v i j = if i = x ∧ j = y then v else a i j := rfl

/-- A loop whose bounds are empty does nothing. -/
theorem forLoop_self {σ : Type} (lo hi : Nat) (body : Nat → σ → σ) (s : σ) (h : hi ≤ lo) :
    forLoop lo hi body s = s := by
  have : hi - lo = 0 := by omega
  simp [forLoop, this]

/-- First iteration of a loop. -/
theorem forLoop_step {σ : Type} (lo hi : Nat) (body : Nat → σ → σ) (s : σ) (h : lo < hi) :
    forLoop lo hi body s = forLoop (lo + 1) hi body (body lo s) := by
  have e : hi - lo = (hi - (lo + 1)) + 1 := by omega
  unfold forLoop
  rw [e, List.range'_succ, List.foldl_cons]

/-- Loop invariant rule for `forLoop`. -/
theorem forLoop_invariant {σ : Type} (Inv : Nat → σ → Prop) (body : Nat → σ → σ) (hi : Nat)
    (hstep : ∀ i s, i < hi → Inv i s → Inv (i + 1) (body i s)) :
    ∀ (n lo : Nat) (s : σ), hi - lo = n → lo ≤ hi → Inv lo s → Inv hi (forLoop lo hi body s) := by
  intro n
  induction n with
  | zero =>
    intro lo s hn hle h0
    have : lo = hi := by omega
    subst this
    rw [forLoop_self _ _ _ _ (le_refl _)]; exact h0
  | succ n ih =>
    intro lo s hn hle h0
    rw [forLoop_step _ _ _ _ (by omega)]
    exact ih (lo + 1) (body lo s) (by omega) (by omega) (hstep lo s (by omega) h0)

/-- A loop whose state after `i` iterations has a closed form `F i`. -/
theorem forLoop_closed {σ : Type} (F : Nat → σ) (body : Nat → σ → σ) (lo hi : Nat)
    (hle : lo ≤ hi) (hstep : ∀ i, lo ≤ i → i < hi → body i (F i) = F (i + 1)) :
    forLoop lo hi body (F lo) = F hi := by
  have := forLoop_invariant (fun i s => lo ≤ i ∧ s = F i) body hi
    (fun i s hi' h => ⟨by omega, by rw [h.2]; exact hstep i h.1 hi'⟩) (hi - lo) lo (F lo) rfl hle
    ⟨le_refl _, rfl⟩
  exact this.2

/-- An observation that no iteration changes is unchanged by the loop. -/
theorem forLoop_preserves {σ β : Type} (f : σ → β) (body : Nat → σ → σ)
    (hbody : ∀ i s, f (body i s) = f s) (lo hi : Nat) (s : σ) :
    f (forLoop lo hi body s) = f s := by
  rcases Nat.lt_or_ge hi lo with h | h
  · rw [forLoop_self _ _ _ _ (by omega)]
  · exact forLoop_invariant (fun _ t => f t = f s) body hi
      (fun i t _ ht => (hbody i t).trans ht) (hi - lo) lo s rfl h rfl

/-- Two nested loops over a rectangle of cells, when the state after visiting a
set `D` of cells has the closed form `S D`. -/
theorem forLoop2_closed {σ : Type} (S : Finset (Nat × Nat) → σ) (cell : Nat → Nat → σ → σ)
    (hcell : ∀ D x y, (x, y) ∉ D → cell x y (S D) = S (insert (x, y) D))
    (xlo xhi ylo yhi : Nat) (hx : xlo ≤ xhi) (hy : ylo ≤ yhi) :
    forLoop xlo xhi (fun x => forLoop ylo yhi (fun y => cell x y)) (S ∅)
      = S (Finset.Ico xlo xhi ×ˢ Finset.Ico ylo yhi) := by
  have h0 : S ∅ = S (Finset.Ico xlo xlo ×ˢ Finset.Ico ylo yhi) := by simp
  rw [h0]
  apply forLoop_closed (fun i => S (Finset.Ico xlo i ×ˢ Finset.Ico ylo yhi)) _ xlo xhi hx
  intro i hi1 hi2
  have h1 : S (Finset.Ico xlo i ×ˢ Finset.Ico ylo yhi)
      = S (Finset.Ico xlo i ×ˢ Finset.Ico ylo yhi ∪ {i} ×ˢ Finset.Ico ylo ylo) := by simp
  have h2 : S (Finset.Ico xlo (i + 1) ×ˢ Finset.Ico ylo yhi)
      = S (Finset.Ico xlo i ×ˢ Finset.Ico ylo yhi ∪ {i} ×ˢ Finset.Ico ylo yhi) := by
    congr 1
    ext ⟨a, b⟩
    simp only [Finset.mem_product, Finset.mem_Ico, Finset.mem_union, Finset.mem_singleton]
    constructor
    · rintro ⟨⟨h3, h4⟩, h5⟩
      by_cases hc : a = i
      · exact Or.inr ⟨hc, h5⟩
      · exact Or.inl ⟨⟨h3, by omega⟩, h5⟩
    · rintro (⟨⟨h3, h4⟩, h5⟩ | ⟨h3, h5⟩)
      · exact ⟨⟨h3, by omega⟩, h5⟩
      · exact ⟨⟨by omega, by omega⟩, h5⟩
  show forLoop ylo yhi (fun y => cell i y) (S (Finset.Ico xlo i ×ˢ Finset.Ico ylo yhi)) = _
  rw [h1, h2]
  apply forLoop_closed
    (fun j => S (Finset.Ico xlo i ×ˢ Finset.Ico ylo yhi ∪ {i} ×ˢ Finset.Ico ylo j)) _ ylo yhi hy
  intro j hj1 hj2
  show cell i j (S _) = _
  rw [hcell]
  · congr 1
    ext ⟨a, b⟩
    simp only [Finset.mem_insert, Finset.mem_product, Finset.mem_Ico, Finset.mem_union,
      Finset.mem_singleton, Prod.mk.injEq]
    constructor
    · rintro (⟨h3, h4⟩ | ⟨⟨h3, h4⟩, h5⟩ | ⟨h3, h4⟩)
      · exact Or.inr ⟨h3, by omega⟩
      · exact Or.inl ⟨⟨h3, h4⟩, h5⟩
      · exact Or.inr ⟨h3, by omega⟩
    · rintro (⟨⟨h3, h4⟩, h5⟩ | ⟨h3, h4⟩)
      · exact Or.inr (Or.inl ⟨⟨h3, h4⟩, h5⟩)
      · by_cases hc : b = j
        · exact Or.inl ⟨h3, hc⟩
        · exact Or.inr (Or.inr ⟨h3, by omega⟩)
  · simp only [Finset.mem_product, Finset.mem_Ico, Finset.mem_union, Finset.mem_singleton]
    rintro (⟨⟨_, h4⟩, _⟩ | ⟨_, h4⟩) <;> omega

/-! ### Rounding -/

/-- An integer rounds to itself. -/
theorem roundHalfEven_intCast (n : ℤ) : roundHalfEven (n : ℚ) = n := by
  simp [roundHalfEven]

/-- A number closer than one half to an integer rounds to that integer. -/
theorem roundHalfEven_of_near (x : ℚ) (m : ℤ) (h : |x - m| < 1 / 2) :
    roundHalfEven x = m := by
  rw [abs_lt] at h
  obtain ⟨h1, h2⟩ := h
  unfold roundHalfEven
  by_cases hx : (m : ℚ) ≤ x
  · have hf : ⌊x⌋ = m := Int.floor_eq_iff.2 ⟨hx, by linarith⟩
    rw [hf, if_pos (by linarith)]
  · have hf : ⌊x⌋ = m - 1 := Int.floor_eq_iff.2 ⟨by push_cast; linarith, by push_cast; linarith⟩
    rw [hf, if_neg (by push_cast; linarith), if_pos (by push_cast; linarith)]
    ring

/-- Rounding moves a number by at most one half. -/
theorem abs_roundHalfEven_sub_le (x : ℚ) : |(roundHalfEven x : ℚ) - x| ≤ 1 / 2 := by
  have h1 : (⌊x⌋ : ℚ) ≤ x := Int.floor_le x
  have h2 : x < ⌊x⌋ + 1 := Int.lt_floor_add_one x
  unfold roundHalfEven
  rw [abs_le]
  split_ifs <;> push_cast <;> constructor <;> linarith


/-- The binary logarithm of a number between two consecutive powers of 2. -/
theorem log_eq_of_bounds (q : ℚ) (k : ℤ) (h1 : (2 : ℚ) ^ k ≤ q) (h2 : q < (2 : ℚ) ^ (k + 1)) :
    Int.log 2 q = k := by
  have hq : 0 < q := lt_of_lt_of_le (zpow_pos (by norm_num) k) h1
  have a : k ≤ Int.log 2 q :=
    (Int.zpow_le_iff_le_log (by norm_num) hq).1 (by simpa using h1)
  have b : Int.log 2 q < k + 1 :=
    (Int.lt_zpow_iff_log_lt (by norm_num) hq).1 (by simpa using h2)
  omega

/-- The bounds of a positive number by the powers of 2 around it. -/
theorem bounds_of_log (q : ℚ) (hq : 0 < q) :
    (2 : ℚ) ^ Int.log 2 q ≤ q ∧ q < (2 : ℚ) ^ (Int.log 2 q + 1) := by
  have a := Int.zpow_log_le_self (b := 2) (by norm_num) hq
  have b := Int.lt_zpow_succ_log_self (b := 2) (by norm_num) q
  exact ⟨by simpa using a, by simpa using b⟩

/-- The rounding of a positive number of the normal range that is closer than
half a unit in the last place to `m * 2^(k-23)`. -/
theorem roundToBinary32_eq (q : ℚ) (k m : ℤ) (h1 : (2 : ℚ) ^ k ≤ q)
    (h2 : q < (2 : ℚ) ^ (k + 1)) (hk : -126 ≤ k)
    (hm : |q / (2 : ℚ) ^ (k - 23) - m| < 1 / 2) (hm0 : 0 ≤ m)
    (hfin : (m : ℚ) * (2 : ℚ) ^ (k - 23) < (2 : ℚ) ^ (128 : ℕ)) :
    roundToBinary32 q = XReal.num ((m : ℚ) * (2 : ℚ) ^ (k - 23)) := by
  have hq : 0 < q := lt_of_lt_of_le (zpow_pos (by norm_num) k) h1
  have he : ulpExponent q = k - 23 := by
    unfold ulpExponent
    rw [abs_of_pos hq, log_eq_of_bounds q k h1 h2]
    omega
  have hr : roundHalfEven (q / (2 : ℚ) ^ (k - 23)) = m := roundHalfEven_of_near _ _ hm
  have hnn : (0 : ℚ) ≤ (m : ℚ) * (2 : ℚ) ^ (k - 23) :=
    mul_nonneg (by exact_mod_cast hm0) (le_of_lt (zpow_pos (by norm_num) _))
  unfold roundToBinary32
  simp only [he, hr]
  rw [if_neg (not_le.2 hfin), if_neg]
  have : (0 : ℚ) < (2 : ℚ) ^ (128 : ℕ) := by positivity
  linarith

/-- Zero rounds to zero. -/
theorem roundToBinary32_zero : roundToBinary32 0 = XReal.num 0 := by
  unfold roundToBinary32
  have h : roundHalfEven (0 / (2 : ℚ) ^ ulpExponent 0) = 0 := by
    rw [zero_div]
    exact roundHalfEven_intCast 0
  simp only [h]
  norm_num

/-- The rounding error of a positive number of the normal range is at most
`2^(-24)` of it, whether or not the result overflows. -/
theorem roundHalfEven_relative_error (q : ℚ) (h : (2 : ℚ) ^ (-126 : ℤ) ≤ q) :
    |(roundHalfEven (q / (2 : ℚ) ^ ulpExponent q) : ℚ) * (2 : ℚ) ^ ulpExponent q - q|
      ≤ (2 : ℚ) ^ (-24 : ℤ) * q := by
  have hq : 0 < q := lt_of_lt_of_le (zpow_pos (by norm_num) _) h
  obtain ⟨b1, b2⟩ := bounds_of_log q hq
  have hk : -126 ≤ Int.log 2 q :=
    (Int.zpow_le_iff_le_log (by norm_num) hq).1 (by simpa using h)
  have he : ulpExponent q = Int.log 2 q - 23 := by
    unfold ulpExponent
    rw [abs_of_pos hq]
    omega
  rw [he]
  set k := Int.log 2 q with hkdef
  have hpos : (0 : ℚ) < (2 : ℚ) ^ (k - 23) := zpow_pos (by norm_num) _
  have herr := abs_roundHalfEven_sub_le (q / (2 : ℚ) ^ (k - 23))
  have hscale : (roundHalfEven (q / (2 : ℚ) ^ (k - 23)) : ℚ) * (2 : ℚ) ^ (k - 23) - q
      = ((roundHalfEven (q / (2 : ℚ) ^ (k - 23)) : ℚ) - q / (2 : ℚ) ^ (k - 23))
        * (2 : ℚ) ^ (k - 23) := by
    field_simp
  rw [hscale, abs_mul, abs_of_pos hpos]
  have hpow : (1 / 2 : ℚ) * (2 : ℚ) ^ (k - 23) = (2 : ℚ) ^ (-24 : ℤ) * (2 : ℚ) ^ k := by
    rw [show k - 23 = k + (-23) from rfl, zpow_add₀ (by norm_num : (2 : ℚ) ≠ 0)]
    norm_num
    ring
  calc |(roundHalfEven (q / (2 : ℚ) ^ (k - 23)) : ℚ) - q / (2 : ℚ) ^ (k - 23)|
        * (2 : ℚ) ^ (k - 23)
      ≤ (1 / 2) * (2 : ℚ) ^ (k - 23) := mul_le_mul_of_nonneg_right herr (le_of_lt hpos)
    _ = (2 : ℚ) ^ (-24 : ℤ) * (2 : ℚ) ^ k := hpow
    _ ≤ (2 : ℚ) ^ (-24 : ℤ) * q := mul_le_mul_of_nonneg_left b1 (by positivity)


namespace Binary32

/-- The result of an operation whose exact value is a positive number of the
normal range, closer than half a unit in the last place to `v = m * 2^(k-23)`. -/
theorem round_num_eq (q v : ℚ) (k m : ℤ) (hv : v = (m : ℚ) * (2 : ℚ) ^ (k - 23))
    (h1 : (2 : ℚ) ^ k ≤ q) (h2 : q < (2 : ℚ) ^ (k + 1)) (hk : -126 ≤ k)
    (hm : |q / (2 : ℚ) ^ (k - 23) - m| < 1 / 2) (hm0 : 0 ≤ m)
    (hfin : v < (2 : ℚ) ^ (128 : ℕ)) :
    round (XReal.num q) = ⟨XReal.num v⟩ := by
  show (⟨roundToBinary32 q⟩ : Binary32) = ⟨XReal.num v⟩
  rw [roundToBinary32_eq q k m h1 h2 hk hm hm0 (hv ▸ hfin), hv]

/-- The literal `(float) .4`. -/
theorem literal_04 : (0.4 : Binary32) = ⟨XReal.num (13421773 / 33554432)⟩ := by
  show round (XReal.num (0.4 : ℚ)) = _
  refine round_num_eq _ _ (-2) 13421773 ?_ ?_ ?_ ?_ ?_ ?_ ?_ <;> norm_num [abs_lt]

/-- The literal `0.00001`. -/
theorem literal_00001 : (0.00001 : Binary32) = ⟨XReal.num (2748779 / 274877906944)⟩ := by
  show round (XReal.num (0.00001 : ℚ)) = _
  refine round_num_eq _ _ (-17) 10995116 ?_ ?_ ?_ ?_ ?_ ?_ ?_ <;> norm_num [abs_lt]

end Binary32


/-! ### Arithmetic of finite values -/

namespace XReal

theorem num_add (a b : ℚ) : num a + num b = num (a + b) := rfl

theorem num_sub (a b : ℚ) : num a - num b = num (a - b) := by
  show add (num a) (neg (num b)) = num (a - b)
  simp only [neg, add, sub_eq_add_neg]

theorem num_mul (a b : ℚ) : num a * num b = num (a * b) := rfl

theorem num_div (a b : ℚ) (hb : b ≠ 0) : num a / num b = num (a / b) := by
  show div (num a) (num b) = num (a / b)
  simp only [div, hb, if_false]

theorem num_lt (a b : ℚ) : num a < num b ↔ a < b := by
  show blt (num a) (num b) = true ↔ a < b
  simp only [blt, decide_eq_true_eq]

theorem sub_zero (x : XReal) : x - num 0 = x := by
  show add x (neg (num 0)) = x
  cases x <;> simp [neg, add]

end XReal

namespace Binary32

theorem zero_val : (0 : Binary32).val = XReal.num 0 := rfl

theorem add_val (a b : Binary32) : a + b = round (a.val + b.val) := rfl

theorem sub_val (a b : Binary32) : a - b = round (a.val - b.val) := rfl

theorem mul_val (a b : Binary32) : a * b = round (a.val * b.val) := rfl

theorem div_val (a b : Binary32) : a / b = round (a.val / b.val) := rfl

theorem lt_val (a b : Binary32) : a < b ↔ a.val < b.val := Iff.rfl

/-- Zero is the result of an operation whose exact value is zero. -/
theorem round_zero : round (XReal.num 0) = 0 := by
  show (⟨roundToBinary32 0⟩ : Binary32) = ⟨XReal.num 0⟩
  rw [roundToBinary32_zero]

/-- A finite value is a number. -/
theorem val_of_isFinite (a : Binary32) (h : a.isFinite = true) : a.val = XReal.num a.toRat := by
  unfold isFinite at h
  unfold toRat
  cases hv : a.val <;> simp_all

/-- The sum `0 + 0`. -/
theorem zero_add_zero : (0 : Binary32) + 0 = 0 := by
  rw [add_val, zero_val, XReal.num_add, add_zero, round_zero]

/-- The difference `a - 0` of a value. -/
theorem sub_zero_of_isValue (a : Binary32) (h : a.IsValue) : a - 0 = a := by
  rw [sub_val, zero_val, XReal.sub_zero]
  exact h

/-- The product of a finite value and zero. -/
theorem mul_zero_of_isFinite (a : Binary32) (h : a.isFinite = true) : a * 0 = 0 := by
  rw [mul_val, zero_val, val_of_isFinite a h, XReal.num_mul, mul_zero, round_zero]

/-- The product of zero and a finite value. -/
theorem zero_mul_of_isFinite (a : Binary32) (h : a.isFinite = true) : 0 * a = 0 := by
  rw [mul_val, zero_val, val_of_isFinite a h, XReal.num_mul, zero_mul, round_zero]

/-- The quotient of zero by a finite value other than zero. -/
theorem zero_div_of_isFinite (a : Binary32) (h : a.isFinite = true) (hne : a.toRat ≠ 0) :
    0 / a = 0 := by
  rw [div_val, zero_val, val_of_isFinite a h, XReal.num_div _ _ hne, zero_div, round_zero]

/-- The difference of a finite value and itself. -/
theorem sub_self_of_isFinite (a : Binary32) (h : a.isFinite = true) : a - a = 0 := by
  rw [sub_val, val_of_isFinite a h, XReal.num_sub, sub_self, round_zero]

/-- Zero is a value. -/
theorem isValue_zero : (0 : Binary32).IsValue := round_zero

/-- Zero is below the tolerance `0.00001`. -/
theorem zero_lt_tolerance : (0 : Binary32) < 0.00001 := by
  rw [literal_00001, lt_val]
  show XReal.num 0 < XReal.num _
  rw [XReal.num_lt]
  norm_num

end Binary32

/-- A quotient that is a number has a numerator that is a number. -/
theorem XReal.num_of_div_eq_num (a b : XReal) (q : ℚ) (h : a / b = XReal.num q) :
    ∃ r, a = XReal.num r := by
  change XReal.div a b = XReal.num q at h
  cases a with
  | num r => exact ⟨r, rfl⟩
  | posInf =>
    cases b <;> simp only [XReal.div] at h <;> first | cases h | split_ifs at h
  | negInf =>
    cases b <;> simp only [XReal.div] at h <;> first | cases h | split_ifs at h
  | nan => cases b <;> simp only [XReal.div] at h <;> cases h

/-- A finite result comes from an exact value that is a number. -/
theorem Binary32.num_of_round_isFinite (x : XReal) (h : (Binary32.round x).isFinite = true) :
    ∃ q, x = XReal.num q := by
  cases x with
  | num q => exact ⟨q, rfl⟩
  | posInf => simp [Binary32.round, Binary32.isFinite] at h
  | negInf => simp [Binary32.round, Binary32.isFinite] at h
  | nan => simp [Binary32.round, Binary32.isFinite] at h

/-- A quotient is finite only if its numerator is. -/
theorem Binary32.isFinite_of_div (a b : Binary32) (h : (a / b).isFinite = true) :
    a.isFinite = true := by
  rw [Binary32.div_val] at h
  obtain ⟨q, hq⟩ := Binary32.num_of_round_isFinite _ h
  obtain ⟨r, hr⟩ := XReal.num_of_div_eq_num _ _ _ hq
  unfold Binary32.isFinite
  rw [hr]


/-! ### Overflow, and operations with 1 -/

/-- Rounding does not go below the integer part. -/
theorem floor_le_roundHalfEven (x : ℚ) : ⌊x⌋ ≤ roundHalfEven x := by
  unfold roundHalfEven
  split_ifs <;> omega

/-- A power of 2 is below a positive number exactly when its exponent is at most
the binary logarithm. -/
theorem two_zpow_le_iff_le_log (q : ℚ) (k : ℤ) (hq : 0 < q) :
    (2 : ℚ) ^ k ≤ q ↔ k ≤ Int.log 2 q := by
  have h := Int.zpow_le_iff_le_log (b := 2) (by norm_num) (x := k) hq
  simpa using h

/-- A number from `2^128` on rounds to `+inf`. -/
theorem roundToBinary32_overflow (q : ℚ) (h : (2 : ℚ) ^ (128 : ℕ) ≤ q) :
    roundToBinary32 q = XReal.posInf := by
  have hq : 0 < q := lt_of_lt_of_le (by positivity) h
  obtain ⟨b1, _⟩ := bounds_of_log q hq
  have h' : (2 : ℚ) ^ (128 : ℤ) ≤ q := by
    have e : (2 : ℚ) ^ (128 : ℤ) = (2 : ℚ) ^ (128 : ℕ) := by norm_cast
    rw [e]
    exact h
  have hk : (128 : ℤ) ≤ Int.log 2 q := (two_zpow_le_iff_le_log q 128 hq).1 h'
  have he : ulpExponent q = Int.log 2 q - 23 := by
    unfold ulpExponent
    rw [abs_of_pos hq]
    omega
  set k := Int.log 2 q with hkdef
  have hpos : (0 : ℚ) < (2 : ℚ) ^ (k - 23) := zpow_pos (by norm_num) _
  have hx : ((2 : ℤ) ^ (23 : ℕ) : ℚ) ≤ q / (2 : ℚ) ^ (k - 23) := by
    rw [le_div_iff₀ hpos]
    have e : ((2 : ℤ) ^ (23 : ℕ) : ℚ) * (2 : ℚ) ^ (k - 23) = (2 : ℚ) ^ k := by
      rw [show k - 23 = k + (-23) from rfl, zpow_add₀ (by norm_num : (2 : ℚ) ≠ 0)]
      norm_num
      ring
    rw [e]
    exact b1
  have hfl : (2 : ℤ) ^ (23 : ℕ) ≤ ⌊q / (2 : ℚ) ^ (k - 23)⌋ := Int.le_floor.2 (by exact_mod_cast hx)
  have hr : ((2 : ℤ) ^ (23 : ℕ) : ℚ) ≤ (roundHalfEven (q / (2 : ℚ) ^ (k - 23)) : ℚ) := by
    exact_mod_cast le_trans hfl (floor_le_roundHalfEven _)
  have hv : (2 : ℚ) ^ (128 : ℕ)
      ≤ (roundHalfEven (q / (2 : ℚ) ^ (k - 23)) : ℚ) * (2 : ℚ) ^ (k - 23) := by
    have h1 : (2 : ℚ) ^ (128 : ℕ) ≤ ((2 : ℤ) ^ (23 : ℕ) : ℚ) * (2 : ℚ) ^ (k - 23) := by
      have e : ((2 : ℤ) ^ (23 : ℕ) : ℚ) * (2 : ℚ) ^ (k - 23) = (2 : ℚ) ^ k := by
        rw [show k - 23 = k + (-23) from rfl, zpow_add₀ (by norm_num : (2 : ℚ) ≠ 0)]
        norm_num
        ring
      rw [e]
      have : (2 : ℚ) ^ (128 : ℕ) = (2 : ℚ) ^ (128 : ℤ) := by norm_cast
      rw [this]
      exact zpow_le_zpow_right₀ (by norm_num) hk
    exact le_trans h1 (mul_le_mul_of_nonneg_right hr (le_of_lt hpos))
  unfold roundToBinary32
  simp only [he]
  rw [if_pos hv]

/-- The value that a finite result of a rounding has. -/
theorem roundToBinary32_eq_num (q v : ℚ) (h : roundToBinary32 q = XReal.num v) :
    v = (roundHalfEven (q / (2 : ℚ) ^ ulpExponent q) : ℚ) * (2 : ℚ) ^ ulpExponent q := by
  unfold roundToBinary32 at h
  simp only at h
  split_ifs at h
  exact (XReal.num.inj h).symm

namespace Binary32

/-- The value 1 is a value. -/
theorem isValue_one32 : one32.IsValue := by
  show round (XReal.num 1) = ⟨XReal.num 1⟩
  refine round_num_eq _ _ 0 8388608 ?_ ?_ ?_ ?_ ?_ ?_ ?_ <;> norm_num [abs_lt]

/-- The literal `(float) .4` is a value. -/
theorem isValue_literal_04 : (0.4 : Binary32).IsValue := by
  rw [literal_04]
  show round (XReal.num _) = _
  refine round_num_eq _ _ (-2) 13421773 ?_ ?_ ?_ ?_ ?_ ?_ ?_ <;> norm_num [abs_lt]

/-- The product of a finite value and 1. -/
theorem mul_one32 (a : Binary32) (hf : a.isFinite = true) (hv : a.IsValue) : a * one32 = a := by
  have e : a.val * one32.val = a.val := by
    rw [val_of_isFinite a hf]
    show XReal.num _ * XReal.num 1 = _
    rw [XReal.num_mul, mul_one]
  rw [mul_val, e]
  exact hv

/-- The quotient of a finite value by 1. -/
theorem div_one32 (a : Binary32) (hf : a.isFinite = true) (hv : a.IsValue) : a / one32 = a := by
  have e : a.val / one32.val = a.val := by
    rw [val_of_isFinite a hf]
    show XReal.num _ / XReal.num 1 = _
    rw [XReal.num_div _ _ one_ne_zero, div_one]
  rw [div_val, e]
  exact hv

/-- The literal `(float) .4` is finite. -/
theorem isFinite_literal_04 : (0.4 : Binary32).isFinite = true := by
  rw [literal_04]
  rfl

/-- Not-a-number minus anything is not a number. -/
theorem nan_sub (z : Binary32) : (⟨XReal.nan⟩ : Binary32) - z = ⟨XReal.nan⟩ := by
  rw [sub_val]
  show round (XReal.add XReal.nan (XReal.neg z.val)) = _
  cases z.val <;> rfl

/-- Anything minus not-a-number is not a number. -/
theorem sub_nan (z : Binary32) : z - (⟨XReal.nan⟩ : Binary32) = ⟨XReal.nan⟩ := by
  rw [sub_val]
  show round (XReal.add z.val (XReal.neg XReal.nan)) = _
  cases z.val <;> rfl

/-- The product `inf * 0` is not a number. -/
theorem posInf_mul_zero : (⟨XReal.posInf⟩ : Binary32) * 0 = ⟨XReal.nan⟩ := by
  rw [mul_val]
  show round (XReal.mul XReal.posInf (XReal.num 0)) = _
  simp [XReal.mul, XReal.mulPosInf, round]

/-- Not-a-number is below nothing. -/
theorem not_nan_lt (z : Binary32) : ¬ (⟨XReal.nan⟩ : Binary32) < z := by
  rw [lt_val]
  show ¬ XReal.blt XReal.nan z.val = true
  cases z.val <;> simp [XReal.blt]

/-- The difference `inf - inf` is not a number. -/
theorem posInf_sub_posInf : (⟨XReal.posInf⟩ : Binary32) - ⟨XReal.posInf⟩ = ⟨XReal.nan⟩ := rfl

end Binary32


/-- A number halfway between the odd integer `m` and `m + 1` rounds to `m + 1`. -/
theorem roundHalfEven_tie_odd (x : ℚ) (m : ℤ) (h : x = (m : ℚ) + 1 / 2) (hodd : m % 2 = 1) :
    roundHalfEven x = m + 1 := by
  have hf : ⌊x⌋ = m := Int.floor_eq_iff.2 ⟨by rw [h]; linarith, by rw [h]; linarith⟩
  unfold roundHalfEven
  rw [hf, if_neg (by rw [h]; norm_num), if_neg (by rw [h]; norm_num), if_neg (by omega)]

/-- The result of rounding a positive number of the normal range whose scaled
value rounds to the integer `m`. -/
theorem roundToBinary32_of_roundHalfEven (q : ℚ) (k m : ℤ) (h1 : (2 : ℚ) ^ k ≤ q)
    (h2 : q < (2 : ℚ) ^ (k + 1)) (hk : -126 ≤ k)
    (hr : roundHalfEven (q / (2 : ℚ) ^ (k - 23)) = m) (hm0 : 0 ≤ m)
    (hfin : (m : ℚ) * (2 : ℚ) ^ (k - 23) < (2 : ℚ) ^ (128 : ℕ)) :
    roundToBinary32 q = XReal.num ((m : ℚ) * (2 : ℚ) ^ (k - 23)) := by
  have hq : 0 < q := lt_of_lt_of_le (zpow_pos (by norm_num) k) h1
  have he : ulpExponent q = k - 23 := by
    unfold ulpExponent
    rw [abs_of_pos hq, log_eq_of_bounds q k h1 h2]
    omega
  have hnn : (0 : ℚ) ≤ (m : ℚ) * (2 : ℚ) ^ (k - 23) :=
    mul_nonneg (by exact_mod_cast hm0) (le_of_lt (zpow_pos (by norm_num) _))
  unfold roundToBinary32
  simp only [he, hr]
  rw [if_neg (not_le.2 hfin), if_neg (by
    have : (0 : ℚ) < (2 : ℚ) ^ (128 : ℕ) := by positivity
    linarith)]

namespace Binary32

/-- The value of a finite result of an operation whose exact value is `q`. -/
theorem toRat_round (q : ℚ) (h : (round (XReal.num q)).isFinite = true) :
    (round (XReal.num q)).toRat
      = (roundHalfEven (q / (2 : ℚ) ^ ulpExponent q) : ℚ) * (2 : ℚ) ^ ulpExponent q := by
  have hv := val_of_isFinite _ h
  exact roundToBinary32_eq_num q _ hv

/-- The relative error of a finite result in the normal range is at most
`2^(-24)`. -/
theorem round_relative_error (q : ℚ) (hq : (2 : ℚ) ^ (-126 : ℤ) ≤ q)
    (h : (round (XReal.num q)).isFinite = true) :
    |(round (XReal.num q)).toRat - q| ≤ (2 : ℚ) ^ (-24 : ℤ) * q := by
  rw [toRat_round q h]
  exact roundHalfEven_relative_error q hq

/-- The quotient `1 / 3`. -/
theorem one32_div_three32 : one32 / three32 = ⟨XReal.num (11184811 / 33554432)⟩ := by
  rw [div_val]
  show round (XReal.num 1 / XReal.num 3) = _
  rw [XReal.num_div _ _ (by norm_num)]
  refine round_num_eq _ _ (-2) 11184811 ?_ ?_ ?_ ?_ ?_ ?_ ?_ <;> norm_num [abs_lt]

/-- The product of `(float) .4` and the quotient `1 / 3`. -/
theorem literal_04_mul_third :
    (0.4 : Binary32) * ⟨XReal.num (11184811 / 33554432)⟩
      = ⟨XReal.num (8947849 / 67108864)⟩ := by
  rw [literal_04, mul_val]
  show round (XReal.num _ * XReal.num _) = _
  rw [XReal.num_mul]
  refine round_num_eq _ _ (-3) 8947849 ?_ ?_ ?_ ?_ ?_ ?_ ?_ <;> norm_num [abs_lt]

/-- The product of the stored timestep and the wave speed 3: the exact product is
halfway between two values and rounds to the even one. -/
theorem timestep_mul_three32 :
    (⟨XReal.num (8947849 / 67108864)⟩ : Binary32) * three32
      = ⟨XReal.num (6710887 / 16777216)⟩ := by
  rw [mul_val]
  show round (XReal.num _ * XReal.num 3) = _
  rw [XReal.num_mul]
  show (⟨roundToBinary32 _⟩ : Binary32) = _
  rw [roundToBinary32_of_roundHalfEven _ (-2) 13421774 (by norm_num) (by norm_num)
    (by norm_num) (roundHalfEven_tie_odd _ 13421773 (by norm_num) (by norm_num))
    (by norm_num) (by norm_num)]
  norm_num

/-- The value `6710887 / 2^24` is a value. -/
theorem isValue_product : (⟨XReal.num (6710887 / 16777216)⟩ : Binary32).IsValue := by
  show round (XReal.num _) = _
  refine round_num_eq _ _ (-2) 13421774 ?_ ?_ ?_ ?_ ?_ ?_ ?_ <;> norm_num [abs_lt]

end Binary32

namespace SWE_DimensionalSplittingChameleon

variable {α : Type}

/-! ### The sweeps and the update -/

/-- Closed form of the loops that set the intermediary states. -/
theorem intermediateStates_eq [Add α] [Sub α] [Mul α] [Div α]
    (blk : SWE_DimensionalSplittingChameleon α) :
    intermediateStates blk =
      { blk with
        hStar := fun x y =>
          if (x, y) ∈ Finset.Ico 1 (blk.nx + 1) ×ˢ Finset.Ico 0 (blk.ny + 2) then
            blk.h x y - (blk.maxTimestep / blk.dx)
              * (blk.hNetUpdatesLeft x y + blk.hNetUpdatesRight x y)
          else blk.hStar x y
        huStar := fun x y =>
          if (x, y) ∈ Finset.Ico 1 (blk.nx + 1) ×ˢ Finset.Ico 0 (blk.ny + 2) then
            blk.hu x y - (blk.maxTimestep / blk.dx)
              * (blk.huNetUpdatesLeft x y + blk.huNetUpdatesRight x y)
          else blk.huStar x y } := by
  have key := forLoop2_closed
    (fun D : Finset (Nat × Nat) =>
      ({ blk with
        hStar := fun x y =>
          if (x, y) ∈ D then
            blk.h x y - (blk.maxTimestep / blk.dx)
              * (blk.hNetUpdatesLeft x y + blk.hNetUpdatesRight x y)
          else blk.hStar x y
        huStar := fun x y =>
          if (x, y) ∈ D then
            blk.hu x y - (blk.maxTimestep / blk.dx)
              * (blk.huNetUpdatesLeft x y + blk.huNetUpdatesRight x y)
          else blk.huStar x y } : SWE_DimensionalSplittingChameleon α))
    (fun x y => intermediateCell x y) ?_ 1 (blk.nx + 1) 0 (blk.ny + 2) (by omega) (by omega)
  · simpa [intermediateStates] using key
  · intro D x y _
    simp only [intermediateCell]
    congr 1
    · funext i j
      by_cases hc : i = x ∧ j = y
      · obtain ⟨rfl, rfl⟩ := hc
        simp [Float2D.set_apply]
      · have : (i, j) ≠ (x, y) := fun h => hc (by simpa using h)
        simp [Float2D.set_apply, hc, this]
    · funext i j
      by_cases hc : i = x ∧ j = y
      · obtain ⟨rfl, rfl⟩ := hc
        simp [Float2D.set_apply]
      · have : (i, j) ≠ (x, y) := fun h => hc (by simpa using h)
        simp [Float2D.set_apply, hc, this]

/-- Closed form of the update loops. -/
theorem updateLoops_eq [Add α] [Sub α] [Mul α] [Div α]
    (blk : SWE_DimensionalSplittingChameleon α) :
    updateLoops blk =
      { blk with
        h := fun x y =>
          if (x, y) ∈ Finset.Ico 1 (blk.nx + 1) ×ˢ Finset.Ico 1 (blk.ny + 1) then
            blk.hStar x y - (blk.maxTimestep / blk.dx)
              * (blk.hNetUpdatesBelow x y + blk.hNetUpdatesAbove x y)
          else blk.h x y
        hu := fun x y =>
          if (x, y) ∈ Finset.Ico 1 (blk.nx + 1) ×ˢ Finset.Ico 1 (blk.ny + 1) then
            blk.huStar x y
          else blk.hu x y
        hv := fun x y =>
          if (x, y) ∈ Finset.Ico 1 (blk.nx + 1) ×ˢ Finset.Ico 1 (blk.ny + 1) then
            blk.hv x y - (blk.maxTimestep / blk.dx)
              * (blk.hvNetUpdatesBelow x y + blk.hvNetUpdatesAbove x y)
          else blk.hv x y } := by
  have key := forLoop2_closed
    (fun D : Finset (Nat × Nat) =>
      ({ blk with
        h := fun x y =>
          if (x, y) ∈ D then
            blk.hStar x y - (blk.maxTimestep / blk.dx)
              * (blk.hNetUpdatesBelow x y + blk.hNetUpdatesAbove x y)
          else blk.h x y
        hu := fun x y => if (x, y) ∈ D then blk.huStar x y else blk.hu x y
        hv := fun x y =>
          if (x, y) ∈ D then
            blk.hv x y - (blk.maxTimestep / blk.dx)
              * (blk.hvNetUpdatesBelow x y + blk.hvNetUpdatesAbove x y)
          else blk.hv x y } : SWE_DimensionalSplittingChameleon α))
    (fun x y => updateCell x y) ?_ 1 (blk.nx + 1) 1 (blk.ny + 1) (by omega) (by omega)
  · simpa [updateLoops] using key
  · intro D x y hD
    simp only [updateCell]
    congr 1
    · funext i j
      by_cases hc : i = x ∧ j = y
      · obtain ⟨rfl, rfl⟩ := hc
        simp [Float2D.set_apply]
      · have : (i, j) ≠ (x, y) := fun h => hc (by simpa using h)
        simp [Float2D.set_apply, hc, this]
    · funext i j
      by_cases hc : i = x ∧ j = y
      · obtain ⟨rfl, rfl⟩ := hc
        simp [Float2D.set_apply]
      · have : (i, j) ≠ (x, y) := fun h => hc (by simpa using h)
        simp [Float2D.set_apply, hc, this]
    · funext i j
      by_cases hc : i = x ∧ j = y
      · obtain ⟨rfl, rfl⟩ := hc
        simp [Float2D.set_apply, hD]
      · have : (i, j) ≠ (x, y) := fun h => hc (by simpa using h)
        simp [Float2D.set_apply, hc, this]

/-- An observation of the block that no x-sweep edge changes is unchanged by the
x-sweep. -/
theorem xSweep_preserves [Zero α] {β : Type} (f : SWE_DimensionalSplittingChameleon α → β)
    (solver : Solver α)
    (hf : ∀ x y st, f (horizontalEdge solver x y st).1 = f st.1)
    (blk : SWE_DimensionalSplittingChameleon α) :
    f (xSweep solver blk).1 = f blk := by
  unfold xSweep
  exact forLoop_preserves (fun st : SWE_DimensionalSplittingChameleon α × α => f st.1) _
    (fun x st => forLoop_preserves
      (fun st : SWE_DimensionalSplittingChameleon α × α => f st.1) _
      (fun y st' => hf x y st') 0 (blk.ny + 2) st) 0 (blk.nx + 1) (blk, 0)

/-- An observation of the block that no y-sweep edge changes is unchanged by the
y-sweep. -/
theorem ySweep_preserves [Zero α] {β : Type} (f : SWE_DimensionalSplittingChameleon α → β)
    (solver : Solver α)
    (hf : ∀ x y st, f (verticalEdge solver x y st).1 = f st.1)
    (blk : SWE_DimensionalSplittingChameleon α) :
    f (ySweep solver blk).1 = f blk := by
  unfold ySweep
  exact forLoop_preserves (fun st : SWE_DimensionalSplittingChameleon α × α => f st.1) _
    (fun x st => forLoop_preserves
      (fun st : SWE_DimensionalSplittingChameleon α × α => f st.1) _
      (fun y st' => hf x y st') 0 (blk.ny + 1) st) 1 (blk.nx + 1) (blk, 0)

/-- In an ordered field `std::abs` is the absolute value. -/
theorem fabs_eq_abs [LinearOrderedField α] (a : α) : fabs a = |a| := by
  unfold fabs
  split
  · next h => exact (abs_of_neg h).symm
  · next h => exact (abs_of_nonneg (not_lt.1 h)).symm

/-- C8: when the ghost layers are in sync and the `dt` argument passes the
timestep assertion, `updateUnknowns` returns a block in which, for every
interior cell `1 ≤ x ≤ nx`, `1 ≤ y ≤ ny`,
`h[x][y] = hStar[x][y] - (maxTimestep/dx) * (hNetUpdatesBelow[x][y] + hNetUpdatesAbove[x][y])`,
`hu[x][y] = huStar[x][y]` and
`hv[x][y] = hv_old[x][y] - (maxTimestep/dx) * (hvNetUpdatesBelow[x][y] + hvNetUpdatesAbove[x][y])`:
the y-direction terms divide by `dx`, the timestep is the stored `maxTimestep`,
and every `dt` that passes the assertion gives the same result. -/
theorem updateUnknowns_interior [Zero α] [Add α] [Sub α] [Mul α] [Div α] [Neg α] [LT α]
    [DecidableRel (fun a b : α => a < b)] [OfScientific α] (NDEBUG : Bool)
    (allGhostlayersInSync : SWE_DimensionalSplittingChameleon α → Bool)
    (blk : SWE_DimensionalSplittingChameleon α) (dt : α)
    (hsync : allGhostlayersInSync blk = true) (hassert : timestepAssertion blk dt = true) :
    ∃ blk', updateUnknowns NDEBUG allGhostlayersInSync blk dt = Run.returned blk' ∧
      (∀ x y, 1 ≤ x → x ≤ blk.nx → 1 ≤ y → y ≤ blk.ny →
        blk'.h x y = blk.hStar x y - (blk.maxTimestep / blk.dx)
          * (blk.hNetUpdatesBelow x y + blk.hNetUpdatesAbove x y) ∧
        blk'.hu x y = blk.huStar x y ∧
        blk'.hv x y = blk.hv x y - (blk.maxTimestep / blk.dx)
          * (blk.hvNetUpdatesBelow x y + blk.hvNetUpdatesAbove x y)) ∧
      (∀ dt', timestepAssertion blk dt' = true →
        updateUnknowns NDEBUG allGhostlayersInSync blk dt' = Run.returned blk') := by
  refine ⟨updateLoops blk, ?_, ?_, ?_⟩
  · simp [updateUnknowns, hsync, hassert]
  · intro x y hx1 hx2 hy1 hy2
    have hmem : (x, y) ∈ Finset.Ico 1 (blk.nx + 1) ×ˢ Finset.Ico 1 (blk.ny + 1) := by
      simp only [Finset.mem_product, Finset.mem_Ico]
      omega
    rw [updateLoops_eq]
    simp only [hmem, if_true, and_self]
  · intro dt' hdt'
    simp [updateUnknowns, hsync, hdt']

/-- Instance of C8: the concrete block, `dt` equal to its `maxTimestep`. -/
theorem updateUnknowns_interior_witness :
    alwaysInSync exampleBlock = true ∧
    timestepAssertion exampleBlock 0 = true ∧
    ∃ blk', updateUnknowns false alwaysInSync exampleBlock 0 = Run.returned blk' ∧
      (∀ x y, 1 ≤ x → x ≤ exampleBlock.nx → 1 ≤ y → y ≤ exampleBlock.ny →
        blk'.h x y = exampleBlock.hStar x y - (exampleBlock.maxTimestep / exampleBlock.dx)
          * (exampleBlock.hNetUpdatesBelow x y + exampleBlock.hNetUpdatesAbove x y) ∧
        blk'.hu x y = exampleBlock.huStar x y ∧
        blk'.hv x y = exampleBlock.hv x y - (exampleBlock.maxTimestep / exampleBlock.dx)
          * (exampleBlock.hvNetUpdatesBelow x y + exampleBlock.hvNetUpdatesAbove x y)) ∧
      (∀ dt', timestepAssertion exampleBlock dt' = true →
        updateUnknowns false alwaysInSync exampleBlock dt' = Run.returned blk') :=
  ⟨rfl, by norm_num [timestepAssertion, fabs, exampleBlock],
    updateUnknowns_interior false alwaysInSync exampleBlock 0 rfl
      (by norm_num [timestepAssertion, fabs, exampleBlock])⟩

/-- C9: when the ghost layers are in sync, `computeNumericalFluxesVertical` sets,
for every `1 ≤ x ≤ nx` and `0 ≤ y ≤ ny + 1`,
`hStar[x][y] = h[x][y] - (maxTimestep/dx) * (hNetUpdatesLeft[x][y] + hNetUpdatesRight[x][y])`
and
`huStar[x][y] = hu[x][y] - (maxTimestep/dx) * (huNetUpdatesLeft[x][y] + huNetUpdatesRight[x][y])`,
from the `h`, `hu`, `maxTimestep` and x-direction net updates that the block
holds on entry, which the function leaves as they are. -/
theorem computeNumericalFluxesVertical_intermediate [Zero α] [Add α] [Sub α] [Mul α] [Div α]
    (allGhostlayersInSync : SWE_DimensionalSplittingChameleon α → Bool)
    (solver : Solver α) (blk : SWE_DimensionalSplittingChameleon α)
    (hsync : allGhostlayersInSync blk = true)
    (x y : Nat) (hx1 : 1 ≤ x) (hx2 : x ≤ blk.nx) (hy : y ≤ blk.ny + 1) :
    (computeNumericalFluxesVertical allGhostlayersInSync solver blk).hStar x y
      = blk.h x y - (blk.maxTimestep / blk.dx)
          * (blk.hNetUpdatesLeft x y + blk.hNetUpdatesRight x y) ∧
    (computeNumericalFluxesVertical allGhostlayersInSync solver blk).huStar x y
      = blk.hu x y - (blk.maxTimestep / blk.dx)
          * (blk.huNetUpdatesLeft x y + blk.huNetUpdatesRight x y) ∧
    (computeNumericalFluxesVertical allGhostlayersInSync solver blk).h = blk.h ∧
    (computeNumericalFluxesVertical allGhostlayersInSync solver blk).hu = blk.hu ∧
    (computeNumericalFluxesVertical allGhostlayersInSync solver blk).maxTimestep
      = blk.maxTimestep ∧
    (computeNumericalFluxesVertical allGhostlayersInSync solver blk).hNetUpdatesLeft
      = blk.hNetUpdatesLeft ∧
    (computeNumericalFluxesVertical allGhostlayersInSync solver blk).hNetUpdatesRight
      = blk.hNetUpdatesRight ∧
    (computeNumericalFluxesVertical allGhostlayersInSync solver blk).huNetUpdatesLeft
      = blk.huNetUpdatesLeft ∧
    (computeNumericalFluxesVertical allGhostlayersInSync solver blk).huNetUpdatesRight
      = blk.huNetUpdatesRight := by
  have hmem : (x, y) ∈ Finset.Ico 1 (blk.nx + 1) ×ˢ Finset.Ico 0 (blk.ny + 2) := by
    simp only [Finset.mem_product, Finset.mem_Ico]
    omega
  have hrun : computeNumericalFluxesVertical allGhostlayersInSync solver blk
      = (ySweep solver (intermediateStates blk)).1 := by
    simp [computeNumericalFluxesVertical, hsync]
  rw [hrun]
  refine ⟨?_, ?_, ?_, ?_, ?_, ?_, ?_, ?_, ?_⟩
  · rw [ySweep_preserves (fun b => b.hStar) solver (fun _ _ _ => rfl), intermediateStates_eq]
    simp only [hmem, if_true]
  · rw [ySweep_preserves (fun b => b.huStar) solver (fun _ _ _ => rfl), intermediateStates_eq]
    simp only [hmem, if_true]
  · rw [ySweep_preserves (fun b => b.h) solver (fun _ _ _ => rfl), intermediateStates_eq]
  · rw [ySweep_preserves (fun b => b.hu) solver (fun _ _ _ => rfl), intermediateStates_eq]
  · rw [ySweep_preserves (fun b => b.maxTimestep) solver (fun _ _ _ => rfl),
      intermediateStates_eq]
  · rw [ySweep_preserves (fun b => b.hNetUpdatesLeft) solver (fun _ _ _ => rfl),
      intermediateStates_eq]
  · rw [ySweep_preserves (fun b => b.hNetUpdatesRight) solver (fun _ _ _ => rfl),
      intermediateStates_eq]
  · rw [ySweep_preserves (fun b => b.huNetUpdatesLeft) solver (fun _ _ _ => rfl),
      intermediateStates_eq]
  · rw [ySweep_preserves (fun b => b.huNetUpdatesRight) solver (fun _ _ _ => rfl),
      intermediateStates_eq]

/-- Instance of C9: the bottom ghost row of the concrete block. -/
theorem computeNumericalFluxesVertical_intermediate_witness :
    alwaysInSync exampleBlock = true ∧ 1 ≤ 1 ∧ 1 ≤ exampleBlock.nx ∧
    0 ≤ exampleBlock.ny + 1 ∧
    ((computeNumericalFluxesVertical alwaysInSync exampleSolver exampleBlock).hStar 1 0
      = exampleBlock.h 1 0 - (exampleBlock.maxTimestep / exampleBlock.dx)
          * (exampleBlock.hNetUpdatesLeft 1 0 + exampleBlock.hNetUpdatesRight 1 0) ∧
    (computeNumericalFluxesVertical alwaysInSync exampleSolver exampleBlock).huStar 1 0
      = exampleBlock.hu 1 0 - (exampleBlock.maxTimestep / exampleBlock.dx)
          * (exampleBlock.huNetUpdatesLeft 1 0 + exampleBlock.huNetUpdatesRight 1 0) ∧
    (computeNumericalFluxesVertical alwaysInSync exampleSolver exampleBlock).h
      = exampleBlock.h ∧
    (computeNumericalFluxesVertical alwaysInSync exampleSolver exampleBlock).hu
      = exampleBlock.hu ∧
    (computeNumericalFluxesVertical alwaysInSync exampleSolver exampleBlock).maxTimestep
      = exampleBlock.maxTimestep ∧
    (computeNumericalFluxesVertical alwaysInSync exampleSolver exampleBlock).hNetUpdatesLeft
      = exampleBlock.hNetUpdatesLeft ∧
    (computeNumericalFluxesVertical alwaysInSync exampleSolver exampleBlock).hNetUpdatesRight
      = exampleBlock.hNetUpdatesRight ∧
    (computeNumericalFluxesVertical alwaysInSync exampleSolver exampleBlock).huNetUpdatesLeft
      = exampleBlock.huNetUpdatesLeft ∧
    (computeNumericalFluxesVertical alwaysInSync exampleSolver exampleBlock).huNetUpdatesRight
      = exampleBlock.huNetUpdatesRight) :=
  ⟨rfl, by decide, by decide, by decide,
    computeNumericalFluxesVertical_intermediate alwaysInSync exampleSolver exampleBlock rfl
      1 0 (by decide) (by decide) (by decide)⟩

/-- The update of the concrete block replaces the interior water height 2 by the
stored intermediate height 1. -/
theorem updateLoops_example_h : (updateLoops exampleBlock).h 1 1 = 1 := by
  rw [updateLoops_eq]
  norm_num [exampleBlock]

/-- C10, counterexample: on the concrete block (`maxTimestep = 0`, `h[1][1] = 2`)
`updateUnknowns` does not raise an assertion violation for `dt = 0.000001`,
which differs from `maxTimestep`, when the ghost layers are in sync: it returns
and has changed `h[1][1]`.  Nor does it for `dt = 1` when the ghost layers are
not in sync (it returns at once), or when the build defines `NDEBUG`. -/
theorem updateUnknowns_mismatch_not_raised :
    ((0.000001 : ℚ) ≠ exampleBlock.maxTimestep ∧
      ∃ blk', updateUnknowns false alwaysInSync exampleBlock 0.000001 = Run.returned blk' ∧
        blk'.h 1 1 ≠ exampleBlock.h 1 1) ∧
    ((1 : ℚ) ≠ exampleBlock.maxTimestep ∧
      updateUnknowns false neverInSync exampleBlock 1 = Run.returned exampleBlock) ∧
    (∃ blk', updateUnknowns true alwaysInSync exampleBlock 1 = Run.returned blk' ∧
        blk'.h 1 1 ≠ exampleBlock.h 1 1) := by
  refine ⟨⟨by norm_num [exampleBlock], updateLoops exampleBlock, ?_, ?_⟩,
    ⟨by norm_num [exampleBlock], ?_⟩, ⟨updateLoops exampleBlock, ?_, ?_⟩⟩
  · have h : timestepAssertion exampleBlock 0.000001 = true := by
      norm_num [timestepAssertion, fabs, exampleBlock]
    simp [updateUnknowns, alwaysInSync, h]
  · rw [updateLoops_example_h]
    norm_num [exampleBlock]
  · simp [updateUnknowns, neverInSync]
  · simp [updateUnknowns, alwaysInSync]
  · rw [updateLoops_example_h]
    norm_num [exampleBlock]

/-- C10, amended: for every block state whose ghost layers are in sync, in a build
that does not define `NDEBUG`, and every `dt` for which the asserted condition
`|dt - maxTimestep| < 0.00001` does not hold, `updateUnknowns(dt)` raises an
assertion violation and has modified nothing, `h`, `hu` and `hv` included. -/
theorem updateUnknowns_mismatch_raised [Zero α] [Add α] [Sub α] [Mul α] [Div α] [Neg α]
    [LT α] [DecidableRel (fun a b : α => a < b)] [OfScientific α]
    (allGhostlayersInSync : SWE_DimensionalSplittingChameleon α → Bool)
    (blk : SWE_DimensionalSplittingChameleon α) (dt : α)
    (hsync : allGhostlayersInSync blk = true)
    (hdt : ¬ fabs (dt - blk.maxTimestep) < 0.00001) :
    updateUnknowns false allGhostlayersInSync blk dt = Run.assertionViolation blk ∧
    (updateUnknowns false allGhostlayersInSync blk dt).state.h = blk.h ∧
    (updateUnknowns false allGhostlayersInSync blk dt).state.hu = blk.hu ∧
    (updateUnknowns false allGhostlayersInSync blk dt).state.hv = blk.hv := by
  have hassert : timestepAssertion blk dt = false := by
    unfold timestepAssertion
    exact decide_eq_false hdt
  have hrun : updateUnknowns false allGhostlayersInSync blk dt = Run.assertionViolation blk := by
    simp [updateUnknowns, hsync, hassert]
  rw [hrun]
  exact ⟨rfl, rfl, rfl, rfl⟩

/-- Instance of the amended C10: the concrete block with `dt = 1`. -/
theorem updateUnknowns_mismatch_raised_witness :
    alwaysInSync exampleBlock = true ∧
    ¬ fabs ((1 : ℚ) - exampleBlock.maxTimestep) < 0.00001 ∧
    (updateUnknowns false alwaysInSync exampleBlock 1 = Run.assertionViolation exampleBlock ∧
    (updateUnknowns false alwaysInSync exampleBlock 1).state.h = exampleBlock.h ∧
    (updateUnknowns false alwaysInSync exampleBlock 1).state.hu = exampleBlock.hu ∧
    (updateUnknowns false alwaysInSync exampleBlock 1).state.hv = exampleBlock.hv) :=
  ⟨rfl, by norm_num [fabs, exampleBlock],
    updateUnknowns_mismatch_raised alwaysInSync exampleBlock 1 rfl
      (by norm_num [fabs, exampleBlock])⟩

/-- The loops that set the intermediary states change only `hStar` and `huStar`. -/
theorem intermediateStates_preserves [Add α] [Sub α] [Mul α] [Div α] {β : Type}
    (f : SWE_DimensionalSplittingChameleon α → β)
    (hf : ∀ x y b, f (intermediateCell x y b) = f b)
    (blk : SWE_DimensionalSplittingChameleon α) :
    f (intermediateStates blk) = f blk := by
  unfold intermediateStates
  exact forLoop_preserves f _
    (fun x b => forLoop_preserves f _ (fun y b' => hf x y b') 0 (blk.ny + 2) b)
    1 (blk.nx + 1) blk

/-- The kernel in a debug build, by the value of its assertion. -/
theorem computeNumericalFluxesVerticalKernel_debug [Zero α] [Add α] [Sub α] [Mul α] [Div α]
    [LT α] [DecidableRel (fun a b : α => a < b)] [OfScientific α]
    (solver : Solver α) (blk : SWE_DimensionalSplittingChameleon α) (maxTimestep : α) :
    computeNumericalFluxesVerticalKernel false solver blk maxTimestep =
      if decide (maxTimestep < 0.7 * (blk.dy
          / maxVerticalWaveSpeed solver (setMaxTimestep blk maxTimestep))) = true
      then Run.returned (ySweep solver (intermediateStates (setMaxTimestep blk maxTimestep))).1
      else Run.assertionViolation
        (ySweep solver (intermediateStates (setMaxTimestep blk maxTimestep))).1 := by
  have hmt : (ySweep solver
      (intermediateStates (setMaxTimestep blk maxTimestep))).1.maxTimestep = maxTimestep := by
    rw [ySweep_preserves (fun b => b.maxTimestep) solver (fun _ _ _ => rfl),
      intermediateStates_preserves (fun b => b.maxTimestep) (fun _ _ _ => rfl)]
    rfl
  have hdy : (ySweep solver
      (intermediateStates (setMaxTimestep blk maxTimestep))).1.dy = blk.dy := by
    rw [ySweep_preserves (fun b => b.dy) solver (fun _ _ _ => rfl),
      intermediateStates_preserves (fun b => b.dy) (fun _ _ _ => rfl)]
    rfl
  unfold computeNumericalFluxesVerticalKernel cflAssertionVertical maxVerticalWaveSpeed
  simp only [hmt, hdy]
  by_cases hc : maxTimestep < 0.7 * (blk.dy
      / (ySweep solver (intermediateStates (setMaxTimestep blk maxTimestep))).2)
  · simp [hc]
  · simp [hc]

/-- The y-sweep of the concrete block reduces the wave speed to 1, whatever the
timestep stored in the block. -/
theorem maxVerticalWaveSpeed_example (t : ℚ) :
    maxVerticalWaveSpeed exampleSolver (setMaxTimestep exampleBlock t) = 1 := by
  simp [maxVerticalWaveSpeed, ySweep, forLoop, verticalEdge, exampleSolver, exampleBlock,
    setMaxTimestep, intermediateStates, List.range', List.foldl]

/-- C11, counterexample: on the concrete block (`dy = 1`, vertical wave speed 1) the
kernel, in a debug build, returns for `maxTimestep = 0.6`, although
`0.6 ≥ 0.5 * dy / maxVerticalWaveSpeed`; and the member function
`computeNumericalFluxesVertical`, whose assertion is commented out, runs its
loops to the end for `maxTimestep = 1 ≥ 0.5 * dy / maxVerticalWaveSpeed`. -/
theorem computeNumericalFluxesVertical_cfl_half_not_asserted :
    (0.5 * exampleBlock.dy
        / maxVerticalWaveSpeed exampleSolver (setMaxTimestep exampleBlock 0.6) ≤ 0.6 ∧
      ∃ b, computeNumericalFluxesVerticalKernel false exampleSolver exampleBlock 0.6
        = Run.returned b) ∧
    (alwaysInSync (setMaxTimestep exampleBlock 1) = true ∧
      0.5 * (setMaxTimestep exampleBlock 1).dy
        / maxVerticalWaveSpeed exampleSolver (setMaxTimestep exampleBlock 1)
        ≤ (setMaxTimestep exampleBlock 1).maxTimestep ∧
      (computeNumericalFluxesVertical alwaysInSync exampleSolver
        (setMaxTimestep exampleBlock 1)).hStar 1 1 = 2) := by
  refine ⟨⟨?_, ?_⟩, rfl, ?_, ?_⟩
  · rw [maxVerticalWaveSpeed_example]; norm_num [exampleBlock]
  · refine ⟨(ySweep exampleSolver (intermediateStates (setMaxTimestep exampleBlock 0.6))).1, ?_⟩
    rw [computeNumericalFluxesVerticalKernel_debug, maxVerticalWaveSpeed_example, if_pos]
    norm_num [exampleBlock]
  · rw [maxVerticalWaveSpeed_example]; norm_num [exampleBlock, setMaxTimestep]
  · have hrun : computeNumericalFluxesVertical alwaysInSync exampleSolver
        (setMaxTimestep exampleBlock 1)
        = (ySweep exampleSolver (intermediateStates (setMaxTimestep exampleBlock 1))).1 := by
      simp [computeNumericalFluxesVertical, alwaysInSync]
    rw [hrun, ySweep_preserves (fun b => b.hStar) exampleSolver (fun _ _ _ => rfl),
      intermediateStates_eq]
    norm_num [exampleBlock, setMaxTimestep]

/-- C11, amended: in a debug build `computeNumericalFluxesVerticalKernel` fails with
an assertion violation when, after the vertical flux evaluation,
`maxTimestep < 0.7 * (dy / maxVerticalWaveSpeed)` does not hold, and it returns
when it holds; the coefficient is 0.7, not 0.5. -/
theorem computeNumericalFluxesVerticalKernel_cfl [Zero α] [Add α] [Sub α] [Mul α] [Div α]
    [LT α] [DecidableRel (fun a b : α => a < b)] [OfScientific α]
    (solver : Solver α) (blk : SWE_DimensionalSplittingChameleon α) (maxTimestep : α) :
    (¬ maxTimestep < 0.7 * (blk.dy
          / maxVerticalWaveSpeed solver (setMaxTimestep blk maxTimestep)) →
      ∃ b, computeNumericalFluxesVerticalKernel false solver blk maxTimestep
        = Run.assertionViolation b) ∧
    (maxTimestep < 0.7 * (blk.dy
          / maxVerticalWaveSpeed solver (setMaxTimestep blk maxTimestep)) →
      ∃ b, computeNumericalFluxesVerticalKernel false solver blk maxTimestep
        = Run.returned b) := by
  constructor
  · intro h
    refine ⟨(ySweep solver (intermediateStates (setMaxTimestep blk maxTimestep))).1, ?_⟩
    rw [computeNumericalFluxesVerticalKernel_debug, if_neg]
    simpa using h
  · intro h
    refine ⟨(ySweep solver (intermediateStates (setMaxTimestep blk maxTimestep))).1, ?_⟩
    rw [computeNumericalFluxesVerticalKernel_debug, if_pos]
    simpa using h

/-- C12: for every block state in which `allGhostlayersInSync()` is false, each of
`computeNumericalFluxesHorizontal`, `computeNumericalFluxesVertical` and
`updateUnknowns(dt)`, for any `dt` and in any build, returns the block exactly
as it was (so `h`, `hu`, `hv`, `b`, `hStar`, `huStar`, the eight net-update
arrays and `maxTimestep` are unchanged), and `updateUnknowns` raises no
assertion. -/
theorem not_in_sync_unchanged [Zero α] [Add α] [Sub α] [Mul α] [Div α] [Neg α] [LT α]
    [DecidableRel (fun a b : α => a < b)] [OfScientific α]
    (allGhostlayersInSync : SWE_DimensionalSplittingChameleon α → Bool)
    (getRoundTimestep : SWE_DimensionalSplittingChameleon α → α → α)
    (solver : Solver α) (blk : SWE_DimensionalSplittingChameleon α)
    (hsync : allGhostlayersInSync blk = false) :
    computeNumericalFluxesHorizontal allGhostlayersInSync getRoundTimestep solver blk = blk ∧
    computeNumericalFluxesVertical allGhostlayersInSync solver blk = blk ∧
    ∀ (NDEBUG : Bool) (dt : α),
      updateUnknowns NDEBUG allGhostlayersInSync blk dt = Run.returned blk := by
  refine ⟨?_, ?_, ?_⟩
  · simp [computeNumericalFluxesHorizontal, hsync]
  · simp [computeNumericalFluxesVertical, hsync]
  · intro NDEBUG dt
    simp [updateUnknowns, hsync]

/-- Instance of C12: the concrete block with ghost layers out of sync. -/
theorem not_in_sync_unchanged_witness :
    neverInSync exampleBlock = false ∧
    (computeNumericalFluxesHorizontal neverInSync halfTimestep exampleSolver exampleBlock
      = exampleBlock ∧
    computeNumericalFluxesVertical neverInSync exampleSolver exampleBlock = exampleBlock ∧
    ∀ (NDEBUG : Bool) (dt : ℚ),
      updateUnknowns NDEBUG neverInSync exampleBlock dt = Run.returned exampleBlock) :=
  ⟨rfl, not_in_sync_unchanged neverInSync halfTimestep exampleSolver exampleBlock rfl⟩

/-! ### The in-process ghost exchange -/

/-- A loop over a range of indices, when the state after visiting a set `D` of
indices has the closed form `S D`. -/
theorem forLoop1_closed {σ : Type} (S : Finset Nat → σ) (cell : Nat → σ → σ)
    (hcell : ∀ D i, i ∉ D → cell i (S D) = S (insert i D))
    (lo hi : Nat) (hle : lo ≤ hi) :
    forLoop lo hi cell (S ∅) = S (Finset.Ico lo hi) := by
  have h0 : S ∅ = S (Finset.Ico lo lo) := by simp
  rw [h0]
  apply forLoop_closed (fun i => S (Finset.Ico lo i)) cell lo hi hle
  intro i hi1 _
  show cell i (S (Finset.Ico lo i)) = S (Finset.Ico lo (i + 1))
  rw [hcell _ i (by simp)]
  congr 1
  ext a
  simp only [Finset.mem_insert, Finset.mem_Ico]
  omega

/-- Closed form of a copy loop of a left or right edge. -/
theorem receiveColumn_loop_eq (xGhost xSource : Nat)
    (nb blk : SWE_DimensionalSplittingChameleon α) (lo hi : Nat) (hle : lo ≤ hi) :
    forLoop lo hi (receiveColumnCell xGhost xSource nb) blk =
      { blk with
        bufferH := fun a c =>
          if a = xGhost ∧ c ∈ Finset.Ico lo hi then nb.h xSource c else blk.bufferH a c
        bufferHu := fun a c =>
          if a = xGhost ∧ c ∈ Finset.Ico lo hi then nb.hu xSource c else blk.bufferHu a c
        bufferHv := fun a c =>
          if a = xGhost ∧ c ∈ Finset.Ico lo hi then nb.hv xSource c else blk.bufferHv a c } := by
  have key := forLoop1_closed
    (fun D : Finset Nat =>
      ({ blk with
        bufferH := fun a c =>
          if a = xGhost ∧ c ∈ D then nb.h xSource c else blk.bufferH a c
        bufferHu := fun a c =>
          if a = xGhost ∧ c ∈ D then nb.hu xSource c else blk.bufferHu a c
        bufferHv := fun a c =>
          if a = xGhost ∧ c ∈ D then nb.hv xSource c else blk.bufferHv a c } :
        SWE_DimensionalSplittingChameleon α))
    (receiveColumnCell xGhost xSource nb) ?_ lo hi hle
  · simpa using key
  · intro D i _
    simp only [receiveColumnCell]
    congr 1 <;>
    · funext a c
      by_cases hc : a = xGhost ∧ c = i
      · obtain ⟨rfl, rfl⟩ := hc
        simp [Float2D.set_apply]
      · have hne : ¬ (a = xGhost ∧ c = i) := hc
        by_cases ha : a = xGhost
        · have hci : c ≠ i := fun h => hc ⟨ha, h⟩
          simp [Float2D.set_apply, ha, hci]
        · simp [Float2D.set_apply, ha]

/-- Closed form of a copy loop of a top or bottom edge. -/
theorem receiveRow_loop_eq (yGhost ySource : Nat)
    (nb blk : SWE_DimensionalSplittingChameleon α) (lo hi : Nat) (hle : lo ≤ hi) :
    forLoop lo hi (receiveRowCell yGhost ySource nb) blk =
      { blk with
        bufferH := fun a c =>
          if c = yGhost ∧ a ∈ Finset.Ico lo hi then nb.h a ySource else blk.bufferH a c
        bufferHu := fun a c =>
          if c = yGhost ∧ a ∈ Finset.Ico lo hi then nb.hu a ySource else blk.bufferHu a c
        bufferHv := fun a c =>
          if c = yGhost ∧ a ∈ Finset.Ico lo hi then nb.hv a ySource else blk.bufferHv a c } := by
  have key := forLoop1_closed
    (fun D : Finset Nat =>
      ({ blk with
        bufferH := fun a c =>
          if c = yGhost ∧ a ∈ D then nb.h a ySource else blk.bufferH a c
        bufferHu := fun a c =>
          if c = yGhost ∧ a ∈ D then nb.hu a ySource else blk.bufferHu a c
        bufferHv := fun a c =>
          if c = yGhost ∧ a ∈ D then nb.hv a ySource else blk.bufferHv a c } :
        SWE_DimensionalSplittingChameleon α))
    (receiveRowCell yGhost ySource nb) ?_ lo hi hle
  · simpa using key
  · intro D i _
    simp only [receiveRowCell]
    congr 1 <;>
    · funext a c
      by_cases hc : a = i ∧ c = yGhost
      · obtain ⟨rfl, rfl⟩ := hc
        simp [Float2D.set_apply]
      · by_cases hcy : c = yGhost
        · have hai : a ≠ i := fun h => hc ⟨h, hcy⟩
          simp [Float2D.set_apply, hcy, hai]
        · simp [Float2D.set_apply, hcy]

/-- Closed form of the `BND_RIGHT` block. -/
theorem receiveRight_eq (isReceivable : BoundaryEdge → Bool)
    (right blk : SWE_DimensionalSplittingChameleon α) :
    receiveRight isReceivable right blk =
      { blk with
        borderTimestep := fun e =>
          if receivesLocally isReceivable blk .BND_RIGHT = true ∧ e = .BND_RIGHT
          then right.totalLocalTimestep else blk.borderTimestep e
        bufferH := fun a c =>
          if receivesLocally isReceivable blk .BND_RIGHT = true
            ∧ a = blk.nx + 1 ∧ c ∈ Finset.Ico 1 (blk.ny + 1)
          then right.h 1 c else blk.bufferH a c
        bufferHu := fun a c =>
          if receivesLocally isReceivable blk .BND_RIGHT = true
            ∧ a = blk.nx + 1 ∧ c ∈ Finset.Ico 1 (blk.ny + 1)
          then right.hu 1 c else blk.bufferHu a c
        bufferHv := fun a c =>
          if receivesLocally isReceivable blk .BND_RIGHT = true
            ∧ a = blk.nx + 1 ∧ c ∈ Finset.Ico 1 (blk.ny + 1)
          then right.hv 1 c else blk.bufferHv a c } := by
  unfold receiveRight
  by_cases hact : receivesLocally isReceivable blk .BND_RIGHT = true
  · rw [if_pos hact, receiveColumn_loop_eq _ _ _ _ 1 _ (by omega)]
    simp [hact, setBorderTimestep]
  · rw [if_neg hact]
    simp [hact]

/-- Closed form of the `BND_LEFT` block. -/
theorem receiveLeft_eq (isReceivable : BoundaryEdge → Bool)
    (left blk : SWE_DimensionalSplittingChameleon α) :
    receiveLeft isReceivable left blk =
      { blk with
        borderTimestep := fun e =>
          if receivesLocally isReceivable blk .BND_LEFT = true ∧ e = .BND_LEFT
          then left.totalLocalTimestep else blk.borderTimestep e
        bufferH := fun a c =>
          if receivesLocally isReceivable blk .BND_LEFT = true
            ∧ a = 0 ∧ c ∈ Finset.Ico 1 (blk.ny + 1)
          then left.h blk.nx c else blk.bufferH a c
        bufferHu := fun a c =>
          if receivesLocally isReceivable blk .BND_LEFT = true
            ∧ a = 0 ∧ c ∈ Finset.Ico 1 (blk.ny + 1)
          then left.hu blk.nx c else blk.bufferHu a c
        bufferHv := fun a c =>
          if receivesLocally isReceivable blk .BND_LEFT = true
            ∧ a = 0 ∧ c ∈ Finset.Ico 1 (blk.ny + 1)
          then left.hv blk.nx c else blk.bufferHv a c } := by
  unfold receiveLeft
  by_cases hact : receivesLocally isReceivable blk .BND_LEFT = true
  · rw [if_pos hact, receiveColumn_loop_eq _ _ _ _ 1 _ (by omega)]
    simp [hact, setBorderTimestep]
  · rw [if_neg hact]
    simp [hact]

/-- Closed form of the `BND_TOP` block. -/
theorem receiveTop_eq (isReceivable : BoundaryEdge → Bool)
    (top blk : SWE_DimensionalSplittingChameleon α) :
    receiveTop isReceivable top blk =
      { blk with
        borderTimestep := fun e =>
          if receivesLocally isReceivable blk .BND_TOP = true ∧ e = .BND_TOP
          then top.totalLocalTimestep else blk.borderTimestep e
        bufferH := fun a c =>
          if receivesLocally isReceivable blk .BND_TOP = true
            ∧ c = blk.ny + 1 ∧ a ∈ Finset.Ico 1 (blk.nx + 1)
          then top.h a 1 else blk.bufferH a c
        bufferHu := fun a c =>
          if receivesLocally isReceivable blk .BND_TOP = true
            ∧ c = blk.ny + 1 ∧ a ∈ Finset.Ico 1 (blk.nx + 1)
          then top.hu a 1 else blk.bufferHu a c
        bufferHv := fun a c =>
          if receivesLocally isReceivable blk .BND_TOP = true
            ∧ c = blk.ny + 1 ∧ a ∈ Finset.Ico 1 (blk.nx + 1)
          then top.hv a 1 else blk.bufferHv a c } := by
  unfold receiveTop
  by_cases hact : receivesLocally isReceivable blk .BND_TOP = true
  · rw [if_pos hact, receiveRow_loop_eq _ _ _ _ 1 _ (by omega)]
    simp [hact, setBorderTimestep]
  · rw [if_neg hact]
    simp [hact]

/-- Closed form of the `BND_BOTTOM` block. -/
theorem receiveBottom_eq (isReceivable : BoundaryEdge → Bool)
    (bottom blk : SWE_DimensionalSplittingChameleon α) :
    receiveBottom isReceivable bottom blk =
      { blk with
        borderTimestep := fun e =>
          if receivesLocally isReceivable blk .BND_BOTTOM = true ∧ e = .BND_BOTTOM
          then bottom.totalLocalTimestep else blk.borderTimestep e
        bufferH := fun a c =>
          if receivesLocally isReceivable blk .BND_BOTTOM = true
            ∧ c = 0 ∧ a ∈ Finset.Ico 1 (blk.nx + 1)
          then bottom.h a blk.ny else blk.bufferH a c
        bufferHu := fun a c =>
          if receivesLocally isReceivable blk .BND_BOTTOM = true
            ∧ c = 0 ∧ a ∈ Finset.Ico 1 (blk.nx + 1)
          then bottom.hu a blk.ny else blk.bufferHu a c
        bufferHv := fun a c =>
          if receivesLocally isReceivable blk .BND_BOTTOM = true
            ∧ c = 0 ∧ a ∈ Finset.Ico 1 (blk.nx + 1)
          then bottom.hv a blk.ny else blk.bufferHv a c } := by
  unfold receiveBottom
  by_cases hact : receivesLocally isReceivable blk .BND_BOTTOM = true
  · rw [if_pos hact, receiveRow_loop_eq _ _ _ _ 1 _ (by omega)]
    simp [hact, setBorderTimestep]
  · rw [if_neg hact]
    simp [hact]

/-- Closed form of the in-process part of `receiveGhostLayer`. -/
theorem receiveGhostLayerLocal_eq (isReceivable : BoundaryEdge → Bool)
    (right left top bottom blk : SWE_DimensionalSplittingChameleon α) :
    receiveGhostLayerLocal isReceivable right left top bottom blk =
      { blk with
        borderTimestep := fun e =>
          if receivesLocally isReceivable blk .BND_BOTTOM = true ∧ e = .BND_BOTTOM
          then bottom.totalLocalTimestep
          else if receivesLocally isReceivable blk .BND_TOP = true ∧ e = .BND_TOP
          then top.totalLocalTimestep
          else if receivesLocally isReceivable blk .BND_LEFT = true ∧ e = .BND_LEFT
          then left.totalLocalTimestep
          else if receivesLocally isReceivable blk .BND_RIGHT = true ∧ e = .BND_RIGHT
          then right.totalLocalTimestep
          else blk.borderTimestep e
        bufferH := fun a c =>
          if receivesLocally isReceivable blk .BND_BOTTOM = true
            ∧ c = 0 ∧ a ∈ Finset.Ico 1 (blk.nx + 1)
          then bottom.h a blk.ny
          else if receivesLocally isReceivable blk .BND_TOP = true
            ∧ c = blk.ny + 1 ∧ a ∈ Finset.Ico 1 (blk.nx + 1)
          then top.h a 1
          else if receivesLocally isReceivable blk .BND_LEFT = true
            ∧ a = 0 ∧ c ∈ Finset.Ico 1 (blk.ny + 1)
          then left.h blk.nx c
          else if receivesLocally isReceivable blk .BND_RIGHT = true
            ∧ a = blk.nx + 1 ∧ c ∈ Finset.Ico 1 (blk.ny + 1)
          then right.h 1 c
          else blk.bufferH a c
        bufferHu := fun a c =>
          if receivesLocally isReceivable blk .BND_BOTTOM = true
            ∧ c = 0 ∧ a ∈ Finset.Ico 1 (blk.nx + 1)
          then bottom.hu a blk.ny
          else if receivesLocally isReceivable blk .BND_TOP = true
            ∧ c = blk.ny + 1 ∧ a ∈ Finset.Ico 1 (blk.nx + 1)
          then top.hu a 1
          else if receivesLocally isReceivable blk .BND_LEFT = true
            ∧ a = 0 ∧ c ∈ Finset.Ico 1 (blk.ny + 1)
          then left.hu blk.nx c
          else if receivesLocally isReceivable blk .BND_RIGHT = true
            ∧ a = blk.nx + 1 ∧ c ∈ Finset.Ico 1 (blk.ny + 1)
          then right.hu 1 c
          else blk.bufferHu a c
        bufferHv := fun a c =>
          if receivesLocally isReceivable blk .BND_BOTTOM = true
            ∧ c = 0 ∧ a ∈ Finset.Ico 1 (blk.nx + 1)
          then bottom.hv a blk.ny
          else if receivesLocally isReceivable blk .BND_TOP = true
            ∧ c = blk.ny + 1 ∧ a ∈ Finset.Ico 1 (blk.nx + 1)
          then top.hv a 1
          else if receivesLocally isReceivable blk .BND_LEFT = true
            ∧ a = 0 ∧ c ∈ Finset.Ico 1 (blk.ny + 1)
          then left.hv blk.nx c
          else if receivesLocally isReceivable blk .BND_RIGHT = true
            ∧ a = blk.nx + 1 ∧ c ∈ Finset.Ico 1 (blk.ny + 1)
          then right.hv 1 c
          else blk.bufferHv a c } := by
  unfold receiveGhostLayerLocal
  rw [receiveRight_eq, receiveLeft_eq, receiveTop_eq, receiveBottom_eq]
  rfl

/-- The condition of an in-process block of `receiveGhostLayer`, spelled out. -/
theorem receivesLocally_eq_true (isReceivable : BoundaryEdge → Bool)
    (blk : SWE_DimensionalSplittingChameleon α) (e : BoundaryEdge) :
    receivesLocally isReceivable blk e = true ↔
      (blk.boundaryType e = BoundaryType.CONNECT_WITHIN_RANK ∧ isReceivable e = true) := by
  simp [receivesLocally]

/-- C13: for a receivable `CONNECT_WITHIN_RANK` edge on the RIGHT side, whose
neighbour has the same `ny`, the in-process part of `receiveGhostLayer` leaves
`bufferH[nx+1][i] = right.h[1][i]`, `bufferHu[nx+1][i] = right.hu[1][i]` and
`bufferHv[nx+1][i] = right.hv[1][i]` for every `1 ≤ i ≤ ny`; for such an edge on
the TOP side, whose neighbour has the same `nx`, it leaves
`bufferH[i][ny+1] = top.h[i][1]`, and likewise `hu` and `hv`, for every
`1 ≤ i ≤ nx`. -/
theorem receiveGhostLayer_right_top (isReceivable : BoundaryEdge → Bool)
    (right left top bottom blk : SWE_DimensionalSplittingChameleon α) :
    (blk.boundaryType .BND_RIGHT = BoundaryType.CONNECT_WITHIN_RANK →
      isReceivable .BND_RIGHT = true → right.ny = blk.ny →
      ∀ i, 1 ≤ i → i ≤ blk.ny →
        (receiveGhostLayerLocal isReceivable right left top bottom blk).bufferH (blk.nx + 1) i
          = right.h 1 i ∧
        (receiveGhostLayerLocal isReceivable right left top bottom blk).bufferHu (blk.nx + 1) i
          = right.hu 1 i ∧
        (receiveGhostLayerLocal isReceivable right left top bottom blk).bufferHv (blk.nx + 1) i
          = right.hv 1 i) ∧
    (blk.boundaryType .BND_TOP = BoundaryType.CONNECT_WITHIN_RANK →
      isReceivable .BND_TOP = true → top.nx = blk.nx →
      ∀ i, 1 ≤ i → i ≤ blk.nx →
        (receiveGhostLayerLocal isReceivable right left top bottom blk).bufferH i (blk.ny + 1)
          = top.h i 1 ∧
        (receiveGhostLayerLocal isReceivable right left top bottom blk).bufferHu i (blk.ny + 1)
          = top.hu i 1 ∧
        (receiveGhostLayerLocal isReceivable right left top bottom blk).bufferHv i (blk.ny + 1)
          = top.hv i 1) := by
  rw [receiveGhostLayerLocal_eq]
  constructor
  · intro hbt hrec _ i hi1 hi2
    have hact : receivesLocally isReceivable blk .BND_RIGHT = true :=
      (receivesLocally_eq_true _ _ _).2 ⟨hbt, hrec⟩
    have hmem : i ∈ Finset.Ico 1 (blk.ny + 1) := by
      simp only [Finset.mem_Ico]; omega
    have hx : blk.nx + 1 ∉ Finset.Ico 1 (blk.nx + 1) := by
      simp only [Finset.mem_Ico]; omega
    have hi0 : ¬ i = 0 := by omega
    have hiny : ¬ i = blk.ny + 1 := by omega
    simp [hact, hmem, hx, hi0, hiny]
  · intro hbt hrec _ i hi1 hi2
    have hact : receivesLocally isReceivable blk .BND_TOP = true :=
      (receivesLocally_eq_true _ _ _).2 ⟨hbt, hrec⟩
    have hmem : i ∈ Finset.Ico 1 (blk.nx + 1) := by
      simp only [Finset.mem_Ico]; omega
    simp [hact, hmem]

/-- Instance of C13: the concrete block connected within the rank on all sides,
with itself as right and top neighbour. -/
theorem receiveGhostLayer_right_top_witness :
    (connectedBlock.boundaryType .BND_RIGHT = BoundaryType.CONNECT_WITHIN_RANK ∧
      allReceivable .BND_RIGHT = true ∧ exampleBlock.ny = connectedBlock.ny ∧
      1 ≤ 1 ∧ 1 ≤ connectedBlock.ny ∧
      (receiveGhostLayerLocal allReceivable exampleBlock exampleBlock exampleBlock
          exampleBlock connectedBlock).bufferH (connectedBlock.nx + 1) 1
        = exampleBlock.h 1 1) ∧
    (connectedBlock.boundaryType .BND_TOP = BoundaryType.CONNECT_WITHIN_RANK ∧
      allReceivable .BND_TOP = true ∧ exampleBlock.nx = connectedBlock.nx ∧
      1 ≤ 1 ∧ 1 ≤ connectedBlock.nx ∧
      (receiveGhostLayerLocal allReceivable exampleBlock exampleBlock exampleBlock
          exampleBlock connectedBlock).bufferH 1 (connectedBlock.ny + 1)
        = exampleBlock.h 1 1) :=
  ⟨⟨rfl, rfl, rfl, by decide, by decide,
      ((receiveGhostLayer_right_top allReceivable exampleBlock exampleBlock exampleBlock
        exampleBlock connectedBlock).1 rfl rfl rfl 1 (by decide) (by decide)).1⟩,
    ⟨rfl, rfl, rfl, by decide, by decide,
      ((receiveGhostLayer_right_top allReceivable exampleBlock exampleBlock exampleBlock
        exampleBlock connectedBlock).2 rfl rfl rfl 1 (by decide) (by decide)).1⟩⟩

/-- C14, the code at a failing input: for a remainder block with `nx = 3` whose left
neighbour has `nx = 2`, the in-process part of `receiveGhostLayer` copies
`left.h[3][1]`, the neighbour's right ghost column (this block's `nx` is used
as the column index), not the neighbour's outermost interior column
`left.h[left.nx][1] = left.h[2][1]`. -/
theorem receiveGhostLayer_left_reads_own_nx :
    remainderBlock.boundaryType .BND_LEFT = BoundaryType.CONNECT_WITHIN_RANK ∧
    allReceivable .BND_LEFT = true ∧
    (receiveGhostLayerLocal allReceivable exampleBlock leftNeighbour exampleBlock
        exampleBlock remainderBlock).bufferH 0 1 = leftNeighbour.h 3 1 ∧
    leftNeighbour.h 3 1 = 3 ∧
    leftNeighbour.h leftNeighbour.nx 1 = 2 ∧
    (receiveGhostLayerLocal allReceivable exampleBlock leftNeighbour exampleBlock
        exampleBlock remainderBlock).bufferH 0 1 ≠ leftNeighbour.h leftNeighbour.nx 1 := by
  have hact : ∀ e, receivesLocally allReceivable remainderBlock e = true := by
    intro e; rfl
  have hval : (receiveGhostLayerLocal allReceivable exampleBlock leftNeighbour exampleBlock
      exampleBlock remainderBlock).bufferH 0 1 = leftNeighbour.h 3 1 := by
    have hnx : remainderBlock.nx = 3 := rfl
    have hny : remainderBlock.ny = 1 := rfl
    rw [receiveGhostLayerLocal_eq]
    simp [hact, hnx, hny]
  refine ⟨rfl, rfl, hval, ?_, ?_, ?_⟩
  · norm_num [leftNeighbour]
  · norm_num [leftNeighbour]
  · rw [hval]
    norm_num [leftNeighbour]

/-- C15: after the in-process ghost exchange of `receiveGhostLayer`, for every side
whose boundary type is `CONNECT_WITHIN_RANK` and that is receivable,
`borderTimestep[side]` is that neighbour block's `totalLocalTimestep`; for
every other side the exchange leaves `borderTimestep[side]` and that side's
ghost entries of `bufferH`, `bufferHu`, `bufferHv` (column `nx+1` or `0`, rows
`1..ny`; row `ny+1` or `0`, columns `1..nx`) unchanged. -/
theorem receiveGhostLayer_borderTimestep (isReceivable : BoundaryEdge → Bool)
    (right left top bottom blk : SWE_DimensionalSplittingChameleon α) :
    (∀ e, blk.boundaryType e = BoundaryType.CONNECT_WITHIN_RANK → isReceivable e = true →
      (receiveGhostLayerLocal isReceivable right left top bottom blk).borderTimestep e
        = (match e with
            | .BND_LEFT => left
            | .BND_RIGHT => right
            | .BND_BOTTOM => bottom
            | .BND_TOP => top).totalLocalTimestep) ∧
    (∀ e, ¬ (blk.boundaryType e = BoundaryType.CONNECT_WITHIN_RANK ∧ isReceivable e = true) →
      (receiveGhostLayerLocal isReceivable right left top bottom blk).borderTimestep e
        = blk.borderTimestep e) ∧
    (¬ (blk.boundaryType .BND_RIGHT = BoundaryType.CONNECT_WITHIN_RANK
          ∧ isReceivable .BND_RIGHT = true) →
      ∀ i, 1 ≤ i → i ≤ blk.ny →
        (receiveGhostLayerLocal isReceivable right left top bottom blk).bufferH (blk.nx + 1) i
          = blk.bufferH (blk.nx + 1) i ∧
        (receiveGhostLayerLocal isReceivable right left top bottom blk).bufferHu (blk.nx + 1) i
          = blk.bufferHu (blk.nx + 1) i ∧
        (receiveGhostLayerLocal isReceivable right left top bottom blk).bufferHv (blk.nx + 1) i
          = blk.bufferHv (blk.nx + 1) i) ∧
    (¬ (blk.boundaryType .BND_LEFT = BoundaryType.CONNECT_WITHIN_RANK
          ∧ isReceivable .BND_LEFT = true) →
      ∀ i, 1 ≤ i → i ≤ blk.ny →
        (receiveGhostLayerLocal isReceivable right left top bottom blk).bufferH 0 i
          = blk.bufferH 0 i ∧
        (receiveGhostLayerLocal isReceivable right left top bottom blk).bufferHu 0 i
          = blk.bufferHu 0 i ∧
        (receiveGhostLayerLocal isReceivable right left top bottom blk).bufferHv 0 i
          = blk.bufferHv 0 i) ∧
    (¬ (blk.boundaryType .BND_TOP = BoundaryType.CONNECT_WITHIN_RANK
          ∧ isReceivable .BND_TOP = true) →
      ∀ i, 1 ≤ i → i ≤ blk.nx →
        (receiveGhostLayerLocal isReceivable right left top bottom blk).bufferH i (blk.ny + 1)
          = blk.bufferH i (blk.ny + 1) ∧
        (receiveGhostLayerLocal isReceivable right left top bottom blk).bufferHu i (blk.ny + 1)
          = blk.bufferHu i (blk.ny + 1) ∧
        (receiveGhostLayerLocal isReceivable right left top bottom blk).bufferHv i (blk.ny + 1)
          = blk.bufferHv i (blk.ny + 1)) ∧
    (¬ (blk.boundaryType .BND_BOTTOM = BoundaryType.CONNECT_WITHIN_RANK
          ∧ isReceivable .BND_BOTTOM = true) →
      ∀ i, 1 ≤ i → i ≤ blk.nx →
        (receiveGhostLayerLocal isReceivable right left top bottom blk).bufferH i 0
          = blk.bufferH i 0 ∧
        (receiveGhostLayerLocal isReceivable right left top bottom blk).bufferHu i 0
          = blk.bufferHu i 0 ∧
        (receiveGhostLayerLocal isReceivable right left top bottom blk).bufferHv i 0
          = blk.bufferHv i 0) := by
  rw [receiveGhostLayerLocal_eq]
  refine ⟨?_, ?_, ?_, ?_, ?_, ?_⟩
  · intro e hbt hrec
    have hact : receivesLocally isReceivable blk e = true :=
      (receivesLocally_eq_true _ _ _).2 ⟨hbt, hrec⟩
    cases e <;> simp [hact]
  · intro e hno
    have hact : ¬ receivesLocally isReceivable blk e = true :=
      fun h => hno ((receivesLocally_eq_true _ _ _).1 h)
    cases e <;> simp [hact]
  · intro hno i hi1 hi2
    have hact : ¬ receivesLocally isReceivable blk .BND_RIGHT = true :=
      fun h => hno ((receivesLocally_eq_true _ _ _).1 h)
    have hx : blk.nx + 1 ∉ Finset.Ico 1 (blk.nx + 1) := by
      simp only [Finset.mem_Ico]; omega
    have hi0 : ¬ i = 0 := by omega
    have hiny : ¬ i = blk.ny + 1 := by omega
    simp [hact, hx, hi0, hiny]
  · intro hno i hi1 hi2
    have hact : ¬ receivesLocally isReceivable blk .BND_LEFT = true :=
      fun h => hno ((receivesLocally_eq_true _ _ _).1 h)
    have hx : 0 ∉ Finset.Ico 1 (blk.nx + 1) := by
      simp only [Finset.mem_Ico]; omega
    have hi0 : ¬ i = 0 := by omega
    have hiny : ¬ i = blk.ny + 1 := by omega
    simp [hact, hx, hi0, hiny]
  · intro hno i hi1 hi2
    have hact : ¬ receivesLocally isReceivable blk .BND_TOP = true :=
      fun h => hno ((receivesLocally_eq_true _ _ _).1 h)
    have hy : blk.ny + 1 ∉ Finset.Ico 1 (blk.ny + 1) := by
      simp only [Finset.mem_Ico]; omega
    have hi0 : ¬ i = 0 := by omega
    have hinx : ¬ i = blk.nx + 1 := by omega
    simp [hact, hy, hi0, hinx]
  · intro hno i hi1 hi2
    have hact : ¬ receivesLocally isReceivable blk .BND_BOTTOM = true :=
      fun h => hno ((receivesLocally_eq_true _ _ _).1 h)
    have hy : 0 ∉ Finset.Ico 1 (blk.ny + 1) := by
      simp only [Finset.mem_Ico]; omega
    have hi0 : ¬ i = 0 := by omega
    have hinx : ¬ i = blk.nx + 1 := by omega
    simp [hact, hy, hi0, hinx]

/-- C17, counterexample: with a transport whose wait returns the code 1, not
`MPI_SUCCESS = 0`, `receiveGhostLayer` prints the rank and the code and then
goes on to `checkAllGhostlayers` (whose trace, `maxTimestep = 7`, is in the
block it returns): it does not abort. -/
theorem receiveGhostLayer_error_not_fatal :
    (failedTransport
      (receiveGhostLayerLocal allReceivable exampleBlock exampleBlock exampleBlock
        exampleBlock exampleBlock)).2 ≠ 0 ∧
    (receiveGhostLayer allReceivable exampleBlock exampleBlock exampleBlock exampleBlock
      failedTransport 0 markChecked exampleBlock).1 = [(0, 1)] ∧
    (receiveGhostLayer allReceivable exampleBlock exampleBlock exampleBlock exampleBlock
      failedTransport 0 markChecked exampleBlock).2
      = markChecked (receiveGhostLayerLocal allReceivable exampleBlock exampleBlock
          exampleBlock exampleBlock exampleBlock) ∧
    (receiveGhostLayer allReceivable exampleBlock exampleBlock exampleBlock exampleBlock
      failedTransport 0 markChecked exampleBlock).2.maxTimestep = 7 := by
  refine ⟨by decide, ?_, rfl, rfl⟩
  have hrank : (receiveGhostLayerLocal allReceivable exampleBlock exampleBlock exampleBlock
      exampleBlock exampleBlock).myRank = 0 := by
    rw [receiveGhostLayerLocal_eq]
    rfl
  simp [receiveGhostLayer, failedTransport, hrank]

/-- C17, amended: for every block state, if the wait on the outstanding receives
returns a code other than success, `receiveGhostLayer` reports the rank and the
error code (one line, and nothing else is printed) and returns the block that
`checkAllGhostlayers` leaves: it reports, but it has no abort. -/
theorem receiveGhostLayer_error_reported (isReceivable : BoundaryEdge → Bool)
    (right left top bottom : SWE_DimensionalSplittingChameleon α)
    (mpiReceive : SWE_DimensionalSplittingChameleon α → SWE_DimensionalSplittingChameleon α × Int)
    (MPI_SUCCESS : Int)
    (checkAllGhostlayers :
      SWE_DimensionalSplittingChameleon α → SWE_DimensionalSplittingChameleon α)
    (blk : SWE_DimensionalSplittingChameleon α)
    (hcode : (mpiReceive
      (receiveGhostLayerLocal isReceivable right left top bottom blk)).2 ≠ MPI_SUCCESS) :
    (receiveGhostLayer isReceivable right left top bottom mpiReceive MPI_SUCCESS
        checkAllGhostlayers blk).1
      = [((mpiReceive (receiveGhostLayerLocal isReceivable right left top bottom blk)).1.myRank,
          (mpiReceive (receiveGhostLayerLocal isReceivable right left top bottom blk)).2)] ∧
    (receiveGhostLayer isReceivable right left top bottom mpiReceive MPI_SUCCESS
        checkAllGhostlayers blk).2
      = checkAllGhostlayers
          (mpiReceive (receiveGhostLayerLocal isReceivable right left top bottom blk)).1 := by
  constructor
  · simp [receiveGhostLayer, hcode]
  · rfl

/-- Instance of the amended C17: the failing transport on the concrete block. -/
theorem receiveGhostLayer_error_reported_witness :
    (failedTransport
      (receiveGhostLayerLocal allReceivable exampleBlock exampleBlock exampleBlock
        exampleBlock exampleBlock)).2 ≠ 0 ∧
    ((receiveGhostLayer allReceivable exampleBlock exampleBlock exampleBlock exampleBlock
        failedTransport 0 markChecked exampleBlock).1
      = [((failedTransport (receiveGhostLayerLocal allReceivable exampleBlock exampleBlock
            exampleBlock exampleBlock exampleBlock)).1.myRank,
          (failedTransport (receiveGhostLayerLocal allReceivable exampleBlock exampleBlock
            exampleBlock exampleBlock exampleBlock)).2)] ∧
    (receiveGhostLayer allReceivable exampleBlock exampleBlock exampleBlock exampleBlock
        failedTransport 0 markChecked exampleBlock).2
      = markChecked
          (failedTransport (receiveGhostLayerLocal allReceivable exampleBlock exampleBlock
            exampleBlock exampleBlock exampleBlock)).1) :=
  ⟨by decide,
    receiveGhostLayer_error_reported allReceivable exampleBlock exampleBlock exampleBlock
      exampleBlock failedTransport 0 markChecked exampleBlock (by decide)⟩

/-- C16, the code at failing inputs: the timestep tag is 0 for every origin, the
tags of the kinds `H` and `TS` at origin 0 are both 0, and the tags of kind `H`
at the origins 1 and 2 are both 0; only bit 30 or 31 of the origin survives the
bitwise AND (the `H` tag of origin `2^30` is `2^30`). -/
theorem messageTag_collisions :
    (∀ origin, messageTag TagKind.TS origin = 0) ∧
    ((TagKind.H, (0 : Int)) ≠ (TagKind.TS, (0 : Int)) ∧
      messageTag TagKind.H 0 = messageTag TagKind.TS 0) ∧
    ((TagKind.H, (1 : Int)) ≠ (TagKind.H, (2 : Int)) ∧
      messageTag TagKind.H 1 = messageTag TagKind.H 2) ∧
    messageTag TagKind.H 1 = 0 ∧
    messageTag TagKind.H (2 ^ 30) = 2 ^ 30 ∧
    messageTag TagKind.HU (-1) = -(2 ^ 31) := by
  refine ⟨?_, ⟨by decide, by decide⟩, ⟨by decide, by decide⟩, by decide, by decide, by decide⟩
  intro origin
  simp [messageTag, tagConstantBits, int32OfBits]

/-- In an ordered field a `dt` equal to `maxTimestep` passes the timestep
assertion. -/
theorem timestepAssertion_self [LinearOrderedField α]
    (blk : SWE_DimensionalSplittingChameleon α) :
    timestepAssertion blk blk.maxTimestep = true := by
  unfold timestepAssertion
  rw [fabs_eq_abs, sub_self, abs_zero]
  exact decide_eq_true (by norm_num)

/-- The run of `computeNumericalFluxesVertical` on a block in sync. -/
theorem computeNumericalFluxesVertical_of_sync [Zero α] [Add α] [Sub α] [Mul α] [Div α]
    (allGhostlayersInSync : SWE_DimensionalSplittingChameleon α → Bool)
    (solver : Solver α) (blk : SWE_DimensionalSplittingChameleon α)
    (hsync : allGhostlayersInSync blk = true) :
    computeNumericalFluxesVertical allGhostlayersInSync solver blk
      = (ySweep solver (intermediateStates blk)).1 := by
  simp [computeNumericalFluxesVertical, hsync]

/-- C20: in exact arithmetic, for every block state with ghost layers in sync,
after one y-sweep followed by `updateUnknowns` (with `dt = maxTimestep`) the sum
of `h` over the interior cells `1 ≤ x ≤ nx`, `1 ≤ y ≤ ny` is the sum before minus
`maxTimestep/dx` times the sum over the interior cells of
`hNetUpdatesLeft + hNetUpdatesRight + hNetUpdatesBelow + hNetUpdatesAbove` (the
x-direction arrays as on entry, the y-direction arrays as the y-sweep leaves
them); so the interior mass is conserved when these net updates sum to zero. -/
theorem interior_mass_balance [LinearOrderedField α] (NDEBUG : Bool)
    (allGhostlayersInSync : SWE_DimensionalSplittingChameleon α → Bool)
    (solver : Solver α) (blk : SWE_DimensionalSplittingChameleon α)
    (hsync : allGhostlayersInSync blk = true)
    (hsync' : allGhostlayersInSync
      (computeNumericalFluxesVertical allGhostlayersInSync solver blk) = true) :
    ∃ blk', updateUnknowns NDEBUG allGhostlayersInSync
        (computeNumericalFluxesVertical allGhostlayersInSync solver blk)
        (computeNumericalFluxesVertical allGhostlayersInSync solver blk).maxTimestep
        = Run.returned blk' ∧
      blk'.hNetUpdatesLeft = blk.hNetUpdatesLeft ∧
      blk'.hNetUpdatesRight = blk.hNetUpdatesRight ∧
      blk'.hNetUpdatesBelow
        = (computeNumericalFluxesVertical allGhostlayersInSync solver blk).hNetUpdatesBelow ∧
      blk'.hNetUpdatesAbove
        = (computeNumericalFluxesVertical allGhostlayersInSync solver blk).hNetUpdatesAbove ∧
      ∑ p ∈ Finset.Ico 1 (blk.nx + 1) ×ˢ Finset.Ico 1 (blk.ny + 1), blk'.h p.1 p.2
        = ∑ p ∈ Finset.Ico 1 (blk.nx + 1) ×ˢ Finset.Ico 1 (blk.ny + 1), blk.h p.1 p.2
          - (blk.maxTimestep / blk.dx)
            * ∑ p ∈ Finset.Ico 1 (blk.nx + 1) ×ˢ Finset.Ico 1 (blk.ny + 1),
                (blk'.hNetUpdatesLeft p.1 p.2 + blk'.hNetUpdatesRight p.1 p.2
                  + blk'.hNetUpdatesBelow p.1 p.2 + blk'.hNetUpdatesAbove p.1 p.2) ∧
      (∑ p ∈ Finset.Ico 1 (blk.nx + 1) ×ˢ Finset.Ico 1 (blk.ny + 1),
          (blk'.hNetUpdatesLeft p.1 p.2 + blk'.hNetUpdatesRight p.1 p.2
            + blk'.hNetUpdatesBelow p.1 p.2 + blk'.hNetUpdatesAbove p.1 p.2) = 0 →
        ∑ p ∈ Finset.Ico 1 (blk.nx + 1) ×ˢ Finset.Ico 1 (blk.ny + 1), blk'.h p.1 p.2
          = ∑ p ∈ Finset.Ico 1 (blk.nx + 1) ×ˢ Finset.Ico 1 (blk.ny + 1), blk.h p.1 p.2) := by
  have hrun := computeNumericalFluxesVertical_of_sync allGhostlayersInSync solver blk hsync
  rw [hrun] at hsync' ⊢
  have hnx : (ySweep solver (intermediateStates blk)).1.nx = blk.nx := by
    rw [ySweep_preserves (fun b => b.nx) solver (fun _ _ _ => rfl),
      intermediateStates_preserves (fun b => b.nx) (fun _ _ _ => rfl)]
  have hny : (ySweep solver (intermediateStates blk)).1.ny = blk.ny := by
    rw [ySweep_preserves (fun b => b.ny) solver (fun _ _ _ => rfl),
      intermediateStates_preserves (fun b => b.ny) (fun _ _ _ => rfl)]
  have hdx : (ySweep solver (intermediateStates blk)).1.dx = blk.dx := by
    rw [ySweep_preserves (fun b => b.dx) solver (fun _ _ _ => rfl),
      intermediateStates_preserves (fun b => b.dx) (fun _ _ _ => rfl)]
  have hmt : (ySweep solver (intermediateStates blk)).1.maxTimestep = blk.maxTimestep := by
    rw [ySweep_preserves (fun b => b.maxTimestep) solver (fun _ _ _ => rfl),
      intermediateStates_preserves (fun b => b.maxTimestep) (fun _ _ _ => rfl)]
  have hL : (ySweep solver (intermediateStates blk)).1.hNetUpdatesLeft
      = blk.hNetUpdatesLeft := by
    rw [ySweep_preserves (fun b => b.hNetUpdatesLeft) solver (fun _ _ _ => rfl),
      intermediateStates_preserves (fun b => b.hNetUpdatesLeft) (fun _ _ _ => rfl)]
  have hR : (ySweep solver (intermediateStates blk)).1.hNetUpdatesRight
      = blk.hNetUpdatesRight := by
    rw [ySweep_preserves (fun b => b.hNetUpdatesRight) solver (fun _ _ _ => rfl),
      intermediateStates_preserves (fun b => b.hNetUpdatesRight) (fun _ _ _ => rfl)]
  have hstar : ∀ x y, 1 ≤ x → x ≤ blk.nx → 1 ≤ y → y ≤ blk.ny →
      (ySweep solver (intermediateStates blk)).1.hStar x y
        = blk.h x y - (blk.maxTimestep / blk.dx)
          * (blk.hNetUpdatesLeft x y + blk.hNetUpdatesRight x y) := by
    intro x y hx1 hx2 hy1 hy2
    have hmem : (x, y) ∈ Finset.Ico 1 (blk.nx + 1) ×ˢ Finset.Ico 0 (blk.ny + 2) := by
      simp only [Finset.mem_product, Finset.mem_Ico]; omega
    rw [ySweep_preserves (fun b => b.hStar) solver (fun _ _ _ => rfl), intermediateStates_eq]
    simp only [hmem, if_true]
  have hupd : updateUnknowns NDEBUG allGhostlayersInSync (ySweep solver (intermediateStates blk)).1
      (ySweep solver (intermediateStates blk)).1.maxTimestep
      = Run.returned (updateLoops (ySweep solver (intermediateStates blk)).1) := by
    simp [updateUnknowns, hsync', timestepAssertion_self]
  have hcell : ∀ p ∈ Finset.Ico 1 (blk.nx + 1) ×ˢ Finset.Ico 1 (blk.ny + 1),
      (updateLoops (ySweep solver (intermediateStates blk)).1).h p.1 p.2
        = blk.h p.1 p.2 - (blk.maxTimestep / blk.dx)
          * (blk.hNetUpdatesLeft p.1 p.2 + blk.hNetUpdatesRight p.1 p.2
            + (ySweep solver (intermediateStates blk)).1.hNetUpdatesBelow p.1 p.2
            + (ySweep solver (intermediateStates blk)).1.hNetUpdatesAbove p.1 p.2) := by
    intro p hp
    have hp' := hp
    simp only [Finset.mem_product, Finset.mem_Ico] at hp'
    have hmem : (p.1, p.2) ∈ Finset.Ico 1 ((ySweep solver (intermediateStates blk)).1.nx + 1)
        ×ˢ Finset.Ico 1 ((ySweep solver (intermediateStates blk)).1.ny + 1) := by
      rw [hnx, hny]; exact hp
    rw [updateLoops_eq]
    simp only [hmem, if_true]
    rw [hstar p.1 p.2 (by omega) (by omega) (by omega) (by omega), hmt, hdx]
    ring
  have hsum : ∑ p ∈ Finset.Ico 1 (blk.nx + 1) ×ˢ Finset.Ico 1 (blk.ny + 1),
        (updateLoops (ySweep solver (intermediateStates blk)).1).h p.1 p.2
      = ∑ p ∈ Finset.Ico 1 (blk.nx + 1) ×ˢ Finset.Ico 1 (blk.ny + 1), blk.h p.1 p.2
        - (blk.maxTimestep / blk.dx)
          * ∑ p ∈ Finset.Ico 1 (blk.nx + 1) ×ˢ Finset.Ico 1 (blk.ny + 1),
              (blk.hNetUpdatesLeft p.1 p.2 + blk.hNetUpdatesRight p.1 p.2
                + (ySweep solver (intermediateStates blk)).1.hNetUpdatesBelow p.1 p.2
                + (ySweep solver (intermediateStates blk)).1.hNetUpdatesAbove p.1 p.2) := by
    rw [Finset.sum_congr rfl hcell, Finset.sum_sub_distrib, Finset.mul_sum]
  have eL : (updateLoops (ySweep solver (intermediateStates blk)).1).hNetUpdatesLeft
      = blk.hNetUpdatesLeft := by rw [updateLoops_eq]; exact hL
  have eR : (updateLoops (ySweep solver (intermediateStates blk)).1).hNetUpdatesRight
      = blk.hNetUpdatesRight := by rw [updateLoops_eq]; exact hR
  have eB : (updateLoops (ySweep solver (intermediateStates blk)).1).hNetUpdatesBelow
      = (ySweep solver (intermediateStates blk)).1.hNetUpdatesBelow := by rw [updateLoops_eq]
  have eA : (updateLoops (ySweep solver (intermediateStates blk)).1).hNetUpdatesAbove
      = (ySweep solver (intermediateStates blk)).1.hNetUpdatesAbove := by rw [updateLoops_eq]
  refine ⟨updateLoops (ySweep solver (intermediateStates blk)).1, hupd, eL, eR, eB, eA, ?_, ?_⟩
  · rw [eL, eR, eB, eA]; exact hsum
  · intro hzero
    rw [eL, eR, eB, eA] at hzero
    rw [hsum, hzero, mul_zero, sub_zero]

/-- Instance of C20: the concrete block. -/
theorem interior_mass_balance_witness :
    alwaysInSync exampleBlock = true ∧
    alwaysInSync (computeNumericalFluxesVertical alwaysInSync exampleSolver exampleBlock)
      = true ∧
    ∃ blk', updateUnknowns false alwaysInSync
        (computeNumericalFluxesVertical alwaysInSync exampleSolver exampleBlock)
        (computeNumericalFluxesVertical alwaysInSync exampleSolver exampleBlock).maxTimestep
        = Run.returned blk' ∧
      blk'.hNetUpdatesLeft = exampleBlock.hNetUpdatesLeft ∧
      blk'.hNetUpdatesRight = exampleBlock.hNetUpdatesRight ∧
      blk'.hNetUpdatesBelow
        = (computeNumericalFluxesVertical alwaysInSync exampleSolver
            exampleBlock).hNetUpdatesBelow ∧
      blk'.hNetUpdatesAbove
        = (computeNumericalFluxesVertical alwaysInSync exampleSolver
            exampleBlock).hNetUpdatesAbove ∧
      ∑ p ∈ Finset.Ico 1 (exampleBlock.nx + 1) ×ˢ Finset.Ico 1 (exampleBlock.ny + 1),
          blk'.h p.1 p.2
        = ∑ p ∈ Finset.Ico 1 (exampleBlock.nx + 1) ×ˢ Finset.Ico 1 (exampleBlock.ny + 1),
            exampleBlock.h p.1 p.2
          - (exampleBlock.maxTimestep / exampleBlock.dx)
            * ∑ p ∈ Finset.Ico 1 (exampleBlock.nx + 1) ×ˢ Finset.Ico 1 (exampleBlock.ny + 1),
                (blk'.hNetUpdatesLeft p.1 p.2 + blk'.hNetUpdatesRight p.1 p.2
                  + blk'.hNetUpdatesBelow p.1 p.2 + blk'.hNetUpdatesAbove p.1 p.2) ∧
      (∑ p ∈ Finset.Ico 1 (exampleBlock.nx + 1) ×ˢ Finset.Ico 1 (exampleBlock.ny + 1),
          (blk'.hNetUpdatesLeft p.1 p.2 + blk'.hNetUpdatesRight p.1 p.2
            + blk'.hNetUpdatesBelow p.1 p.2 + blk'.hNetUpdatesAbove p.1 p.2) = 0 →
        ∑ p ∈ Finset.Ico 1 (exampleBlock.nx + 1) ×ˢ Finset.Ico 1 (exampleBlock.ny + 1),
            blk'.h p.1 p.2
          = ∑ p ∈ Finset.Ico 1 (exampleBlock.nx + 1) ×ˢ Finset.Ico 1 (exampleBlock.ny + 1),
              exampleBlock.h p.1 p.2) :=
  ⟨rfl, rfl, interior_mass_balance false alwaysInSync exampleSolver exampleBlock rfl rfl⟩

/-! ### Lake at rest -/

/-- Invariant rule for two nested loops over a rectangle of cells: `Inv D` holds
of the state once the set `D` of cells has been visited. -/
theorem forLoop2_invariant {σ : Type} (Inv : Finset (Nat × Nat) → σ → Prop)
    (cell : Nat → Nat → σ → σ) (xlo xhi ylo yhi : Nat) (hx : xlo ≤ xhi) (hy : ylo ≤ yhi)
    (hcell : ∀ D x y s, xlo ≤ x → x < xhi → ylo ≤ y → y < yhi → (x, y) ∉ D →
      Inv D s → Inv (insert (x, y) D) (cell x y s))
    (s : σ) (h0 : Inv ∅ s) :
    Inv (Finset.Ico xlo xhi ×ˢ Finset.Ico ylo yhi)
      (forLoop xlo xhi (fun x => forLoop ylo yhi (fun y => cell x y)) s) := by
  have outer := forLoop_invariant
    (fun i t => xlo ≤ i ∧ Inv (Finset.Ico xlo i ×ˢ Finset.Ico ylo yhi) t)
    (fun x => forLoop ylo yhi (fun y => cell x y)) xhi ?_ (xhi - xlo) xlo s rfl hx
    ⟨le_refl _, by simpa using h0⟩
  · exact outer.2
  · intro i t hi ⟨hi1, hinv⟩
    refine ⟨by omega, ?_⟩
    have inner := forLoop_invariant
      (fun j u => ylo ≤ j ∧
        Inv (Finset.Ico xlo i ×ˢ Finset.Ico ylo yhi ∪ {i} ×ˢ Finset.Ico ylo j) u)
      (fun y => cell i y) yhi ?_ (yhi - ylo) ylo t rfl hy
      ⟨le_refl _, by simpa using hinv⟩
    · have e : Finset.Ico xlo (i + 1) ×ˢ Finset.Ico ylo yhi
          = Finset.Ico xlo i ×ˢ Finset.Ico ylo yhi ∪ {i} ×ˢ Finset.Ico ylo yhi := by
        ext ⟨a, b⟩
        simp only [Finset.mem_product, Finset.mem_Ico, Finset.mem_union, Finset.mem_singleton]
        constructor
        · rintro ⟨⟨h3, h4⟩, h5⟩
          by_cases hc : a = i
          · exact Or.inr ⟨hc, h5⟩
          · exact Or.inl ⟨⟨h3, by omega⟩, h5⟩
        · rintro (⟨⟨h3, h4⟩, h5⟩ | ⟨h3, h5⟩)
          · exact ⟨⟨h3, by omega⟩, h5⟩
          · exact ⟨⟨by omega, by omega⟩, h5⟩
      rw [e]
      exact inner.2
    · intro j u hj ⟨hj1, hinv'⟩
      refine ⟨by omega, ?_⟩
      have e : Finset.Ico xlo i ×ˢ Finset.Ico ylo yhi ∪ {i} ×ˢ Finset.Ico ylo (j + 1)
          = insert (i, j)
              (Finset.Ico xlo i ×ˢ Finset.Ico ylo yhi ∪ {i} ×ˢ Finset.Ico ylo j) := by
        ext ⟨a, b⟩
        simp only [Finset.mem_insert, Finset.mem_product, Finset.mem_Ico, Finset.mem_union,
          Finset.mem_singleton, Prod.mk.injEq]
        constructor
        · rintro (⟨⟨h3, h4⟩, h5⟩ | ⟨h3, h4⟩)
          · exact Or.inr (Or.inl ⟨⟨h3, h4⟩, h5⟩)
          · by_cases hc : b = j
            · exact Or.inl ⟨h3, hc⟩
            · exact Or.inr (Or.inr ⟨h3, by omega⟩)
        · rintro (⟨h3, h4⟩ | ⟨⟨h3, h4⟩, h5⟩ | ⟨h3, h4⟩)
          · exact Or.inr ⟨h3, by omega⟩
          · exact Or.inl ⟨⟨h3, h4⟩, h5⟩
          · exact Or.inr ⟨h3, by omega⟩
      rw [e]
      apply hcell _ i j u hi1 hi hj1 hj _ hinv'
      simp only [Finset.mem_product, Finset.mem_Ico, Finset.mem_union, Finset.mem_singleton]
      rintro (⟨⟨_, h4⟩, _⟩ | ⟨_, h4⟩) <;> omega

/-- On a lake at rest the x-sweep with a well-balanced flux operator writes zero
net updates on every edge it visits and leaves a positive wave speed. -/
theorem xSweep_lakeAtRest [Zero α] [Add α] [LT α] (solver : Solver α) (c : α)
    (blk : SWE_DimensionalSplittingChameleon α)
    (hsolver : WellBalanced solver) (hlake : LakeAtRest c blk) :
    (∀ x y, x ≤ blk.nx → y ≤ blk.ny + 1 →
      (xSweep solver blk).1.hNetUpdatesLeft x y = 0 ∧
      (xSweep solver blk).1.hNetUpdatesRight (x + 1) y = 0 ∧
      (xSweep solver blk).1.huNetUpdatesLeft x y = 0 ∧
      (xSweep solver blk).1.huNetUpdatesRight (x + 1) y = 0) ∧
    0 < (xSweep solver blk).2 := by
  have key := forLoop2_invariant
    (fun (D : Finset (Nat × Nat)) (st : SWE_DimensionalSplittingChameleon α × α) =>
      st.1.h = blk.h ∧ st.1.hu = blk.hu ∧ st.1.b = blk.b ∧
      (∀ p ∈ D, st.1.hNetUpdatesLeft p.1 p.2 = 0 ∧ st.1.hNetUpdatesRight (p.1 + 1) p.2 = 0 ∧
        st.1.huNetUpdatesLeft p.1 p.2 = 0 ∧ st.1.huNetUpdatesRight (p.1 + 1) p.2 = 0) ∧
      (D.Nonempty → 0 < st.2))
    (fun x y => horizontalEdge solver x y) 0 (blk.nx + 1) 0 (blk.ny + 2)
    (by omega) (by omega) ?_ (blk, 0) ?_
  · obtain ⟨_, _, _, hzero, hpos⟩ := key
    constructor
    · intro x y hx hy
      exact hzero (x, y) (by simp only [Finset.mem_product, Finset.mem_Ico]; omega)
    · apply hpos
      exact ⟨(0, 0), by simp only [Finset.mem_product, Finset.mem_Ico]; omega⟩
  · intro D x y s _ hx _ hy _ ⟨hh, hhu, hb, hzero, _⟩
    obtain ⟨hu1, _, hs1, hp1⟩ := hlake x y (by omega) (by omega)
    obtain ⟨hu2, _, hs2, hp2⟩ := hlake (x + 1) y (by omega) (by omega)
    have hr := hsolver (blk.h x y) (blk.h (x + 1) y) (blk.hu x y) (blk.hu (x + 1) y)
      (blk.b x y) (blk.b (x + 1) y) s.2 hu1 hu2 (hs1.trans hs2.symm) hp1 hp2
    obtain ⟨r1, r2, r3, r4, r5⟩ := hr
    refine ⟨hh, hhu, hb, ?_, ?_⟩
    · intro p hp
      simp only [horizontalEdge, hh, hhu, hb, Float2D.set_apply, r1, r2, r3, r4]
      rcases Finset.mem_insert.1 hp with hpe | hpD
      · subst hpe
        simp
      · obtain ⟨z1, z2, z3, z4⟩ := hzero p hpD
        refine ⟨?_, ?_, ?_, ?_⟩
        · split
          · rfl
          · exact z1
        · split
          · rfl
          · exact z2
        · split
          · rfl
          · exact z3
        · split
          · rfl
          · exact z4
    · intro _
      simp only [horizontalEdge, hh, hhu, hb]
      exact r5
  · refine ⟨rfl, rfl, rfl, ?_, ?_⟩
    · intro p hp
      exact absurd hp (Finset.not_mem_empty p)
    · intro h
      exact absurd h Finset.not_nonempty_empty

/-- On a lake at rest the y-sweep with a well-balanced flux operator writes zero
net updates on every edge it visits. -/
theorem ySweep_lakeAtRest [Zero α] [Add α] [LT α] (solver : Solver α) (c : α)
    (blk : SWE_DimensionalSplittingChameleon α)
    (hsolver : WellBalanced solver) (hlake : LakeAtRest c blk) :
    ∀ x y, 1 ≤ x → x ≤ blk.nx → y ≤ blk.ny →
      (ySweep solver blk).1.hNetUpdatesBelow x y = 0 ∧
      (ySweep solver blk).1.hNetUpdatesAbove x (y + 1) = 0 ∧
      (ySweep solver blk).1.hvNetUpdatesBelow x y = 0 ∧
      (ySweep solver blk).1.hvNetUpdatesAbove x (y + 1) = 0 := by
  have key := forLoop2_invariant
    (fun (D : Finset (Nat × Nat)) (st : SWE_DimensionalSplittingChameleon α × α) =>
      st.1.h = blk.h ∧ st.1.hv = blk.hv ∧ st.1.b = blk.b ∧
      (∀ p ∈ D, st.1.hNetUpdatesBelow p.1 p.2 = 0 ∧ st.1.hNetUpdatesAbove p.1 (p.2 + 1) = 0 ∧
        st.1.hvNetUpdatesBelow p.1 p.2 = 0 ∧ st.1.hvNetUpdatesAbove p.1 (p.2 + 1) = 0))
    (fun x y => verticalEdge solver x y) 1 (blk.nx + 1) 0 (blk.ny + 1)
    (by omega) (by omega) ?_ (blk, 0) ?_
  · obtain ⟨_, _, _, hzero⟩ := key
    intro x y hx1 hx2 hy
    exact hzero (x, y) (by simp only [Finset.mem_product, Finset.mem_Ico]; omega)
  · intro D x y s _ hx _ hy _ ⟨hh, hhv, hb, hzero⟩
    obtain ⟨_, hv1, hs1, hp1⟩ := hlake x y (by omega) (by omega)
    obtain ⟨_, hv2, hs2, hp2⟩ := hlake x (y + 1) (by omega) (by omega)
    have hr := hsolver (blk.h x y) (blk.h x (y + 1)) (blk.hv x y) (blk.hv x (y + 1))
      (blk.b x y) (blk.b x (y + 1)) s.2 hv1 hv2 (hs1.trans hs2.symm) hp1 hp2
    obtain ⟨r1, r2, r3, r4, _⟩ := hr
    refine ⟨hh, hhv, hb, ?_⟩
    intro p hp
    simp only [verticalEdge, hh, hhv, hb, Float2D.set_apply, r1, r2, r3, r4]
    rcases Finset.mem_insert.1 hp with hpe | hpD
    · subst hpe
      simp
    · obtain ⟨z1, z2, z3, z4⟩ := hzero p hpD
      refine ⟨?_, ?_, ?_, ?_⟩
      · split
        · rfl
        · exact z1
      · split
        · rfl
        · exact z2
      · split
        · rfl
        · exact z3
      · split
        · rfl
        · exact z4
  · refine ⟨rfl, rfl, rfl, ?_⟩
    intro p hp
    exact absurd hp (Finset.not_mem_empty p)

/-- The run of `computeNumericalFluxesHorizontal` on a block in sync changes, apart
from what the x-sweep loops change, only `maxTimestep`. -/
theorem computeNumericalFluxesHorizontal_preserves [Zero α] [Mul α] [Div α] [OfScientific α]
    {β : Type} (f : SWE_DimensionalSplittingChameleon α → β)
    (hf : ∀ b t, f (setMaxTimestep b t) = f b)
    (allGhostlayersInSync : SWE_DimensionalSplittingChameleon α → Bool)
    (getRoundTimestep : SWE_DimensionalSplittingChameleon α → α → α)
    (solver : Solver α) (blk : SWE_DimensionalSplittingChameleon α)
    (hsync : allGhostlayersInSync blk = true) :
    f (computeNumericalFluxesHorizontal allGhostlayersInSync getRoundTimestep solver blk)
      = f (xSweep solver blk).1 := by
  simp only [computeNumericalFluxesHorizontal, hsync, Bool.not_true, Bool.false_eq_true,
    ↓reduceIte]
  split
  · exact (hf (setMaxTimestep (xSweep solver blk).1 _) _).trans (hf _ _)
  · exact hf _ _

/-! ### Iterations with a zero timestep, and a zero wave speed -/

/-- The x-sweep of the still block reduces the wave speed to 0. -/
theorem xSweep_stillBlock_speed : (xSweep stillSolver stillBlock).2 = 0 := by
  simp [xSweep, forLoop, horizontalEdge, stillSolver, stillBlock, List.range', List.foldl]

/-- The timestep `0.4 * (1 / 0)` is `+inf`. -/
theorem timestep_over_zero : (0.4 : XReal) * (XReal.num 1 / (0 : XReal)) = XReal.posInf := by
  show XReal.mul (XReal.num (0.4 : ℚ)) (XReal.div (XReal.num 1) (XReal.num 0)) = XReal.posInf
  simp only [XReal.div, XReal.mul, XReal.mulPosInf]
  norm_num

/-- The value `2 - (inf / 1) * (0 + 0)` is not a number. -/
theorem star_of_infinite_timestep :
    XReal.num 2 - (XReal.posInf / XReal.num 1) * ((0 : XReal) + 0) = XReal.nan := by
  show XReal.add (XReal.num 2) (XReal.neg (XReal.mul (XReal.div XReal.posInf (XReal.num 1))
    (XReal.add (XReal.num 0) (XReal.num 0)))) = XReal.nan
  simp [XReal.div, XReal.mul, XReal.mulPosInf, XReal.add, XReal.neg]

/-- Not-a-number minus anything is not a number. -/
theorem XReal_nan_sub (z : XReal) : XReal.nan - z = XReal.nan := by
  show XReal.add XReal.nan (XReal.neg z) = XReal.nan
  cases z <;> rfl

/-- The x-sweep of the still block leaves the net updates of `h` at zero. -/
theorem xSweep_stillBlock_updates :
    (xSweep stillSolver stillBlock).1.hNetUpdatesLeft 1 1 = 0 ∧
    (xSweep stillSolver stillBlock).1.hNetUpdatesRight 1 1 = 0 := by
  constructor <;>
  simp [xSweep, forLoop, horizontalEdge, stillSolver, stillBlock, Float2D.set, List.range',
    List.foldl]

/-- C19, counterexample: for the still block (`h = 2`, `dx = 1`) with a flux operator
that reports wave speed 0 and zero net updates on every edge, the x-sweep
computes `maxTimestep = 0.4 * (dx / 0) = +inf`, not 0; the iteration then sets
`h[1][1] = 2 - (inf/dx) * (0 + 0)`, which is not a number, in a build that
defines `NDEBUG`, and stops at the timestep assertion (`inf - inf` is not a
number) in a debug build. -/
theorem zero_wave_speed_not_preserved :
    maxHorizontalWaveSpeed stillSolver stillBlock = 0 ∧
    (computeNumericalFluxesHorizontal stillInSync keepTimestep stillSolver
      stillBlock).maxTimestep = XReal.posInf ∧
    stillBlock.h 1 1 = XReal.num 2 ∧
    (∃ blk1, fullIteration true stillInSync keepTimestep stillSolver stillBlock
        = Run.returned blk1 ∧ blk1.h 1 1 = XReal.nan ∧ blk1.h 1 1 ≠ stillBlock.h 1 1) ∧
    (∃ blk1, fullIteration false stillInSync keepTimestep stillSolver stillBlock
        = Run.assertionViolation blk1) := by
  have hlt : (xSweep stillSolver stillBlock).1.localTimestepping = false :=
    xSweep_preserves (fun b => b.localTimestepping) stillSolver (fun _ _ _ => rfl) stillBlock
  have hdx : (xSweep stillSolver stillBlock).1.dx = XReal.num 1 :=
    xSweep_preserves (fun b => b.dx) stillSolver (fun _ _ _ => rfl) stillBlock
  have hb1 : computeNumericalFluxesHorizontal stillInSync keepTimestep stillSolver stillBlock
      = setMaxTimestep (xSweep stillSolver stillBlock).1 XReal.posInf := by
    simp only [computeNumericalFluxesHorizontal, stillInSync, Bool.not_true, Bool.false_eq_true,
      ↓reduceIte, hlt, hdx, xSweep_stillBlock_speed, timestep_over_zero]
    rfl
  have hmt : (computeNumericalFluxesHorizontal stillInSync keepTimestep stillSolver
      stillBlock).maxTimestep = XReal.posInf := by rw [hb1]; rfl
  generalize hg1 : computeNumericalFluxesHorizontal stillInSync keepTimestep stillSolver
    stillBlock = b1 at hb1 hmt
  have b1h : b1.h 1 1 = XReal.num 2 := by
    rw [hb1]
    show (xSweep stillSolver stillBlock).1.h 1 1 = XReal.num 2
    rw [xSweep_preserves (fun b => b.h) stillSolver (fun _ _ _ => rfl)]
    rfl
  have b1dx : b1.dx = XReal.num 1 := by rw [hb1]; exact hdx
  have b1nx : b1.nx = 1 := by
    rw [hb1]
    exact xSweep_preserves (fun b => b.nx) stillSolver (fun _ _ _ => rfl) stillBlock
  have b1ny : b1.ny = 1 := by
    rw [hb1]
    exact xSweep_preserves (fun b => b.ny) stillSolver (fun _ _ _ => rfl) stillBlock
  have b1L : b1.hNetUpdatesLeft 1 1 = 0 := by rw [hb1]; exact xSweep_stillBlock_updates.1
  have b1R : b1.hNetUpdatesRight 1 1 = 0 := by rw [hb1]; exact xSweep_stillBlock_updates.2
  have hrun2 : computeNumericalFluxesVertical stillInSync stillSolver b1
      = (ySweep stillSolver (intermediateStates b1)).1 := by
    simp [computeNumericalFluxesVertical, stillInSync]
  have q : ∀ {β : Type} (f : SWE_DimensionalSplittingChameleon XReal → β),
      (∀ x y st, f (verticalEdge stillSolver x y st).1 = f st.1) →
      (∀ x y b, f (intermediateCell x y b) = f b) →
      f (computeNumericalFluxesVertical stillInSync stillSolver b1) = f b1 := by
    intro β f hf1 hf2
    rw [hrun2, ySweep_preserves f stillSolver hf1, intermediateStates_preserves f hf2]
  have hstar : (computeNumericalFluxesVertical stillInSync stillSolver b1).hStar 1 1
      = XReal.nan := by
    have hmem : (1, 1) ∈ Finset.Ico 1 (b1.nx + 1) ×ˢ Finset.Ico 0 (b1.ny + 2) := by
      rw [b1nx, b1ny]; decide
    rw [hrun2, ySweep_preserves (fun b => b.hStar) stillSolver (fun _ _ _ => rfl),
      intermediateStates_eq]
    simp only [hmem, if_true, b1h, hmt, b1dx, b1L, b1R]
    exact star_of_infinite_timestep
  generalize hg2 : computeNumericalFluxesVertical stillInSync stillSolver b1 = b2 at q hstar
  have b2mt : b2.maxTimestep = XReal.posInf :=
    (q (fun b => b.maxTimestep) (fun _ _ _ => rfl) (fun _ _ _ => rfl)).trans hmt
  have b2nx : b2.nx = 1 :=
    (q (fun b => b.nx) (fun _ _ _ => rfl) (fun _ _ _ => rfl)).trans b1nx
  have b2ny : b2.ny = 1 :=
    (q (fun b => b.ny) (fun _ _ _ => rfl) (fun _ _ _ => rfl)).trans b1ny
  have hnan : (updateLoops b2).h 1 1 = XReal.nan := by
    have hmem : (1, 1) ∈ Finset.Ico 1 (b2.nx + 1) ×ˢ Finset.Ico 1 (b2.ny + 1) := by
      rw [b2nx, b2ny]; decide
    rw [updateLoops_eq]
    simp only [hmem, if_true, hstar]
    exact XReal_nan_sub _
  have hassert : timestepAssertion b2 b2.maxTimestep = false := by
    unfold timestepAssertion
    rw [b2mt]
    rfl
  refine ⟨xSweep_stillBlock_speed, hmt, rfl, ⟨updateLoops b2, ?_, hnan, ?_⟩, ⟨b2, ?_⟩⟩
  · simp only [fullIteration, hg1, hg2]
    simp [updateUnknowns, stillInSync]
  · rw [hnan]
    exact fun h => XReal.noConfusion h
  · simp only [fullIteration, hg1, hg2]
    simp [updateUnknowns, stillInSync, hassert]

/-- Instance of the amended C11: on the concrete block (`dy = 1`, vertical wave
speed 1) the kernel in a debug build stops at its assertion for
`maxTimestep = 1` and returns for `maxTimestep = 0.6`. -/
theorem computeNumericalFluxesVerticalKernel_cfl_witness :
    (¬ (1 : ℚ) < 0.7 * (exampleBlock.dy
          / maxVerticalWaveSpeed exampleSolver (setMaxTimestep exampleBlock 1)) ∧
      ∃ b, computeNumericalFluxesVerticalKernel false exampleSolver exampleBlock 1
        = Run.assertionViolation b) ∧
    ((0.6 : ℚ) < 0.7 * (exampleBlock.dy
          / maxVerticalWaveSpeed exampleSolver (setMaxTimestep exampleBlock 0.6)) ∧
      ∃ b, computeNumericalFluxesVerticalKernel false exampleSolver exampleBlock 0.6
        = Run.returned b) :=
  ⟨⟨by rw [maxVerticalWaveSpeed_example]; norm_num [exampleBlock],
      (computeNumericalFluxesVerticalKernel_cfl exampleSolver exampleBlock 1).1
        (by rw [maxVerticalWaveSpeed_example]; norm_num [exampleBlock])⟩,
    ⟨by rw [maxVerticalWaveSpeed_example]; norm_num [exampleBlock],
      (computeNumericalFluxesVerticalKernel_cfl exampleSolver exampleBlock 0.6).2
        (by rw [maxVerticalWaveSpeed_example]; norm_num [exampleBlock])⟩⟩

/-- Instance of C15: the right side of the block connected within the rank, whose
right neighbour is at time 5, and the left side of the concrete block, which
is a wall. -/
theorem receiveGhostLayer_borderTimestep_witness :
    (connectedBlock.boundaryType .BND_RIGHT = BoundaryType.CONNECT_WITHIN_RANK ∧
      allReceivable .BND_RIGHT = true ∧
      (receiveGhostLayerLocal allReceivable laterNeighbour exampleBlock exampleBlock
          exampleBlock connectedBlock).borderTimestep .BND_RIGHT
        = laterNeighbour.totalLocalTimestep ∧
      laterNeighbour.totalLocalTimestep ≠ connectedBlock.borderTimestep .BND_RIGHT) ∧
    (¬ (exampleBlock.boundaryType .BND_LEFT = BoundaryType.CONNECT_WITHIN_RANK
          ∧ allReceivable .BND_LEFT = true) ∧
      (receiveGhostLayerLocal allReceivable laterNeighbour exampleBlock exampleBlock
          exampleBlock exampleBlock).borderTimestep .BND_LEFT
        = exampleBlock.borderTimestep .BND_LEFT ∧
      1 ≤ 1 ∧ 1 ≤ exampleBlock.ny ∧
      (receiveGhostLayerLocal allReceivable laterNeighbour exampleBlock exampleBlock
          exampleBlock exampleBlock).bufferH 0 1 = exampleBlock.bufferH 0 1) :=
  ⟨⟨rfl, rfl,
      (receiveGhostLayer_borderTimestep allReceivable laterNeighbour exampleBlock exampleBlock
        exampleBlock connectedBlock).1 .BND_RIGHT rfl rfl,
      by norm_num [laterNeighbour, connectedBlock, exampleBlock]⟩,
    ⟨fun h => BoundaryType.noConfusion h.1,
      (receiveGhostLayer_borderTimestep allReceivable laterNeighbour exampleBlock exampleBlock
        exampleBlock exampleBlock).2.1 .BND_LEFT (fun h => BoundaryType.noConfusion h.1),
      by decide, by decide,
      ((receiveGhostLayer_borderTimestep allReceivable laterNeighbour exampleBlock exampleBlock
        exampleBlock exampleBlock).2.2.2.1 (fun h => BoundaryType.noConfusion h.1)
        1 (by decide) (by decide)).1⟩⟩

/-! ### The frame of `updateUnknowns` -/

/-- C23: `updateUnknowns` modifies only the interior cells of `h`, `hu` and
`hv`.  Whatever the block, the `dt` argument, the build and the ghost-layer
state are, in the block at the end of the call (returned or stopped at the
assertion) every entry of `h`, `hu` and `hv` outside `1 ≤ x ≤ nx`,
`1 ≤ y ≤ ny` — the ghost ring `x ∈ {0, nx+1}` or `y ∈ {0, ny+1}` in
particular — is the one on entry, and `b`, `hStar`, `huStar`, the eight
net-update arrays and `maxTimestep` are the ones on entry. -/
theorem updateUnknowns_frame [Zero α] [Add α] [Sub α] [Mul α] [Div α] [Neg α] [LT α]
    [DecidableRel (fun a b : α => a < b)] [OfScientific α] (NDEBUG : Bool)
    (allGhostlayersInSync : SWE_DimensionalSplittingChameleon α → Bool)
    (blk : SWE_DimensionalSplittingChameleon α) (dt : α) :
    (∀ x y, ¬ (1 ≤ x ∧ x ≤ blk.nx ∧ 1 ≤ y ∧ y ≤ blk.ny) →
      (updateUnknowns NDEBUG allGhostlayersInSync blk dt).state.h x y = blk.h x y ∧
      (updateUnknowns NDEBUG allGhostlayersInSync blk dt).state.hu x y = blk.hu x y ∧
      (updateUnknowns NDEBUG allGhostlayersInSync blk dt).state.hv x y = blk.hv x y) ∧
    (∀ x y, (x = 0 ∨ x = blk.nx + 1 ∨ y = 0 ∨ y = blk.ny + 1) →
      (updateUnknowns NDEBUG allGhostlayersInSync blk dt).state.h x y = blk.h x y ∧
      (updateUnknowns NDEBUG allGhostlayersInSync blk dt).state.hu x y = blk.hu x y ∧
      (updateUnknowns NDEBUG allGhostlayersInSync blk dt).state.hv x y = blk.hv x y) ∧
    (updateUnknowns NDEBUG allGhostlayersInSync blk dt).state.b = blk.b ∧
    (updateUnknowns NDEBUG allGhostlayersInSync blk dt).state.hStar = blk.hStar ∧
    (updateUnknowns NDEBUG allGhostlayersInSync blk dt).state.huStar = blk.huStar ∧
    (updateUnknowns NDEBUG allGhostlayersInSync blk dt).state.hNetUpdatesLeft
      = blk.hNetUpdatesLeft ∧
    (updateUnknowns NDEBUG allGhostlayersInSync blk dt).state.hNetUpdatesRight
      = blk.hNetUpdatesRight ∧
    (updateUnknowns NDEBUG allGhostlayersInSync blk dt).state.huNetUpdatesLeft
      = blk.huNetUpdatesLeft ∧
    (updateUnknowns NDEBUG allGhostlayersInSync blk dt).state.huNetUpdatesRight
      = blk.huNetUpdatesRight ∧
    (updateUnknowns NDEBUG allGhostlayersInSync blk dt).state.hNetUpdatesBelow
      = blk.hNetUpdatesBelow ∧
    (updateUnknowns NDEBUG allGhostlayersInSync blk dt).state.hNetUpdatesAbove
      = blk.hNetUpdatesAbove ∧
    (updateUnknowns NDEBUG allGhostlayersInSync blk dt).state.hvNetUpdatesBelow
      = blk.hvNetUpdatesBelow ∧
    (updateUnknowns NDEBUG allGhostlayersInSync blk dt).state.hvNetUpdatesAbove
      = blk.hvNetUpdatesAbove ∧
    (updateUnknowns NDEBUG allGhostlayersInSync blk dt).state.maxTimestep
      = blk.maxTimestep := by
  have hcases : (updateUnknowns NDEBUG allGhostlayersInSync blk dt).state = blk ∨
      (updateUnknowns NDEBUG allGhostlayersInSync blk dt).state = updateLoops blk := by
    unfold updateUnknowns
    by_cases h1 : allGhostlayersInSync blk = true
    · by_cases h2 : (!NDEBUG && !timestepAssertion blk dt) = true
      · left; simp [h1, h2, Run.state]
      · right; simp only [h1, h2]; simp [Run.state]
    · left; simp [h1, Run.state]
  have hout : ∀ x y, ¬ (1 ≤ x ∧ x ≤ blk.nx ∧ 1 ≤ y ∧ y ≤ blk.ny) →
      (updateUnknowns NDEBUG allGhostlayersInSync blk dt).state.h x y = blk.h x y ∧
      (updateUnknowns NDEBUG allGhostlayersInSync blk dt).state.hu x y = blk.hu x y ∧
      (updateUnknowns NDEBUG allGhostlayersInSync blk dt).state.hv x y = blk.hv x y := by
    intro x y hxy
    rcases hcases with h | h
    · rw [h]; exact ⟨rfl, rfl, rfl⟩
    · have hmem : (x, y) ∉ Finset.Ico 1 (blk.nx + 1) ×ˢ Finset.Ico 1 (blk.ny + 1) := by
        simp only [Finset.mem_product, Finset.mem_Ico]
        omega
      rw [h, updateLoops_eq]
      simp only [hmem, if_false, and_self]
  refine ⟨hout, ?_, ?_⟩
  · intro x y hxy
    exact hout x y (by omega)
  · rcases hcases with h | h
    · rw [h]; exact ⟨rfl, rfl, rfl, rfl, rfl, rfl, rfl, rfl, rfl, rfl, rfl, rfl⟩
    · rw [h, updateLoops_eq]; exact ⟨rfl, rfl, rfl, rfl, rfl, rfl, rfl, rfl, rfl, rfl, rfl, rfl⟩

/-- Instance of C23: the concrete block, in sync, `dt` equal to its
`maxTimestep`; the ghost cell `(0, 1)` and the cell `(2, 1)` of the ghost ring
keep their values, and so does `maxTimestep`. -/
theorem updateUnknowns_frame_witness :
    ((0 : Nat) = 0 ∨ 0 = exampleBlock.nx + 1 ∨ 1 = 0 ∨ 1 = exampleBlock.ny + 1) ∧
    ¬ (1 ≤ 2 ∧ 2 ≤ exampleBlock.nx ∧ 1 ≤ 1 ∧ 1 ≤ exampleBlock.ny) ∧
    (updateUnknowns false alwaysInSync exampleBlock 0).state.h 0 1 = exampleBlock.h 0 1 ∧
    (updateUnknowns false alwaysInSync exampleBlock 0).state.h 2 1 = exampleBlock.h 2 1 ∧
    (updateUnknowns false alwaysInSync exampleBlock 0).state.maxTimestep
      = exampleBlock.maxTimestep :=
  ⟨Or.inl rfl, by decide,
    ((updateUnknowns_frame false alwaysInSync exampleBlock 0).2.1 0 1 (Or.inl rfl)).1,
    ((updateUnknowns_frame false alwaysInSync exampleBlock 0).1 2 1 (by decide)).1,
    (updateUnknowns_frame false alwaysInSync exampleBlock 0).2.2.2.2.2.2.2.2.2.2.2.2.2⟩

/-! ### The transfer descriptors -/

/-- An element of an `(nx + 2) × (ny + 2)` array lies inside the array. -/
theorem offset_lt_size (nx ny x y : Nat) (hx : x ≤ nx + 1) (hy : y ≤ ny + 1) :
    x * (ny + 2) + y < (nx + 2) * (ny + 2) := by
  have h1 : x * (ny + 2) ≤ (nx + 1) * (ny + 2) := Nat.mul_le_mul_right _ hx
  have h2 : (nx + 2) * (ny + 2) = (nx + 1) * (ny + 2) + (ny + 2) := by ring
  omega

/-- The cells that one item of `HORIZONTAL_BOUNDARY` at `[1][y0]` addresses. -/
theorem vectorOffsets_row (elementOffset : Nat → Nat → Nat) (nx ny : Nat)
    (hlayout : ∀ x y, elementOffset x y = x * (ny + 2) + y) (y0 : Nat) :
    vectorOffsets (HORIZONTAL_BOUNDARY nx ny) (elementOffset 1 y0)
      = (List.range nx).map (fun i => elementOffset (1 + i) y0) := by
  simp only [vectorOffsets, HORIZONTAL_BOUNDARY, Nat.mul_one, Nat.div_one, Nat.mod_one,
    Nat.add_zero]
  apply List.map_congr_left
  intro i _
  rw [hlayout, hlayout]
  ring

/-- The cells that a contiguous transfer of `ny` floats addresses when it starts
at the element `[x][1]`. -/
theorem contiguousOffsets_column (elementOffset : Nat → Nat → Nat) (ny : Nat)
    (hlayout : ∀ x y, elementOffset x y = x * (ny + 2) + y) (x startIndex : Nat)
    (hstart : startIndex = x * (ny + 2) + 1) :
    contiguousOffsets startIndex ny = (List.range ny).map (fun k => elementOffset x (1 + k)) := by
  simp only [contiguousOffsets]
  apply List.map_congr_left
  intro k _
  rw [hlayout, hstart]
  ring

/-- C21: with the element `[x][y]` of an `(nx + 2) × (ny + 2)` array at the flat
offset `x * (ny + 2) + y`, the transfers address exactly the intended cells:
the `ny` floats sent from offset `ny + 2 + 1` are `[1][1..ny]` (left edge) and
those sent from `nx * (ny + 2) + 1` are `[nx][1..ny]` (right edge); the `ny`
floats received at offset `1` are the ghost cells `[0][1..ny]` and those
received at `(nx + 1) * (ny + 2) + 1` are `[nx+1][1..ny]`; one item of
`HORIZONTAL_BOUNDARY` (count `nx`, block length 1, stride `ny + 2`) at
`[1][y0]` addresses the cells `[1..nx][y0]`, for every `y0` and so for the rows
`1` and `ny` that are sent and the rows `0` and `ny + 1` that are received;
every addressed offset is below the array size `(nx + 2) * (ny + 2)`; and
different cells of the array have different offsets. -/
theorem ghost_transfer_offsets (elementOffset : Nat → Nat → Nat) (nx ny : Nat)
    (hlayout : ∀ x y, elementOffset x y = x * (ny + 2) + y) :
    setGhostLayerOffsets elementOffset nx ny .BND_LEFT
      = (List.range ny).map (fun k => elementOffset 1 (1 + k)) ∧
    setGhostLayerOffsets elementOffset nx ny .BND_RIGHT
      = (List.range ny).map (fun k => elementOffset nx (1 + k)) ∧
    receiveGhostLayerOffsets elementOffset nx ny .BND_LEFT
      = (List.range ny).map (fun k => elementOffset 0 (1 + k)) ∧
    receiveGhostLayerOffsets elementOffset nx ny .BND_RIGHT
      = (List.range ny).map (fun k => elementOffset (nx + 1) (1 + k)) ∧
    (∀ y0, vectorOffsets (HORIZONTAL_BOUNDARY nx ny) (elementOffset 1 y0)
      = (List.range nx).map (fun i => elementOffset (1 + i) y0)) ∧
    setGhostLayerOffsets elementOffset nx ny .BND_BOTTOM
      = (List.range nx).map (fun i => elementOffset (1 + i) 1) ∧
    setGhostLayerOffsets elementOffset nx ny .BND_TOP
      = (List.range nx).map (fun i => elementOffset (1 + i) ny) ∧
    receiveGhostLayerOffsets elementOffset nx ny .BND_BOTTOM
      = (List.range nx).map (fun i => elementOffset (1 + i) 0) ∧
    receiveGhostLayerOffsets elementOffset nx ny .BND_TOP
      = (List.range nx).map (fun i => elementOffset (1 + i) (ny + 1)) ∧
    (∀ e o, o ∈ setGhostLayerOffsets elementOffset nx ny e ∨
        o ∈ receiveGhostLayerOffsets elementOffset nx ny e →
      o < (nx + 2) * (ny + 2)) ∧
    (∀ x y x' y', y < ny + 2 → y' < ny + 2 →
      elementOffset x y = elementOffset x' y' → x = x' ∧ y = y') := by
  have sl := contiguousOffsets_column elementOffset ny hlayout 1 (ny + 2 + 1) (by ring)
  have sr := contiguousOffsets_column elementOffset ny hlayout nx (nx * (ny + 2) + 1) rfl
  have rl := contiguousOffsets_column elementOffset ny hlayout 0 1 (by ring)
  have rr := contiguousOffsets_column elementOffset ny hlayout (nx + 1)
    ((nx + 1) * (ny + 2) + 1) rfl
  have row := vectorOffsets_row elementOffset nx ny hlayout
  have hcol : ∀ x o, x ≤ nx + 1 →
      o ∈ (List.range ny).map (fun k => elementOffset x (1 + k)) →
      o < (nx + 2) * (ny + 2) := by
    intro x o hx ho
    obtain ⟨k, hk, rfl⟩ := List.mem_map.1 ho
    rw [hlayout]
    exact offset_lt_size nx ny x (1 + k) hx (by have := List.mem_range.1 hk; omega)
  have hrow : ∀ y0 o, y0 ≤ ny + 1 →
      o ∈ (List.range nx).map (fun i => elementOffset (1 + i) y0) →
      o < (nx + 2) * (ny + 2) := by
    intro y0 o hy ho
    obtain ⟨i, hi, rfl⟩ := List.mem_map.1 ho
    rw [hlayout]
    exact offset_lt_size nx ny (1 + i) y0 (by have := List.mem_range.1 hi; omega) hy
  refine ⟨sl, sr, rl, rr, row, row 1, row ny, row 0, row (ny + 1), ?_, ?_⟩
  · intro e o ho
    cases e
    · rcases ho with ho | ho
      · exact hcol 1 o (by omega) (sl ▸ ho)
      · exact hcol 0 o (by omega) (rl ▸ ho)
    · rcases ho with ho | ho
      · exact hcol nx o (by omega) (sr ▸ ho)
      · exact hcol (nx + 1) o (by omega) (rr ▸ ho)
    · rcases ho with ho | ho
      · exact hrow 1 o (by omega) (row 1 ▸ ho)
      · exact hrow 0 o (by omega) (row 0 ▸ ho)
    · rcases ho with ho | ho
      · exact hrow ny o (by omega) (row ny ▸ ho)
      · exact hrow (ny + 1) o (by omega) (row (ny + 1) ▸ ho)
  · intro x y x' y' hy hy' h
    rw [hlayout, hlayout] at h
    have hx : x = x' := by
      rcases Nat.lt_trichotomy x x' with hlt | heq | hgt
      · exfalso
        have h1 : (x + 1) * (ny + 2) ≤ x' * (ny + 2) := Nat.mul_le_mul_right _ hlt
        have h2 : (x + 1) * (ny + 2) = x * (ny + 2) + (ny + 2) := by ring
        omega
      · exact heq
      · exfalso
        have h1 : (x' + 1) * (ny + 2) ≤ x * (ny + 2) := Nat.mul_le_mul_right _ hgt
        have h2 : (x' + 1) * (ny + 2) = x' * (ny + 2) + (ny + 2) := by ring
        omega
    subst hx
    exact ⟨rfl, by omega⟩

/-- Instance of C21: a block of `2 × 3` cells, whose arrays of `4 × 5` floats
have the element `[x][y]` at offset `x * 5 + y`. -/
theorem ghost_transfer_offsets_witness :
    (∀ x y, (fun x y : Nat => x * 5 + y) x y = x * (3 + 2) + y) ∧
    setGhostLayerOffsets (fun x y => x * 5 + y) 2 3 .BND_LEFT = [6, 7, 8] ∧
    setGhostLayerOffsets (fun x y => x * 5 + y) 2 3 .BND_RIGHT = [11, 12, 13] ∧
    receiveGhostLayerOffsets (fun x y => x * 5 + y) 2 3 .BND_LEFT = [1, 2, 3] ∧
    receiveGhostLayerOffsets (fun x y => x * 5 + y) 2 3 .BND_RIGHT = [16, 17, 18] ∧
    setGhostLayerOffsets (fun x y => x * 5 + y) 2 3 .BND_BOTTOM = [6, 11] ∧
    setGhostLayerOffsets (fun x y => x * 5 + y) 2 3 .BND_TOP = [8, 13] ∧
    receiveGhostLayerOffsets (fun x y => x * 5 + y) 2 3 .BND_BOTTOM = [5, 10] ∧
    receiveGhostLayerOffsets (fun x y => x * 5 + y) 2 3 .BND_TOP = [9, 14] ∧
    (∀ e o, o ∈ setGhostLayerOffsets (fun x y => x * 5 + y) 2 3 e ∨
        o ∈ receiveGhostLayerOffsets (fun x y => x * 5 + y) 2 3 e →
      o < (2 + 2) * (3 + 2)) :=
  ⟨fun _ _ => rfl,
    (ghost_transfer_offsets (fun x y => x * 5 + y) 2 3 (fun _ _ => rfl)).1.trans rfl,
    (ghost_transfer_offsets (fun x y => x * 5 + y) 2 3 (fun _ _ => rfl)).2.1.trans rfl,
    (ghost_transfer_offsets (fun x y => x * 5 + y) 2 3 (fun _ _ => rfl)).2.2.1.trans rfl,
    (ghost_transfer_offsets (fun x y => x * 5 + y) 2 3 (fun _ _ => rfl)).2.2.2.1.trans rfl,
    (ghost_transfer_offsets (fun x y => x * 5 + y) 2 3
      (fun _ _ => rfl)).2.2.2.2.2.1.trans rfl,
    (ghost_transfer_offsets (fun x y => x * 5 + y) 2 3
      (fun _ _ => rfl)).2.2.2.2.2.2.1.trans rfl,
    (ghost_transfer_offsets (fun x y => x * 5 + y) 2 3
      (fun _ _ => rfl)).2.2.2.2.2.2.2.1.trans rfl,
    (ghost_transfer_offsets (fun x y => x * 5 + y) 2 3
      (fun _ _ => rfl)).2.2.2.2.2.2.2.2.1.trans rfl,
    (ghost_transfer_offsets (fun x y => x * 5 + y) 2 3
      (fun _ _ => rfl)).2.2.2.2.2.2.2.2.2.1⟩

/-! ### The array accesses of the sweeps and the update -/

/-- A loop that appends to a list appends the pieces of its iterations in
order. -/
theorem forLoop_append {β : Type} (f : Nat → List β) (lo hi : Nat) (init : List β) :
    forLoop lo hi (fun i acc => acc ++ f i) init
      = init ++ (List.range' lo (hi - lo)).flatMap f := by
  unfold forLoop
  generalize List.range' lo (hi - lo) = l
  induction l generalizing init with
  | nil => simp
  | cons i l ih => simp [List.foldl_cons, ih, List.flatMap_cons, List.append_assoc]

/-- Two nested loops that append to a list. -/
theorem forLoop2_append {β : Type} (g : Nat → Nat → List β) (lo hi lo' hi' : Nat) :
    forLoop lo hi (fun x => forLoop lo' hi' (fun y acc => acc ++ g x y)) []
      = (List.range' lo (hi - lo)).flatMap
          (fun x => (List.range' lo' (hi' - lo')).flatMap (g x)) := by
  have h : (fun x => forLoop lo' hi' (fun y acc => acc ++ g x y))
      = (fun x acc => acc ++ (List.range' lo' (hi' - lo')).flatMap (g x)) := by
    funext x acc
    exact forLoop_append (g x) lo' hi' acc
  rw [h, forLoop_append]
  simp

/-- The pieces that two nested appending loops collect. -/
theorem mem_forLoop2_append {β : Type} (g : Nat → Nat → List β) (lo hi lo' hi' : Nat)
    (a : β) :
    a ∈ forLoop lo hi (fun x => forLoop lo' hi' (fun y acc => acc ++ g x y)) [] ↔
      ∃ x y, lo ≤ x ∧ x < hi ∧ lo' ≤ y ∧ y < hi' ∧ a ∈ g x y := by
  rw [forLoop2_append]
  simp only [List.mem_flatMap, List.mem_range'_1]
  constructor
  · rintro ⟨x, ⟨hx1, hx2⟩, y, ⟨hy1, hy2⟩, ha⟩
    exact ⟨x, y, hx1, by omega, hy1, by omega, ha⟩
  · rintro ⟨x, y, hx1, hx2, hy1, hy2, ha⟩
    exact ⟨x, ⟨hx1, by omega⟩, y, ⟨hy1, by omega⟩, ha⟩

/-- Pieces without repetition, no element of which belongs to two pieces, make a
list without repetition. -/
theorem nodup_flatMap_of_owner {ι β : Type} (l : List ι) (w : ι → List β) (hl : l.Nodup)
    (hw : ∀ i ∈ l, (w i).Nodup)
    (hown : ∀ i ∈ l, ∀ j ∈ l, ∀ e, e ∈ w i → e ∈ w j → i = j) :
    (l.flatMap w).Nodup := by
  rw [List.nodup_flatMap]
  refine ⟨hw, hl.pairwise_of_forall_ne ?_⟩
  intro i hi j hj hne e hei hej
  exact hne (hown i hi j hj e hei hej)

/-- The entries written by two nested loops are written once each when the
iterations write entries of their own. -/
theorem writes_nodup {β γ : Type} (g : Nat → Nat → List β) (wr : List β → List γ)
    (hwr : ∀ (l : List Nat) (f : Nat → List β), wr (l.flatMap f) = l.flatMap (fun i => wr (f i)))
    (lo hi lo' hi' : Nat)
    (hw : ∀ x y, (wr (g x y)).Nodup)
    (hown : ∀ x y x' y' e, e ∈ wr (g x y) → e ∈ wr (g x' y') → x = x' ∧ y = y') :
    (wr (forLoop lo hi (fun x => forLoop lo' hi' (fun y acc => acc ++ g x y)) [])).Nodup := by
  rw [forLoop2_append, hwr]
  apply nodup_flatMap_of_owner _ _ (List.nodup_range' lo (hi - lo))
  · intro x _
    rw [hwr]
    apply nodup_flatMap_of_owner _ _ (List.nodup_range' lo' (hi' - lo'))
    · intro y _
      exact hw x y
    · intro y _ y' _ e he he'
      exact (hown x y x y' e he he').2
  · intro x _ x' _ e he he'
    rw [hwr] at he he'
    obtain ⟨y, _, hy⟩ := List.mem_flatMap.1 he
    obtain ⟨y', _, hy'⟩ := List.mem_flatMap.1 he'
    exact (hown x y x' y' e hy hy').1

/-- The written entries of a concatenation of pieces. -/
theorem writtenEntries_flatMap (l : List Nat) (f : Nat → List ArrayAccess) :
    writtenEntries (l.flatMap f) = l.flatMap (fun i => writtenEntries (f i)) := by
  simp only [writtenEntries, List.filter_flatMap, List.map_flatMap]

/-- C22: for every `nx` and `ny` (so for every `nx, ny ≥ 1`), every index
expression evaluated by the x-sweep, the computation of the intermediary
states, the y-sweep and the update loops of `updateUnknowns` lies within the
shape that the constructor gave the array: `0 ≤ x ≤ nx + 1`, `0 ≤ y ≤ ny + 1`
for the state arrays and the x-direction net-update arrays (shape
`(nx + 2) × (ny + 2)`), and `0 ≤ x ≤ nx`, `0 ≤ y ≤ ny + 1` for `hStar`,
`huStar` and the y-direction net-update arrays (shape `(nx + 1) × (ny + 2)`);
and within the x-sweep, and within the y-sweep, no entry of a net-update array
is written twice: two edge evaluations that write the same entry of the same
array are the same edge, and the list of all entries written by the sweep has
no repetition. -/
theorem sweep_accesses_in_shape (nx ny : Nat) :
    (∀ a, (a ∈ xSweepAccesses nx ny ∨ a ∈ intermediateStatesAccesses nx ny ∨
          a ∈ ySweepAccesses nx ny ∨ a ∈ updateLoopsAccesses nx ny) →
      a.x < (allocatedShape nx ny a.array).1 ∧ a.y < (allocatedShape nx ny a.array).2) ∧
    (∀ a, (a ∈ xSweepAccesses nx ny ∨ a ∈ intermediateStatesAccesses nx ny ∨
          a ∈ ySweepAccesses nx ny ∨ a ∈ updateLoopsAccesses nx ny) →
      (a.array ∈ [BlockArray.h, .hu, .hv, .b, .hNetUpdatesLeft, .hNetUpdatesRight,
          .huNetUpdatesLeft, .huNetUpdatesRight] → a.x ≤ nx + 1 ∧ a.y ≤ ny + 1) ∧
      (a.array ∈ [BlockArray.hStar, .huStar, .hNetUpdatesBelow, .hNetUpdatesAbove,
          .hvNetUpdatesBelow, .hvNetUpdatesAbove] → a.x ≤ nx ∧ a.y ≤ ny + 1)) ∧
    (∀ x y x' y' e, e ∈ writtenEntries (horizontalEdgeAccesses x y) →
      e ∈ writtenEntries (horizontalEdgeAccesses x' y') → x = x' ∧ y = y') ∧
    (∀ x y x' y' e, e ∈ writtenEntries (verticalEdgeAccesses x y) →
      e ∈ writtenEntries (verticalEdgeAccesses x' y') → x = x' ∧ y = y') ∧
    (writtenEntries (xSweepAccesses nx ny)).Nodup ∧
    (writtenEntries (ySweepAccesses nx ny)).Nodup := by
  have hshape : ∀ a, (a ∈ xSweepAccesses nx ny ∨ a ∈ intermediateStatesAccesses nx ny ∨
        a ∈ ySweepAccesses nx ny ∨ a ∈ updateLoopsAccesses nx ny) →
      a.x < (allocatedShape nx ny a.array).1 ∧ a.y < (allocatedShape nx ny a.array).2 := by
    intro a ha
    rcases ha with ha | ha | ha | ha
    · obtain ⟨x, y, hx1, hx2, hy1, hy2, hm⟩ := (mem_forLoop2_append _ _ _ _ _ a).1 ha
      simp only [horizontalEdgeAccesses, List.mem_cons, List.mem_singleton,
        List.mem_nil_iff, or_false] at hm
      rcases hm with rfl | rfl | rfl | rfl | rfl | rfl | rfl | rfl | rfl | rfl <;>
        simp only [allocatedShape] <;> omega
    · obtain ⟨x, y, hx1, hx2, hy1, hy2, hm⟩ := (mem_forLoop2_append _ _ _ _ _ a).1 ha
      simp only [intermediateCellAccesses, List.mem_cons, List.mem_singleton,
        List.mem_nil_iff, or_false] at hm
      rcases hm with rfl | rfl | rfl | rfl | rfl | rfl | rfl | rfl <;>
        simp only [allocatedShape] <;> omega
    · obtain ⟨x, y, hx1, hx2, hy1, hy2, hm⟩ := (mem_forLoop2_append _ _ _ _ _ a).1 ha
      simp only [verticalEdgeAccesses, List.mem_cons, List.mem_singleton,
        List.mem_nil_iff, or_false] at hm
      rcases hm with rfl | rfl | rfl | rfl | rfl | rfl | rfl | rfl | rfl | rfl <;>
        simp only [allocatedShape] <;> omega
    · obtain ⟨x, y, hx1, hx2, hy1, hy2, hm⟩ := (mem_forLoop2_append _ _ _ _ _ a).1 ha
      simp only [updateCellAccesses, List.mem_cons, List.mem_singleton,
        List.mem_nil_iff, or_false] at hm
      rcases hm with rfl | rfl | rfl | rfl | rfl | rfl | rfl | rfl | rfl | rfl <;>
        simp only [allocatedShape] <;> omega
  have hownH : ∀ x y x' y' e, e ∈ writtenEntries (horizontalEdgeAccesses x y) →
      e ∈ writtenEntries (horizontalEdgeAccesses x' y') → x = x' ∧ y = y' := by
    intro x y x' y' e he he'
    simp only [writtenEntries, horizontalEdgeAccesses, List.filter, List.map,
      List.mem_cons, List.mem_singleton, List.mem_nil_iff, or_false] at he he'
    rcases he with rfl | rfl | rfl | rfl <;>
      simp only [Prod.mk.injEq, false_and, and_false, true_and, false_or, or_false,
        reduceCtorEq] at he' <;> omega
  have hownV : ∀ x y x' y' e, e ∈ writtenEntries (verticalEdgeAccesses x y) →
      e ∈ writtenEntries (verticalEdgeAccesses x' y') → x = x' ∧ y = y' := by
    intro x y x' y' e he he'
    simp only [writtenEntries, verticalEdgeAccesses, List.filter, List.map,
      List.mem_cons, List.mem_singleton, List.mem_nil_iff, or_false] at he he'
    rcases he with rfl | rfl | rfl | rfl <;>
      simp only [Prod.mk.injEq, false_and, and_false, true_and, false_or, or_false,
        reduceCtorEq] at he' <;> omega
  refine ⟨hshape, ?_, hownH, hownV, ?_, ?_⟩
  · intro a ha
    have h := hshape a ha
    constructor
    · intro hm
      simp only [List.mem_cons, List.mem_singleton, List.mem_nil_iff, or_false] at hm
      rcases hm with hm | hm | hm | hm | hm | hm | hm | hm <;>
        rw [hm] at h <;> simp only [allocatedShape] at h <;> omega
    · intro hm
      simp only [List.mem_cons, List.mem_singleton, List.mem_nil_iff, or_false] at hm
      rcases hm with hm | hm | hm | hm | hm | hm <;>
        rw [hm] at h <;> simp only [allocatedShape] at h <;> omega
  · exact writes_nodup horizontalEdgeAccesses writtenEntries writtenEntries_flatMap
      0 (nx + 1) 0 (ny + 2)
      (fun x y => by
        simp [writtenEntries, horizontalEdgeAccesses, List.filter, List.map])
      hownH
  · exact writes_nodup verticalEdgeAccesses writtenEntries writtenEntries_flatMap
      1 (nx + 1) 0 (ny + 1)
      (fun x y => by
        simp [writtenEntries, verticalEdgeAccesses, List.filter, List.map])
      hownV

/-- Instance of C22: a block of `1 × 1` cells; the last edge of the x-sweep
writes `hNetUpdatesRight[2][2]` and the last edge of the y-sweep writes
`hNetUpdatesAbove[1][2]`, both inside the allocated shapes `3 × 3` and
`2 × 3`. -/
theorem sweep_accesses_in_shape_witness :
    (⟨.hNetUpdatesRight, 2, 2, true⟩ : ArrayAccess) ∈ xSweepAccesses 1 1 ∧
    (2 < (allocatedShape 1 1 .hNetUpdatesRight).1 ∧
      2 < (allocatedShape 1 1 .hNetUpdatesRight).2) ∧
    (⟨.hNetUpdatesAbove, 1, 2, true⟩ : ArrayAccess) ∈ ySweepAccesses 1 1 ∧
    (1 < (allocatedShape 1 1 .hNetUpdatesAbove).1 ∧
      2 < (allocatedShape 1 1 .hNetUpdatesAbove).2) ∧
    (writtenEntries (xSweepAccesses 1 1)).Nodup ∧
    (writtenEntries (ySweepAccesses 1 1)).Nodup :=
  ⟨by decide,
    (sweep_accesses_in_shape 1 1).1 ⟨.hNetUpdatesRight, 2, 2, true⟩ (Or.inl (by decide)),
    by decide,
    (sweep_accesses_in_shape 1 1).1 ⟨.hNetUpdatesAbove, 1, 2, true⟩
      (Or.inr (Or.inr (Or.inl (by decide)))),
    (sweep_accesses_in_shape 1 1).2.2.2.2.1,
    (sweep_accesses_in_shape 1 1).2.2.2.2.2⟩

/-! ### The iterations and the timestep in binary32 -/

/-- The absolute value of zero. -/
theorem fabs_zero_binary32 : fabs (0 : Binary32) = 0 := by
  unfold fabs
  rw [if_neg]
  rw [Binary32.lt_val]
  show ¬ XReal.num 0 < XReal.num 0
  rw [XReal.num_lt]
  exact lt_irrefl _

/-- One full iteration with the ghost layers in sync returns, and leaves `h`,
`hu`, `hv` as they were, when at every interior cell the corrections of the
intermediary states and of the update leave the value they are subtracted from
as it is, and the timestep passes the assertion of `updateUnknowns`. -/
theorem fullIteration_unchanged [Zero α] [Add α] [Sub α] [Mul α] [Div α] [Neg α] [LT α]
    [DecidableRel (fun a b : α => a < b)] [OfScientific α] (NDEBUG : Bool)
    (allGhostlayersInSync : SWE_DimensionalSplittingChameleon α → Bool)
    (getRoundTimestep : SWE_DimensionalSplittingChameleon α → α → α)
    (solver : Solver α) (blk : SWE_DimensionalSplittingChameleon α)
    (hsync : ∀ b, allGhostlayersInSync b = true)
    (hX : ∀ x y, 1 ≤ x → x ≤ blk.nx → 1 ≤ y → y ≤ blk.ny →
      blk.h x y
          - ((computeNumericalFluxesHorizontal allGhostlayersInSync getRoundTimestep solver
                blk).maxTimestep / blk.dx)
            * ((xSweep solver blk).1.hNetUpdatesLeft x y
                + (xSweep solver blk).1.hNetUpdatesRight x y)
        = blk.h x y ∧
      blk.hu x y
          - ((computeNumericalFluxesHorizontal allGhostlayersInSync getRoundTimestep solver
                blk).maxTimestep / blk.dx)
            * ((xSweep solver blk).1.huNetUpdatesLeft x y
                + (xSweep solver blk).1.huNetUpdatesRight x y)
        = blk.hu x y)
    (hY : ∀ x y, 1 ≤ x → x ≤ blk.nx → 1 ≤ y → y ≤ blk.ny →
      blk.h x y
          - ((computeNumericalFluxesHorizontal allGhostlayersInSync getRoundTimestep solver
                blk).maxTimestep / blk.dx)
            * ((computeNumericalFluxesVertical allGhostlayersInSync solver
                  (computeNumericalFluxesHorizontal allGhostlayersInSync getRoundTimestep
                    solver blk)).hNetUpdatesBelow x y
                + (computeNumericalFluxesVertical allGhostlayersInSync solver
                  (computeNumericalFluxesHorizontal allGhostlayersInSync getRoundTimestep
                    solver blk)).hNetUpdatesAbove x y)
        = blk.h x y ∧
      blk.hv x y
          - ((computeNumericalFluxesHorizontal allGhostlayersInSync getRoundTimestep solver
                blk).maxTimestep / blk.dx)
            * ((computeNumericalFluxesVertical allGhostlayersInSync solver
                  (computeNumericalFluxesHorizontal allGhostlayersInSync getRoundTimestep
                    solver blk)).hvNetUpdatesBelow x y
                + (computeNumericalFluxesVertical allGhostlayersInSync solver
                  (computeNumericalFluxesHorizontal allGhostlayersInSync getRoundTimestep
                    solver blk)).hvNetUpdatesAbove x y)
        = blk.hv x y)
    (hassert : NDEBUG = true ∨
      fabs ((computeNumericalFluxesHorizontal allGhostlayersInSync getRoundTimestep solver
            blk).maxTimestep
          - (computeNumericalFluxesHorizontal allGhostlayersInSync getRoundTimestep solver
            blk).maxTimestep) < 0.00001) :
    ∃ blk', fullIteration NDEBUG allGhostlayersInSync getRoundTimestep solver blk
        = Run.returned blk' ∧
      blk'.h = blk.h ∧ blk'.hu = blk.hu ∧ blk'.hv = blk.hv ∧ blk'.b = blk.b ∧
      blk'.nx = blk.nx ∧ blk'.ny = blk.ny ∧ blk'.dx = blk.dx ∧
      blk'.localTimestepping = blk.localTimestepping := by
  have p1 : ∀ {β : Type} (f : SWE_DimensionalSplittingChameleon α → β),
      (∀ b t, f (setMaxTimestep b t) = f b) →
      f (computeNumericalFluxesHorizontal allGhostlayersInSync getRoundTimestep solver blk)
        = f (xSweep solver blk).1 := fun f hf =>
    computeNumericalFluxesHorizontal_preserves f hf allGhostlayersInSync getRoundTimestep
      solver blk (hsync blk)
  generalize hb1 :
    computeNumericalFluxesHorizontal allGhostlayersInSync getRoundTimestep solver blk = b1
    at p1 hX hY hassert
  have b1h : b1.h = blk.h := (p1 (fun b => b.h) (fun _ _ => rfl)).trans
    (xSweep_preserves (fun b => b.h) solver (fun _ _ _ => rfl) blk)
  have b1hu : b1.hu = blk.hu := (p1 (fun b => b.hu) (fun _ _ => rfl)).trans
    (xSweep_preserves (fun b => b.hu) solver (fun _ _ _ => rfl) blk)
  have b1hv : b1.hv = blk.hv := (p1 (fun b => b.hv) (fun _ _ => rfl)).trans
    (xSweep_preserves (fun b => b.hv) solver (fun _ _ _ => rfl) blk)
  have b1b : b1.b = blk.b := (p1 (fun b => b.b) (fun _ _ => rfl)).trans
    (xSweep_preserves (fun b => b.b) solver (fun _ _ _ => rfl) blk)
  have b1nx : b1.nx = blk.nx := (p1 (fun b => b.nx) (fun _ _ => rfl)).trans
    (xSweep_preserves (fun b => b.nx) solver (fun _ _ _ => rfl) blk)
  have b1ny : b1.ny = blk.ny := (p1 (fun b => b.ny) (fun _ _ => rfl)).trans
    (xSweep_preserves (fun b => b.ny) solver (fun _ _ _ => rfl) blk)
  have b1dx : b1.dx = blk.dx := (p1 (fun b => b.dx) (fun _ _ => rfl)).trans
    (xSweep_preserves (fun b => b.dx) solver (fun _ _ _ => rfl) blk)
  have b1lt : b1.localTimestepping = blk.localTimestepping :=
    (p1 (fun b => b.localTimestepping) (fun _ _ => rfl)).trans
      (xSweep_preserves (fun b => b.localTimestepping) solver (fun _ _ _ => rfl) blk)
  have b1L : b1.hNetUpdatesLeft = (xSweep solver blk).1.hNetUpdatesLeft :=
    p1 (fun b => b.hNetUpdatesLeft) (fun _ _ => rfl)
  have b1R : b1.hNetUpdatesRight = (xSweep solver blk).1.hNetUpdatesRight :=
    p1 (fun b => b.hNetUpdatesRight) (fun _ _ => rfl)
  have b1uL : b1.huNetUpdatesLeft = (xSweep solver blk).1.huNetUpdatesLeft :=
    p1 (fun b => b.huNetUpdatesLeft) (fun _ _ => rfl)
  have b1uR : b1.huNetUpdatesRight = (xSweep solver blk).1.huNetUpdatesRight :=
    p1 (fun b => b.huNetUpdatesRight) (fun _ _ => rfl)
  have hrun2 := computeNumericalFluxesVertical_of_sync allGhostlayersInSync solver b1 (hsync b1)
  have q : ∀ {β : Type} (f : SWE_DimensionalSplittingChameleon α → β),
      (∀ x y st, f (verticalEdge solver x y st).1 = f st.1) →
      (∀ x y b, f (intermediateCell x y b) = f b) →
      f (computeNumericalFluxesVertical allGhostlayersInSync solver b1) = f b1 := by
    intro β f hf1 hf2
    rw [hrun2, ySweep_preserves f solver hf1, intermediateStates_preserves f hf2]
  have hstar : ∀ x y, 1 ≤ x → x ≤ blk.nx → 1 ≤ y → y ≤ blk.ny →
      (computeNumericalFluxesVertical allGhostlayersInSync solver b1).hStar x y = blk.h x y ∧
      (computeNumericalFluxesVertical allGhostlayersInSync solver b1).huStar x y
        = blk.hu x y := by
    intro x y hx1 hx2 hy1 hy2
    have hmem : (x, y) ∈ Finset.Ico 1 (b1.nx + 1) ×ˢ Finset.Ico 0 (b1.ny + 2) := by
      simp only [Finset.mem_product, Finset.mem_Ico]; omega
    rw [hrun2, ySweep_preserves (fun b => b.hStar) solver (fun _ _ _ => rfl),
      ySweep_preserves (fun b => b.huStar) solver (fun _ _ _ => rfl), intermediateStates_eq]
    simp only [hmem, if_true, b1h, b1hu, b1dx, b1L, b1R, b1uL, b1uR]
    exact hX x y hx1 hx2 hy1 hy2
  generalize hb2 : computeNumericalFluxesVertical allGhostlayersInSync solver b1 = b2
    at q hstar hY
  have b2h : b2.h = blk.h := (q (fun b => b.h) (fun _ _ _ => rfl) (fun _ _ _ => rfl)).trans b1h
  have b2hu : b2.hu = blk.hu :=
    (q (fun b => b.hu) (fun _ _ _ => rfl) (fun _ _ _ => rfl)).trans b1hu
  have b2hv : b2.hv = blk.hv :=
    (q (fun b => b.hv) (fun _ _ _ => rfl) (fun _ _ _ => rfl)).trans b1hv
  have b2b : b2.b = blk.b := (q (fun b => b.b) (fun _ _ _ => rfl) (fun _ _ _ => rfl)).trans b1b
  have b2nx : b2.nx = blk.nx :=
    (q (fun b => b.nx) (fun _ _ _ => rfl) (fun _ _ _ => rfl)).trans b1nx
  have b2ny : b2.ny = blk.ny :=
    (q (fun b => b.ny) (fun _ _ _ => rfl) (fun _ _ _ => rfl)).trans b1ny
  have b2dx : b2.dx = blk.dx :=
    (q (fun b => b.dx) (fun _ _ _ => rfl) (fun _ _ _ => rfl)).trans b1dx
  have b2lt : b2.localTimestepping = blk.localTimestepping :=
    (q (fun b => b.localTimestepping) (fun _ _ _ => rfl) (fun _ _ _ => rfl)).trans b1lt
  have b2mt : b2.maxTimestep = b1.maxTimestep :=
    q (fun b => b.maxTimestep) (fun _ _ _ => rfl) (fun _ _ _ => rfl)
  have hupd : fullIteration NDEBUG allGhostlayersInSync getRoundTimestep solver blk
      = Run.returned (updateLoops b2) := by
    simp only [fullIteration, hb1, hb2]
    rcases hassert with hn | ha
    · simp [updateUnknowns, hsync b2, hn]
    · have : timestepAssertion b2 b2.maxTimestep = true := by
        unfold timestepAssertion
        rw [b2mt]
        exact decide_eq_true ha
      simp [updateUnknowns, hsync b2, this]
  refine ⟨updateLoops b2, hupd, ?_, ?_, ?_, ?_, ?_, ?_, ?_, ?_⟩
  · rw [updateLoops_eq]
    funext x y
    show (if (x, y) ∈ Finset.Ico 1 (b2.nx + 1) ×ˢ Finset.Ico 1 (b2.ny + 1) then _ else _)
      = blk.h x y
    split
    · next hmem =>
      simp only [Finset.mem_product, Finset.mem_Ico, b2nx, b2ny] at hmem
      rw [(hstar x y (by omega) (by omega) (by omega) (by omega)).1, b2mt, b2dx]
      exact (hY x y (by omega) (by omega) (by omega) (by omega)).1
    · rw [b2h]
  · rw [updateLoops_eq]
    funext x y
    show (if (x, y) ∈ Finset.Ico 1 (b2.nx + 1) ×ˢ Finset.Ico 1 (b2.ny + 1) then _ else _)
      = blk.hu x y
    split
    · next hmem =>
      simp only [Finset.mem_product, Finset.mem_Ico, b2nx, b2ny] at hmem
      exact (hstar x y (by omega) (by omega) (by omega) (by omega)).2
    · rw [b2hu]
  · rw [updateLoops_eq]
    funext x y
    show (if (x, y) ∈ Finset.Ico 1 (b2.nx + 1) ×ˢ Finset.Ico 1 (b2.ny + 1) then _ else _)
      = blk.hv x y
    split
    · next hmem =>
      simp only [Finset.mem_product, Finset.mem_Ico, b2nx, b2ny] at hmem
      rw [b2hv, b2mt, b2dx]
      exact (hY x y (by omega) (by omega) (by omega) (by omega)).2
    · rw [b2hv]
  · rw [updateLoops_eq]; exact b2b
  · rw [updateLoops_eq]; exact b2nx
  · rw [updateLoops_eq]; exact b2ny
  · rw [updateLoops_eq]; exact b2dx
  · rw [updateLoops_eq]; exact b2lt


/-- On a lake at rest, with a well-balanced flux operator and the ghost layers in
sync, both sweeps leave zero net updates at every interior cell. -/
theorem lakeAtRest_netUpdates [Zero α] [Add α] [Sub α] [Mul α] [Div α] [LT α]
    [OfScientific α]
    (allGhostlayersInSync : SWE_DimensionalSplittingChameleon α → Bool)
    (getRoundTimestep : SWE_DimensionalSplittingChameleon α → α → α)
    (solver : Solver α) (c : α) (blk : SWE_DimensionalSplittingChameleon α)
    (hsync : ∀ b, allGhostlayersInSync b = true)
    (hsolver : WellBalanced solver) (hlake : LakeAtRest c blk) :
    ∀ x y, 1 ≤ x → x ≤ blk.nx → 1 ≤ y → y ≤ blk.ny →
      ((xSweep solver blk).1.hNetUpdatesLeft x y = 0 ∧
        (xSweep solver blk).1.hNetUpdatesRight x y = 0 ∧
        (xSweep solver blk).1.huNetUpdatesLeft x y = 0 ∧
        (xSweep solver blk).1.huNetUpdatesRight x y = 0) ∧
      ((computeNumericalFluxesVertical allGhostlayersInSync solver
          (computeNumericalFluxesHorizontal allGhostlayersInSync getRoundTimestep solver
            blk)).hNetUpdatesBelow x y = 0 ∧
        (computeNumericalFluxesVertical allGhostlayersInSync solver
          (computeNumericalFluxesHorizontal allGhostlayersInSync getRoundTimestep solver
            blk)).hNetUpdatesAbove x y = 0 ∧
        (computeNumericalFluxesVertical allGhostlayersInSync solver
          (computeNumericalFluxesHorizontal allGhostlayersInSync getRoundTimestep solver
            blk)).hvNetUpdatesBelow x y = 0 ∧
        (computeNumericalFluxesVertical allGhostlayersInSync solver
          (computeNumericalFluxesHorizontal allGhostlayersInSync getRoundTimestep solver
            blk)).hvNetUpdatesAbove x y = 0) := by
  have hx := xSweep_lakeAtRest solver c blk hsolver hlake
  have p1 : ∀ {β : Type} (f : SWE_DimensionalSplittingChameleon α → β),
      (∀ b t, f (setMaxTimestep b t) = f b) →
      f (computeNumericalFluxesHorizontal allGhostlayersInSync getRoundTimestep solver blk)
        = f (xSweep solver blk).1 := fun f hf =>
    computeNumericalFluxesHorizontal_preserves f hf allGhostlayersInSync getRoundTimestep
      solver blk (hsync blk)
  generalize hb1 :
    computeNumericalFluxesHorizontal allGhostlayersInSync getRoundTimestep solver blk = b1
    at p1
  have b1h : b1.h = blk.h := (p1 (fun b => b.h) (fun _ _ => rfl)).trans
    (xSweep_preserves (fun b => b.h) solver (fun _ _ _ => rfl) blk)
  have b1hu : b1.hu = blk.hu := (p1 (fun b => b.hu) (fun _ _ => rfl)).trans
    (xSweep_preserves (fun b => b.hu) solver (fun _ _ _ => rfl) blk)
  have b1hv : b1.hv = blk.hv := (p1 (fun b => b.hv) (fun _ _ => rfl)).trans
    (xSweep_preserves (fun b => b.hv) solver (fun _ _ _ => rfl) blk)
  have b1b : b1.b = blk.b := (p1 (fun b => b.b) (fun _ _ => rfl)).trans
    (xSweep_preserves (fun b => b.b) solver (fun _ _ _ => rfl) blk)
  have b1nx : b1.nx = blk.nx := (p1 (fun b => b.nx) (fun _ _ => rfl)).trans
    (xSweep_preserves (fun b => b.nx) solver (fun _ _ _ => rfl) blk)
  have b1ny : b1.ny = blk.ny := (p1 (fun b => b.ny) (fun _ _ => rfl)).trans
    (xSweep_preserves (fun b => b.ny) solver (fun _ _ _ => rfl) blk)
  have hrun2 := computeNumericalFluxesVertical_of_sync allGhostlayersInSync solver b1 (hsync b1)
  have hlake1 : LakeAtRest c (intermediateStates b1) := by
    intro x y hx' hy'
    rw [intermediateStates_preserves (fun b => b.nx) (fun _ _ _ => rfl), b1nx] at hx'
    rw [intermediateStates_preserves (fun b => b.ny) (fun _ _ _ => rfl), b1ny] at hy'
    rw [intermediateStates_preserves (fun b => b.hu) (fun _ _ _ => rfl),
      intermediateStates_preserves (fun b => b.hv) (fun _ _ _ => rfl),
      intermediateStates_preserves (fun b => b.b) (fun _ _ _ => rfl),
      intermediateStates_preserves (fun b => b.h) (fun _ _ _ => rfl), b1h, b1hu, b1hv, b1b]
    exact hlake x y hx' hy'
  have hy := ySweep_lakeAtRest solver c (intermediateStates b1) hsolver hlake1
  rw [intermediateStates_preserves (fun b => b.nx) (fun _ _ _ => rfl),
    intermediateStates_preserves (fun b => b.ny) (fun _ _ _ => rfl), b1nx, b1ny, ← hrun2] at hy
  intro x y hx1 hx2 hy1 hy2
  constructor
  · obtain ⟨z1, _, z3, _⟩ := hx.1 x y (by omega) (by omega)
    obtain ⟨_, z2, _, z4⟩ := hx.1 (x - 1) y (by omega) (by omega)
    have e : x - 1 + 1 = x := by omega
    rw [e] at z2 z4
    exact ⟨z1, z2, z3, z4⟩
  · obtain ⟨z1, _, z3, _⟩ := hy x y hx1 hx2 hy2
    obtain ⟨_, z2, _, z4⟩ := hy x (y - 1) hx1 hx2 (by omega)
    have e : y - 1 + 1 = y := by omega
    rw [e] at z2 z4
    exact ⟨z1, z2, z3, z4⟩

/-- The run of `computeNumericalFluxesHorizontal` on a block in sync: the x-sweep
loops in source order, then the statements that set the timestep. -/
theorem computeNumericalFluxesHorizontal_eq_horizontalTimestep [Zero α] [Mul α] [Div α]
    [OfScientific α]
    (allGhostlayersInSync : SWE_DimensionalSplittingChameleon α → Bool)
    (getRoundTimestep : SWE_DimensionalSplittingChameleon α → α → α)
    (solver : Solver α) (blk : SWE_DimensionalSplittingChameleon α)
    (hsync : allGhostlayersInSync blk = true) :
    computeNumericalFluxesHorizontal allGhostlayersInSync getRoundTimestep solver blk
      = horizontalTimestep getRoundTimestep (xSweep solver blk).1 (xSweep solver blk).2 := by
  simp only [computeNumericalFluxesHorizontal, horizontalTimestep, hsync, Bool.not_true,
    Bool.false_eq_true, ↓reduceIte]

/-- The kernel stores the timestep of the same statement under global
timestepping. -/
theorem computeNumericalFluxesHorizontalKernel_eq_horizontalTimestep [Zero α] [Mul α] [Div α]
    [OfScientific α]
    (getRoundTimestep : SWE_DimensionalSplittingChameleon α → α → α)
    (solver : Solver α) (blk : SWE_DimensionalSplittingChameleon α)
    (hl : blk.localTimestepping = false) :
    (computeNumericalFluxesHorizontalKernel solver blk).1
      = horizontalTimestep getRoundTimestep (xSweep solver blk).1 (xSweep solver blk).2 ∧
    (computeNumericalFluxesHorizontalKernel solver blk).2
      = (horizontalTimestep getRoundTimestep (xSweep solver blk).1
          (xSweep solver blk).2).maxTimestep := by
  have hlt : (xSweep solver blk).1.localTimestepping = false :=
    (xSweep_preserves (fun b => b.localTimestepping) solver (fun _ _ _ => rfl) blk).trans hl
  simp only [computeNumericalFluxesHorizontalKernel, horizontalTimestep, hlt,
    Bool.false_eq_true, ↓reduceIte, and_self]

/-- The wave speed that the x-sweep loops, run in source order, leave for a flux
operator that reports the same speed on every edge. -/
theorem xSweep_constant_speed [Zero α] (solver : Solver α) (s : α)
    (hs : ∀ hL hR huL huR bL bR w, (solver hL hR huL huR bL bR w).maxWaveSpeed = s)
    (blk : SWE_DimensionalSplittingChameleon α) :
    (xSweep solver blk).2 = s := by
  have inner : ∀ x (st : SWE_DimensionalSplittingChameleon α × α),
      (forLoop 0 (blk.ny + 2) (fun y => horizontalEdge solver x y) st).2 = s := by
    intro x st
    have := forLoop_invariant
      (fun i (t : SWE_DimensionalSplittingChameleon α × α) => 0 < i → t.2 = s)
      (fun y => horizontalEdge solver x y) (blk.ny + 2)
      (fun i t _ _ _ => hs _ _ _ _ _ _ _) (blk.ny + 2) 0 st rfl (by omega)
      (fun h => absurd h (lt_irrefl 0))
    exact this (by omega)
  have outer := forLoop_invariant
    (fun i (t : SWE_DimensionalSplittingChameleon α × α) => 0 < i → t.2 = s)
    (fun x => forLoop 0 (blk.ny + 2) (fun y => horizontalEdge solver x y)) (blk.nx + 1)
    (fun i t _ _ _ => inner i t) (blk.nx + 1) 0 (blk, 0) rfl (by omega)
    (fun h => absurd h (lt_irrefl 0))
  exact outer (by omega)

/-- One full iteration on a lake at rest in binary32 arithmetic, with a
well-balanced flux operator and the ghost layers in sync, returns and leaves
`h`, `hu`, `hv` as they were when the quotient `maxTimestep / dx` is finite. -/
theorem fullIteration_lakeAtRest_binary32 (NDEBUG : Bool)
    (allGhostlayersInSync : SWE_DimensionalSplittingChameleon Binary32 → Bool)
    (getRoundTimestep : SWE_DimensionalSplittingChameleon Binary32 → Binary32 → Binary32)
    (solver : Solver Binary32) (c : Binary32) (blk : SWE_DimensionalSplittingChameleon Binary32)
    (hsync : ∀ b, allGhostlayersInSync b = true)
    (hsolver : WellBalanced solver) (hlake : LakeAtRest c blk)
    (hvalue : ∀ x y, (blk.h x y).IsValue)
    (hfin : ((computeNumericalFluxesHorizontal allGhostlayersInSync getRoundTimestep solver
      blk).maxTimestep / blk.dx).isFinite = true) :
    ∃ blk', fullIteration NDEBUG allGhostlayersInSync getRoundTimestep solver blk
        = Run.returned blk' ∧
      blk'.h = blk.h ∧ blk'.hu = blk.hu ∧ blk'.hv = blk.hv ∧ blk'.b = blk.b ∧
      blk'.nx = blk.nx ∧ blk'.ny = blk.ny ∧ blk'.dx = blk.dx ∧
      blk'.localTimestepping = blk.localTimestepping := by
  have hz := lakeAtRest_netUpdates allGhostlayersInSync getRoundTimestep solver c blk hsync
    hsolver hlake
  apply fullIteration_unchanged NDEBUG allGhostlayersInSync getRoundTimestep solver blk hsync
  · intro x y hx1 hx2 hy1 hy2
    obtain ⟨⟨z1, z2, z3, z4⟩, _⟩ := hz x y hx1 hx2 hy1 hy2
    obtain ⟨hu0, _, _, _⟩ := hlake x y (by omega) (by omega)
    rw [z1, z2, z3, z4, Binary32.zero_add_zero, Binary32.mul_zero_of_isFinite _ hfin,
      Binary32.sub_zero_of_isValue _ (hvalue x y), hu0,
      Binary32.sub_zero_of_isValue _ Binary32.isValue_zero]
    exact ⟨rfl, rfl⟩
  · intro x y hx1 hx2 hy1 hy2
    obtain ⟨_, z1, z2, z3, z4⟩ := hz x y hx1 hx2 hy1 hy2
    obtain ⟨_, hv0, _, _⟩ := hlake x y (by omega) (by omega)
    rw [z1, z2, z3, z4, Binary32.zero_add_zero, Binary32.mul_zero_of_isFinite _ hfin,
      Binary32.sub_zero_of_isValue _ (hvalue x y), hv0,
      Binary32.sub_zero_of_isValue _ Binary32.isValue_zero]
    exact ⟨rfl, rfl⟩
  · right
    rw [Binary32.sub_self_of_isFinite _ (Binary32.isFinite_of_div _ _ hfin),
      fabs_zero_binary32]
    exact Binary32.zero_lt_tolerance

/-- C18, amended: lake at rest is preserved in binary32 arithmetic as long as the
timestep stays finite.  For a flux operator that returns zero net updates and a
positive wave speed whenever both sides have zero momentum, equal surface level
`b + h` and `h > 0`, and a block state, ghost ring included, with zero `hu` and
`hv`, constant `b + h`, `h > 0` and entries of `h` that are `float` values (ghost
layers in sync): if the quotient
`maxTimestep / dx` of the timestep that the x-sweep stores is finite, one full
iteration (x-sweep, y-sweep, `updateUnknowns` with `dt = maxTimestep`) returns
and leaves `h`, `hu`, `hv` at every cell equal to their initial values; and so
does, at every interior cell, any number of iterations whose ghost refresh
preserves the lake-at-rest state and the interior cells, if that quotient is
finite for every lake-at-rest state of the block. -/
theorem lake_at_rest_preserved (NDEBUG : Bool)
    (allGhostlayersInSync : SWE_DimensionalSplittingChameleon Binary32 → Bool)
    (getRoundTimestep : SWE_DimensionalSplittingChameleon Binary32 → Binary32 → Binary32)
    (solver : Solver Binary32)
    (refreshGhosts : SWE_DimensionalSplittingChameleon Binary32 →
      SWE_DimensionalSplittingChameleon Binary32)
    (c : Binary32) (blk : SWE_DimensionalSplittingChameleon Binary32) (n : Nat)
    (hsync : ∀ b, allGhostlayersInSync b = true)
    (hsolver : WellBalanced solver) (hlake : LakeAtRest c blk)
    (hvalue : ∀ x y, (blk.h x y).IsValue)
    (hfin : ∀ b, LakeAtRest c b → b.nx = blk.nx → b.ny = blk.ny → b.dx = blk.dx →
      ((computeNumericalFluxesHorizontal allGhostlayersInSync getRoundTimestep solver
        b).maxTimestep / b.dx).isFinite = true)
    (hrefresh : ∀ b, LakeAtRest c b → (∀ x y, (b.h x y).IsValue) →
      LakeAtRest c (refreshGhosts b) ∧ (∀ x y, ((refreshGhosts b).h x y).IsValue) ∧
      (refreshGhosts b).nx = b.nx ∧ (refreshGhosts b).ny = b.ny ∧
      (refreshGhosts b).dx = b.dx ∧
      ∀ x y, 1 ≤ x → x ≤ b.nx → 1 ≤ y → y ≤ b.ny →
        (refreshGhosts b).h x y = b.h x y ∧ (refreshGhosts b).hu x y = b.hu x y ∧
        (refreshGhosts b).hv x y = b.hv x y) :
    (∃ blk', fullIteration NDEBUG allGhostlayersInSync getRoundTimestep solver blk
        = Run.returned blk' ∧
      blk'.h = blk.h ∧ blk'.hu = blk.hu ∧ blk'.hv = blk.hv) ∧
    (∃ blk', iterations NDEBUG allGhostlayersInSync getRoundTimestep solver refreshGhosts n blk
        = Run.returned blk' ∧ LakeAtRest c blk' ∧
      ∀ x y, 1 ≤ x → x ≤ blk.nx → 1 ≤ y → y ≤ blk.ny →
        blk'.h x y = blk.h x y ∧ blk'.hu x y = blk.hu x y ∧ blk'.hv x y = blk.hv x y) := by
  constructor
  · obtain ⟨blk', hrun, eh, ehu, ehv, _⟩ :=
      fullIteration_lakeAtRest_binary32 NDEBUG allGhostlayersInSync getRoundTimestep solver c
        blk hsync hsolver hlake hvalue (hfin blk hlake rfl rfl rfl)
    exact ⟨blk', hrun, eh, ehu, ehv⟩
  · have main : ∀ (m : Nat) (b0 : SWE_DimensionalSplittingChameleon Binary32),
        LakeAtRest c b0 → (∀ x y, (b0.h x y).IsValue) →
        b0.nx = blk.nx → b0.ny = blk.ny → b0.dx = blk.dx →
        (∀ x y, 1 ≤ x → x ≤ blk.nx → 1 ≤ y → y ≤ blk.ny →
          b0.h x y = blk.h x y ∧ b0.hu x y = blk.hu x y ∧ b0.hv x y = blk.hv x y) →
        ∃ blk', iterations NDEBUG allGhostlayersInSync getRoundTimestep solver refreshGhosts
            m b0 = Run.returned blk' ∧ LakeAtRest c blk' ∧
          ∀ x y, 1 ≤ x → x ≤ blk.nx → 1 ≤ y → y ≤ blk.ny →
            blk'.h x y = blk.h x y ∧ blk'.hu x y = blk.hu x y ∧
            blk'.hv x y = blk.hv x y := by
      intro m
      induction m with
      | zero =>
        intro b0 hl _ _ _ _ hint
        exact ⟨b0, rfl, hl, hint⟩
      | succ k ih =>
        intro b0 hl hval hnx hny hdx hint
        obtain ⟨rl, rval, rnx, rny, rdx, rint⟩ := hrefresh b0 hl hval
        obtain ⟨b', hrun, eh, ehu, ehv, eb, enx, eny, edx, _⟩ :=
          fullIteration_lakeAtRest_binary32 NDEBUG allGhostlayersInSync getRoundTimestep
            solver c (refreshGhosts b0) hsync hsolver rl rval
            (hfin (refreshGhosts b0) rl (by rw [rnx, hnx]) (by rw [rny, hny])
              (by rw [rdx, hdx]))
        have hl' : LakeAtRest c b' := by
          intro x y hx' hy'
          rw [enx] at hx'
          rw [eny] at hy'
          rw [eh, ehu, ehv, eb]
          exact rl x y hx' hy'
        have hstep : iterations NDEBUG allGhostlayersInSync getRoundTimestep solver
            refreshGhosts (k + 1) b0
            = iterations NDEBUG allGhostlayersInSync getRoundTimestep solver
                refreshGhosts k b' := by
          simp only [iterations, hrun]
        rw [hstep]
        apply ih b' hl' (by rw [eh]; exact rval) (by rw [enx, rnx, hnx])
          (by rw [eny, rny, hny]) (by rw [edx, rdx, hdx])
        intro x y hx1 hx2 hy1 hy2
        obtain ⟨r1, r2, r3⟩ := rint x y hx1 (by omega) hy1 (by omega)
        obtain ⟨i1, i2, i3⟩ := hint x y hx1 hx2 hy1 hy2
        rw [eh, ehu, ehv, r1, r2, r3]
        exact ⟨i1, i2, i3⟩
    exact main n blk hlake hvalue rfl rfl rfl (fun _ _ _ _ _ _ => ⟨rfl, rfl, rfl⟩)

/-- A flux operator that returns zero net updates and a positive speed is
well-balanced. -/
theorem restSolver_wellBalanced (s : Binary32) (hs : 0 < s) : WellBalanced (restSolver s) := by
  intro hL hR huL huR bL bR w _ _ _ _ _
  exact ⟨rfl, rfl, rfl, rfl, hs⟩

/-- The value 1 is positive. -/
theorem zero_lt_one32 : (0 : Binary32) < one32 := by
  rw [Binary32.lt_val]
  show XReal.num 0 < XReal.num 1
  rw [XReal.num_lt]
  norm_num

/-- The sum `-1 + 1`. -/
theorem neg_one32_add_one32 : -one32 + one32 = 0 := by
  rw [Binary32.add_val]
  show Binary32.round (XReal.num (-1) + XReal.num 1) = 0
  rw [XReal.num_add]
  norm_num
  exact Binary32.round_zero

/-- A block with the arrays of Scenario A is a lake at rest at surface level 0. -/
theorem lakeAtRest_of_scenarioA (blk : SWE_DimensionalSplittingChameleon Binary32)
    (hh : blk.h = scenarioA32.h) (hhu : blk.hu = scenarioA32.hu) (hhv : blk.hv = scenarioA32.hv)
    (hb : blk.b = scenarioA32.b) : LakeAtRest 0 blk := by
  intro x y _ _
  rw [hh, hhu, hhv, hb]
  exact ⟨rfl, rfl, neg_one32_add_one32, zero_lt_one32⟩

/-- The timestep that the statement stores with the rounding that returns its
argument. -/
theorem horizontalTimestep_keepTimestep32 (blk : SWE_DimensionalSplittingChameleon Binary32)
    (w : Binary32) :
    (horizontalTimestep keepTimestep32 blk w).maxTimestep = 0.4 * (blk.dx / w) := by
  unfold horizontalTimestep
  simp only
  split <;> rfl

/-- With cell width 1 and a flux operator that reports the wave speed 1, the
x-sweep stores the timestep `(float) .4`. -/
theorem maxTimestep_unit (solver : Solver Binary32)
    (hs : ∀ hL hR huL huR bL bR w, (solver hL hR huL huR bL bR w).maxWaveSpeed = one32)
    (blk : SWE_DimensionalSplittingChameleon Binary32) (hdx : blk.dx = one32) :
    (computeNumericalFluxesHorizontal inSync32 keepTimestep32 solver blk).maxTimestep = 0.4 := by
  have hdx' : (xSweep solver blk).1.dx = one32 :=
    (xSweep_preserves (fun b => b.dx) solver (fun _ _ _ => rfl) blk).trans hdx
  rw [computeNumericalFluxesHorizontal_eq_horizontalTimestep inSync32 keepTimestep32 solver blk
      rfl, horizontalTimestep_keepTimestep32, xSweep_constant_speed solver one32 hs, hdx',
    Binary32.div_one32 one32 rfl Binary32.isValue_one32,
    Binary32.mul_one32 _ Binary32.isFinite_literal_04 Binary32.isValue_literal_04]

/-- Instance of the amended C18: Scenario A of the specification in binary32, 100
iterations, with a flux operator that reports the wave speed 1 and a ghost
refresh that finds the ghost cells in place. -/
theorem lake_at_rest_preserved_witness :
    (∀ b, inSync32 b = true) ∧ WellBalanced (restSolver one32) ∧ LakeAtRest 0 scenarioA32 ∧
    (∀ x y, (scenarioA32.h x y).IsValue) ∧
    (∀ b, LakeAtRest 0 b → b.nx = scenarioA32.nx → b.ny = scenarioA32.ny →
      b.dx = scenarioA32.dx →
      ((computeNumericalFluxesHorizontal inSync32 keepTimestep32 (restSolver one32)
        b).maxTimestep / b.dx).isFinite = true) ∧
    ((∃ blk', fullIteration false inSync32 keepTimestep32 (restSolver one32) scenarioA32
        = Run.returned blk' ∧
      blk'.h = scenarioA32.h ∧ blk'.hu = scenarioA32.hu ∧ blk'.hv = scenarioA32.hv) ∧
    (∃ blk', iterations false inSync32 keepTimestep32 (restSolver one32) id 100 scenarioA32
        = Run.returned blk' ∧ LakeAtRest 0 blk' ∧
      ∀ x y, 1 ≤ x → x ≤ scenarioA32.nx → 1 ≤ y → y ≤ scenarioA32.ny →
        blk'.h x y = scenarioA32.h x y ∧ blk'.hu x y = scenarioA32.hu x y ∧
        blk'.hv x y = scenarioA32.hv x y)) := by
  have hsolver := restSolver_wellBalanced one32 zero_lt_one32
  have hlake := lakeAtRest_of_scenarioA scenarioA32 rfl rfl rfl rfl
  have hfin : ∀ b : SWE_DimensionalSplittingChameleon Binary32, LakeAtRest 0 b →
      b.nx = scenarioA32.nx → b.ny = scenarioA32.ny → b.dx = scenarioA32.dx →
      ((computeNumericalFluxesHorizontal inSync32 keepTimestep32 (restSolver one32)
        b).maxTimestep / b.dx).isFinite = true := by
    intro b _ _ _ hdx
    rw [maxTimestep_unit (restSolver one32) (fun _ _ _ _ _ _ _ => rfl) b hdx, hdx]
    show ((0.4 : Binary32) / one32).isFinite = true
    rw [Binary32.div_one32 _ Binary32.isFinite_literal_04 Binary32.isValue_literal_04]
    exact Binary32.isFinite_literal_04
  exact ⟨fun _ => rfl, hsolver, hlake, fun _ _ => Binary32.isValue_one32, hfin,
    lake_at_rest_preserved false inSync32 keepTimestep32 (restSolver one32) id 0 scenarioA32
      100 (fun _ => rfl) hsolver hlake (fun _ _ => Binary32.isValue_one32) hfin
      (fun _ hl hv => ⟨hl, hv, rfl, rfl, rfl, fun _ _ _ _ _ _ => ⟨rfl, rfl, rfl⟩⟩)⟩


/-- The outcome of one full iteration with the ghost layers in sync, and the
water height that its update loops store in an interior cell: with `t` the
timestep stored by the x-sweep, the iteration stops at the assertion of
`updateUnknowns` in a debug build when `|t - t| < 0.00001` fails, and otherwise
returns with `h[x][y] = (h[x][y] - (t/dx) * (hNetUpdatesLeft[x][y] +
hNetUpdatesRight[x][y])) - (t/dx) * (hNetUpdatesBelow[x][y] +
hNetUpdatesAbove[x][y])`. -/
theorem fullIteration_cell [Zero α] [Add α] [Sub α] [Mul α] [Div α] [Neg α] [LT α]
    [DecidableRel (fun a b : α => a < b)] [OfScientific α] (NDEBUG : Bool)
    (allGhostlayersInSync : SWE_DimensionalSplittingChameleon α → Bool)
    (getRoundTimestep : SWE_DimensionalSplittingChameleon α → α → α)
    (solver : Solver α) (blk : SWE_DimensionalSplittingChameleon α)
    (hsync : ∀ b, allGhostlayersInSync b = true) :
    ∃ b2 blk',
      (fullIteration NDEBUG allGhostlayersInSync getRoundTimestep solver blk
        = if (!NDEBUG && !decide (fabs
              ((computeNumericalFluxesHorizontal allGhostlayersInSync getRoundTimestep solver
                  blk).maxTimestep
                - (computeNumericalFluxesHorizontal allGhostlayersInSync getRoundTimestep
                  solver blk).maxTimestep) < 0.00001)) = true
          then Run.assertionViolation b2 else Run.returned blk') ∧
      ∀ x y, 1 ≤ x → x ≤ blk.nx → 1 ≤ y → y ≤ blk.ny →
        blk'.h x y
          = (blk.h x y
              - ((computeNumericalFluxesHorizontal allGhostlayersInSync getRoundTimestep solver
                    blk).maxTimestep / blk.dx)
                * ((xSweep solver blk).1.hNetUpdatesLeft x y
                    + (xSweep solver blk).1.hNetUpdatesRight x y))
            - ((computeNumericalFluxesHorizontal allGhostlayersInSync getRoundTimestep solver
                  blk).maxTimestep / blk.dx)
              * ((computeNumericalFluxesVertical allGhostlayersInSync solver
                    (computeNumericalFluxesHorizontal allGhostlayersInSync getRoundTimestep
                      solver blk)).hNetUpdatesBelow x y
                  + (computeNumericalFluxesVertical allGhostlayersInSync solver
                    (computeNumericalFluxesHorizontal allGhostlayersInSync getRoundTimestep
                      solver blk)).hNetUpdatesAbove x y) := by
  have p1 : ∀ {β : Type} (f : SWE_DimensionalSplittingChameleon α → β),
      (∀ b t, f (setMaxTimestep b t) = f b) →
      f (computeNumericalFluxesHorizontal allGhostlayersInSync getRoundTimestep solver blk)
        = f (xSweep solver blk).1 := fun f hf =>
    computeNumericalFluxesHorizontal_preserves f hf allGhostlayersInSync getRoundTimestep
      solver blk (hsync blk)
  generalize hb1 :
    computeNumericalFluxesHorizontal allGhostlayersInSync getRoundTimestep solver blk = b1
    at p1
  have b1h : b1.h = blk.h := (p1 (fun b => b.h) (fun _ _ => rfl)).trans
    (xSweep_preserves (fun b => b.h) solver (fun _ _ _ => rfl) blk)
  have b1nx : b1.nx = blk.nx := (p1 (fun b => b.nx) (fun _ _ => rfl)).trans
    (xSweep_preserves (fun b => b.nx) solver (fun _ _ _ => rfl) blk)
  have b1ny : b1.ny = blk.ny := (p1 (fun b => b.ny) (fun _ _ => rfl)).trans
    (xSweep_preserves (fun b => b.ny) solver (fun _ _ _ => rfl) blk)
  have b1dx : b1.dx = blk.dx := (p1 (fun b => b.dx) (fun _ _ => rfl)).trans
    (xSweep_preserves (fun b => b.dx) solver (fun _ _ _ => rfl) blk)
  have b1L : b1.hNetUpdatesLeft = (xSweep solver blk).1.hNetUpdatesLeft :=
    p1 (fun b => b.hNetUpdatesLeft) (fun _ _ => rfl)
  have b1R : b1.hNetUpdatesRight = (xSweep solver blk).1.hNetUpdatesRight :=
    p1 (fun b => b.hNetUpdatesRight) (fun _ _ => rfl)
  have hrun2 := computeNumericalFluxesVertical_of_sync allGhostlayersInSync solver b1 (hsync b1)
  have q : ∀ {β : Type} (f : SWE_DimensionalSplittingChameleon α → β),
      (∀ x y st, f (verticalEdge solver x y st).1 = f st.1) →
      (∀ x y b, f (intermediateCell x y b) = f b) →
      f (computeNumericalFluxesVertical allGhostlayersInSync solver b1) = f b1 := by
    intro β f hf1 hf2
    rw [hrun2, ySweep_preserves f solver hf1, intermediateStates_preserves f hf2]
  have hstar : ∀ x y, 1 ≤ x → x ≤ blk.nx → 1 ≤ y → y ≤ blk.ny →
      (computeNumericalFluxesVertical allGhostlayersInSync solver b1).hStar x y
        = blk.h x y - (b1.maxTimestep / blk.dx)
            * ((xSweep solver blk).1.hNetUpdatesLeft x y
                + (xSweep solver blk).1.hNetUpdatesRight x y) := by
    intro x y hx1 hx2 hy1 hy2
    have hmem : (x, y) ∈ Finset.Ico 1 (b1.nx + 1) ×ˢ Finset.Ico 0 (b1.ny + 2) := by
      simp only [Finset.mem_product, Finset.mem_Ico]; omega
    rw [hrun2, ySweep_preserves (fun b => b.hStar) solver (fun _ _ _ => rfl),
      intermediateStates_eq]
    simp only [hmem, if_true, b1h, b1dx, b1L, b1R]
  generalize hb2 : computeNumericalFluxesVertical allGhostlayersInSync solver b1 = b2
    at q hstar
  have b2nx : b2.nx = blk.nx :=
    (q (fun b => b.nx) (fun _ _ _ => rfl) (fun _ _ _ => rfl)).trans b1nx
  have b2ny : b2.ny = blk.ny :=
    (q (fun b => b.ny) (fun _ _ _ => rfl) (fun _ _ _ => rfl)).trans b1ny
  have b2dx : b2.dx = blk.dx :=
    (q (fun b => b.dx) (fun _ _ _ => rfl) (fun _ _ _ => rfl)).trans b1dx
  have b2mt : b2.maxTimestep = b1.maxTimestep :=
    q (fun b => b.maxTimestep) (fun _ _ _ => rfl) (fun _ _ _ => rfl)
  refine ⟨b2, updateLoops b2, ?_, ?_⟩
  · simp only [fullIteration, hb1, hb2, updateUnknowns, hsync b2, timestepAssertion, b2mt,
      Bool.not_true, Bool.false_eq_true, ↓reduceIte]
  · intro x y hx1 hx2 hy1 hy2
    have hmem : (x, y) ∈ Finset.Ico 1 (b2.nx + 1) ×ˢ Finset.Ico 1 (b2.ny + 1) := by
      simp only [Finset.mem_product, Finset.mem_Ico]; omega
    rw [updateLoops_eq]
    simp only [hmem, if_true, hstar x y hx1 hx2 hy1 hy2, b2mt, b2dx]

/-- The absolute value of not-a-number. -/
theorem fabs_nan : fabs (⟨XReal.nan⟩ : Binary32) = ⟨XReal.nan⟩ := by
  unfold fabs
  rw [if_neg (Binary32.not_nan_lt _)]

/-- The quotient `2^100 / 2^(-100)` overflows. -/
theorem wide_div_slow : (⟨XReal.num (2 ^ 100)⟩ : Binary32) / slowSpeed = ⟨XReal.posInf⟩ := by
  rw [Binary32.div_val]
  show Binary32.round (XReal.num (2 ^ 100) / XReal.num (1 / 2 ^ 100)) = _
  rw [XReal.num_div _ _ (by positivity)]
  show (⟨roundToBinary32 _⟩ : Binary32) = _
  rw [roundToBinary32_overflow _ (by norm_num)]

/-- The product of `(float) .4` and `+inf`. -/
theorem literal_04_mul_posInf : (0.4 : Binary32) * ⟨XReal.posInf⟩ = ⟨XReal.posInf⟩ := by
  rw [Binary32.literal_04, Binary32.mul_val]
  show Binary32.round (XReal.mul (XReal.num _) XReal.posInf) = _
  simp only [XReal.mul, XReal.mulPosInf]
  norm_num
  rfl

/-- The quotient of `+inf` by `2^100`. -/
theorem posInf_div_wide :
    (⟨XReal.posInf⟩ : Binary32) / ⟨XReal.num (2 ^ 100)⟩ = ⟨XReal.posInf⟩ := by
  rw [Binary32.div_val]
  show Binary32.round (XReal.div XReal.posInf (XReal.num _)) = _
  simp only [XReal.div]
  norm_num
  rfl

/-- The slow speed is positive. -/
theorem zero_lt_slowSpeed : (0 : Binary32) < slowSpeed := by
  rw [Binary32.lt_val]
  show XReal.num 0 < XReal.num _
  rw [XReal.num_lt]
  positivity

/-- C18, counterexample: a lake at rest (`h = 1`, `b = -1`, zero momentum) on a
block of cell width `2^100`, with a flux operator that returns zero net
updates and the positive wave speed `2^(-100)`.  The quotient `dx / speed`
overflows, the x-sweep stores `maxTimestep = +inf`, and the iteration sets
`h[1][1] = (1 - (inf/dx) * (0 + 0)) - ...`, which is not a number, in a build
that defines `NDEBUG`, and stops at the timestep assertion (`inf - inf` is not
a number) in a debug build. -/
theorem lake_at_rest_overflow :
    WellBalanced (restSolver slowSpeed) ∧ LakeAtRest 0 wideLake ∧
    (computeNumericalFluxesHorizontal inSync32 keepTimestep32 (restSolver slowSpeed)
      wideLake).maxTimestep = ⟨XReal.posInf⟩ ∧
    wideLake.h 1 1 = one32 ∧
    (∃ blk1, fullIteration true inSync32 keepTimestep32 (restSolver slowSpeed) wideLake
        = Run.returned blk1 ∧ blk1.h 1 1 = ⟨XReal.nan⟩ ∧ blk1.h 1 1 ≠ wideLake.h 1 1) ∧
    (∃ blk1, fullIteration false inSync32 keepTimestep32 (restSolver slowSpeed) wideLake
        = Run.assertionViolation blk1) := by
  have hsolver := restSolver_wellBalanced slowSpeed zero_lt_slowSpeed
  have hlake := lakeAtRest_of_scenarioA wideLake rfl rfl rfl rfl
  have hdx' : (xSweep (restSolver slowSpeed) wideLake).1.dx = ⟨XReal.num (2 ^ 100)⟩ :=
    xSweep_preserves (fun b => b.dx) (restSolver slowSpeed) (fun _ _ _ => rfl) wideLake
  have hmt : (computeNumericalFluxesHorizontal inSync32 keepTimestep32 (restSolver slowSpeed)
      wideLake).maxTimestep = ⟨XReal.posInf⟩ := by
    rw [computeNumericalFluxesHorizontal_eq_horizontalTimestep inSync32 keepTimestep32 _
        wideLake rfl, horizontalTimestep_keepTimestep32,
      xSweep_constant_speed (restSolver slowSpeed) slowSpeed (fun _ _ _ _ _ _ _ => rfl), hdx',
      wide_div_slow, literal_04_mul_posInf]
  have hz := lakeAtRest_netUpdates inSync32 keepTimestep32 (restSolver slowSpeed) 0 wideLake
    (fun _ => rfl) hsolver hlake 1 1 (le_refl 1) (le_refl 1) (le_refl 1) (le_refl 1)
  have hcell : ∀ NDEBUG, ∃ b2 blk',
      (fullIteration NDEBUG inSync32 keepTimestep32 (restSolver slowSpeed) wideLake
        = if (!NDEBUG && !decide (fabs ((⟨XReal.posInf⟩ : Binary32) - ⟨XReal.posInf⟩)
            < 0.00001)) = true
          then Run.assertionViolation b2 else Run.returned blk') ∧
      blk'.h 1 1 = ⟨XReal.nan⟩ := by
    intro NDEBUG
    obtain ⟨b2, blk', hrun, hh⟩ := fullIteration_cell NDEBUG inSync32 keepTimestep32
      (restSolver slowSpeed) wideLake (fun _ => rfl)
    refine ⟨b2, blk', ?_, ?_⟩
    · rw [hrun, hmt]
    · rw [hh 1 1 (le_refl 1) (le_refl 1) (le_refl 1) (le_refl 1), hmt, hz.1.1, hz.1.2.1]
      show (one32 - (⟨XReal.posInf⟩ / ⟨XReal.num (2 ^ 100)⟩) * ((0 : Binary32) + 0)) - _ = _
      rw [posInf_div_wide, Binary32.zero_add_zero, Binary32.posInf_mul_zero, Binary32.sub_nan,
        Binary32.nan_sub]
  have hassert : decide (fabs ((⟨XReal.posInf⟩ : Binary32) - ⟨XReal.posInf⟩) < 0.00001)
      = false := by
    rw [Binary32.posInf_sub_posInf, fabs_nan]
    exact decide_eq_false (Binary32.not_nan_lt _)
  refine ⟨hsolver, hlake, hmt, rfl, ?_, ?_⟩
  · obtain ⟨b2, blk', hrun, hh⟩ := hcell true
    refine ⟨blk', ?_, hh, ?_⟩
    · rw [hrun]
      simp
    · rw [hh]
      exact fun h => XReal.noConfusion (Binary32.mk.inj h)
  · obtain ⟨b2, blk', hrun, _⟩ := hcell false
    refine ⟨b2, ?_⟩
    rw [hrun, hassert]
    simp


/-- The net updates that the x-sweep stores for a flux operator that returns the
same value `u` for all four of them on every edge. -/
theorem xSweep_constant_updates [Zero α] (solver : Solver α) (u : α)
    (hu : ∀ hL hR huL huR bL bR w,
      (solver hL hR huL huR bL bR w).hUpdateLeft = u ∧
      (solver hL hR huL huR bL bR w).hUpdateRight = u ∧
      (solver hL hR huL huR bL bR w).huUpdateLeft = u ∧
      (solver hL hR huL huR bL bR w).huUpdateRight = u)
    (blk : SWE_DimensionalSplittingChameleon α) :
    ∀ x y, x ≤ blk.nx → y ≤ blk.ny + 1 →
      (xSweep solver blk).1.hNetUpdatesLeft x y = u ∧
      (xSweep solver blk).1.hNetUpdatesRight (x + 1) y = u ∧
      (xSweep solver blk).1.huNetUpdatesLeft x y = u ∧
      (xSweep solver blk).1.huNetUpdatesRight (x + 1) y = u := by
  have key := forLoop2_invariant
    (fun (D : Finset (Nat × Nat)) (st : SWE_DimensionalSplittingChameleon α × α) =>
      ∀ p ∈ D, st.1.hNetUpdatesLeft p.1 p.2 = u ∧ st.1.hNetUpdatesRight (p.1 + 1) p.2 = u ∧
        st.1.huNetUpdatesLeft p.1 p.2 = u ∧ st.1.huNetUpdatesRight (p.1 + 1) p.2 = u)
    (fun x y => horizontalEdge solver x y) 0 (blk.nx + 1) 0 (blk.ny + 2)
    (by omega) (by omega) ?_ (blk, 0) ?_
  · intro x y hx hy
    exact key (x, y) (by simp only [Finset.mem_product, Finset.mem_Ico]; omega)
  · intro D x y s _ _ _ _ _ hD p hp
    obtain ⟨r1, r2, r3, r4⟩ := hu (s.1.h x y) (s.1.h (x + 1) y) (s.1.hu x y)
      (s.1.hu (x + 1) y) (s.1.b x y) (s.1.b (x + 1) y) s.2
    simp only [horizontalEdge, Float2D.set_apply, r1, r2, r3, r4]
    rcases Finset.mem_insert.1 hp with hpe | hpD
    · subst hpe
      simp
    · obtain ⟨z1, z2, z3, z4⟩ := hD p hpD
      refine ⟨?_, ?_, ?_, ?_⟩
      · split
        · rfl
        · exact z1
      · split
        · rfl
        · exact z2
      · split
        · rfl
        · exact z3
      · split
        · rfl
        · exact z4
  · intro p hp
    exact absurd hp (Finset.not_mem_empty p)

/-- The net updates that the y-sweep stores for a flux operator that returns the
same value `u` for all four of them on every edge. -/
theorem ySweep_constant_updates [Zero α] (solver : Solver α) (u : α)
    (hu : ∀ hL hR huL huR bL bR w,
      (solver hL hR huL huR bL bR w).hUpdateLeft = u ∧
      (solver hL hR huL huR bL bR w).hUpdateRight = u ∧
      (solver hL hR huL huR bL bR w).huUpdateLeft = u ∧
      (solver hL hR huL huR bL bR w).huUpdateRight = u)
    (blk : SWE_DimensionalSplittingChameleon α) :
    ∀ x y, 1 ≤ x → x ≤ blk.nx → y ≤ blk.ny →
      (ySweep solver blk).1.hNetUpdatesBelow x y = u ∧
      (ySweep solver blk).1.hNetUpdatesAbove x (y + 1) = u ∧
      (ySweep solver blk).1.hvNetUpdatesBelow x y = u ∧
      (ySweep solver blk).1.hvNetUpdatesAbove x (y + 1) = u := by
  have key := forLoop2_invariant
    (fun (D : Finset (Nat × Nat)) (st : SWE_DimensionalSplittingChameleon α × α) =>
      ∀ p ∈ D, st.1.hNetUpdatesBelow p.1 p.2 = u ∧ st.1.hNetUpdatesAbove p.1 (p.2 + 1) = u ∧
        st.1.hvNetUpdatesBelow p.1 p.2 = u ∧ st.1.hvNetUpdatesAbove p.1 (p.2 + 1) = u)
    (fun x y => verticalEdge solver x y) 1 (blk.nx + 1) 0 (blk.ny + 1)
    (by omega) (by omega) ?_ (blk, 0) ?_
  · intro x y hx1 hx2 hy
    exact key (x, y) (by simp only [Finset.mem_product, Finset.mem_Ico]; omega)
  · intro D x y s _ _ _ _ _ hD p hp
    obtain ⟨r1, r2, r3, r4⟩ := hu (s.1.h x y) (s.1.h x (y + 1)) (s.1.hv x y)
      (s.1.hv x (y + 1)) (s.1.b x y) (s.1.b x (y + 1)) s.2
    simp only [verticalEdge, Float2D.set_apply, r1, r2, r3, r4]
    rcases Finset.mem_insert.1 hp with hpe | hpD
    · subst hpe
      simp
    · obtain ⟨z1, z2, z3, z4⟩ := hD p hpD
      refine ⟨?_, ?_, ?_, ?_⟩
      · split
        · rfl
        · exact z1
      · split
        · rfl
        · exact z2
      · split
        · rfl
        · exact z3
      · split
        · rfl
        · exact z4
  · intro p hp
    exact absurd hp (Finset.not_mem_empty p)

/-- One full iteration whose x-sweep stores `maxTimestep = 0` returns and leaves
`h`, `hu`, `hv` as they were, in binary32 arithmetic, for a finite nonzero `dx`
and finite sums of the net updates. -/
theorem fullIteration_zero_timestep_binary32 (NDEBUG : Bool)
    (allGhostlayersInSync : SWE_DimensionalSplittingChameleon Binary32 → Bool)
    (getRoundTimestep : SWE_DimensionalSplittingChameleon Binary32 → Binary32 → Binary32)
    (solver : Solver Binary32) (blk : SWE_DimensionalSplittingChameleon Binary32)
    (hsync : ∀ b, allGhostlayersInSync b = true)
    (hdx : blk.dx.isFinite = true) (hdx0 : blk.dx.toRat ≠ 0)
    (hvalue : ∀ x y, (blk.h x y).IsValue ∧ (blk.hu x y).IsValue ∧ (blk.hv x y).IsValue)
    (hdt : (computeNumericalFluxesHorizontal allGhostlayersInSync getRoundTimestep solver
      blk).maxTimestep = 0)
    (hsums : NetUpdateSumsFinite allGhostlayersInSync getRoundTimestep solver blk) :
    ∃ blk', fullIteration NDEBUG allGhostlayersInSync getRoundTimestep solver blk
        = Run.returned blk' ∧
      blk'.h = blk.h ∧ blk'.hu = blk.hu ∧ blk'.hv = blk.hv ∧ blk'.b = blk.b ∧
      blk'.nx = blk.nx ∧ blk'.ny = blk.ny ∧ blk'.dx = blk.dx ∧
      blk'.localTimestepping = blk.localTimestepping := by
  apply fullIteration_unchanged NDEBUG allGhostlayersInSync getRoundTimestep solver blk hsync
  · intro x y hx1 hx2 hy1 hy2
    obtain ⟨s1, s2, _, _⟩ := hsums x y hx1 hx2 hy1 hy2
    obtain ⟨v1, v2, _⟩ := hvalue x y
    rw [hdt, Binary32.zero_div_of_isFinite _ hdx hdx0, Binary32.zero_mul_of_isFinite _ s1,
      Binary32.zero_mul_of_isFinite _ s2, Binary32.sub_zero_of_isValue _ v1,
      Binary32.sub_zero_of_isValue _ v2]
    exact ⟨rfl, rfl⟩
  · intro x y hx1 hx2 hy1 hy2
    obtain ⟨_, _, s3, s4⟩ := hsums x y hx1 hx2 hy1 hy2
    obtain ⟨v1, _, v3⟩ := hvalue x y
    rw [hdt, Binary32.zero_div_of_isFinite _ hdx hdx0, Binary32.zero_mul_of_isFinite _ s3,
      Binary32.zero_mul_of_isFinite _ s4, Binary32.sub_zero_of_isValue _ v1,
      Binary32.sub_zero_of_isValue _ v3]
    exact ⟨rfl, rfl⟩
  · right
    rw [hdt, Binary32.sub_self_of_isFinite 0 rfl, fabs_zero_binary32]
    exact Binary32.zero_lt_tolerance

/-- A zero wave speed does not store a zero timestep: under global timestepping,
for a finite nonzero `dx`, the statement of line 536 stores an infinity. -/
theorem horizontalTimestep_zero_wave_speed
    (getRoundTimestep : SWE_DimensionalSplittingChameleon Binary32 → Binary32 → Binary32)
    (blk : SWE_DimensionalSplittingChameleon Binary32)
    (hdx : blk.dx.isFinite = true) (hdx0 : blk.dx.toRat ≠ 0)
    (hl : blk.localTimestepping = false) :
    (horizontalTimestep getRoundTimestep blk 0).maxTimestep.isFinite = false ∧
    (horizontalTimestep getRoundTimestep blk 0).maxTimestep ≠ 0 := by
  have hmt : (horizontalTimestep getRoundTimestep blk 0).maxTimestep
      = 0.4 * (blk.dx / 0) := by
    simp only [horizontalTimestep, hl, Bool.false_eq_true, if_false]
  have hfin : ((0.4 : Binary32) * (blk.dx / 0)).isFinite = false := by
    rw [Binary32.literal_04, Binary32.mul_val, Binary32.div_val,
      Binary32.val_of_isFinite _ hdx, Binary32.zero_val]
    show (Binary32.round (XReal.mul (XReal.num _)
      (Binary32.round (XReal.div (XReal.num _) (XReal.num 0))).val)).isFinite = false
    simp only [XReal.div, if_true, if_neg hdx0]
    by_cases hpos : 0 < blk.dx.toRat
    · simp only [if_pos hpos, Binary32.round, XReal.mul, XReal.mulPosInf]
      norm_num
      rfl
    · simp only [if_neg hpos, Binary32.round, XReal.mul, XReal.mulPosInf, XReal.neg]
      norm_num
      rfl
  rw [hmt]
  refine ⟨hfin, ?_⟩
  intro h0
  rw [h0] at hfin
  exact absurd hfin (by decide)

/-- C19, amended: in binary32 arithmetic, with the ghost layers in sync, a finite
nonzero cell width `dx`, entries of `h`, `hu`, `hv` that are `float` values and
finite sums of the two net updates of every interior cell, two full iterations
(x-sweep, y-sweep, `updateUnknowns`) return and leave `h`, `hu` and `hv`
unchanged at every cell whenever the timestep used by each of them, the
`maxTimestep` that its x-sweep stores, is 0, whatever the net updates are. -/
theorem zero_timestep_iterations (NDEBUG : Bool)
    (allGhostlayersInSync : SWE_DimensionalSplittingChameleon Binary32 → Bool)
    (getRoundTimestep : SWE_DimensionalSplittingChameleon Binary32 → Binary32 → Binary32)
    (solver : Solver Binary32) (blk : SWE_DimensionalSplittingChameleon Binary32)
    (hsync : ∀ b, allGhostlayersInSync b = true)
    (hdx : blk.dx.isFinite = true) (hdx0 : blk.dx.toRat ≠ 0)
    (hvalue : ∀ x y, (blk.h x y).IsValue ∧ (blk.hu x y).IsValue ∧ (blk.hv x y).IsValue)
    (hdt1 : (computeNumericalFluxesHorizontal allGhostlayersInSync getRoundTimestep solver
      blk).maxTimestep = 0)
    (hsums1 : NetUpdateSumsFinite allGhostlayersInSync getRoundTimestep solver blk)
    (hdt2 : ∀ blk1,
      fullIteration NDEBUG allGhostlayersInSync getRoundTimestep solver blk
        = Run.returned blk1 →
      (computeNumericalFluxesHorizontal allGhostlayersInSync getRoundTimestep solver
        blk1).maxTimestep = 0)
    (hsums2 : ∀ blk1,
      fullIteration NDEBUG allGhostlayersInSync getRoundTimestep solver blk
        = Run.returned blk1 →
      NetUpdateSumsFinite allGhostlayersInSync getRoundTimestep solver blk1) :
    ∃ blk1 blk2,
      fullIteration NDEBUG allGhostlayersInSync getRoundTimestep solver blk
        = Run.returned blk1 ∧
      fullIteration NDEBUG allGhostlayersInSync getRoundTimestep solver blk1
        = Run.returned blk2 ∧
      blk2.h = blk.h ∧ blk2.hu = blk.hu ∧ blk2.hv = blk.hv := by
  obtain ⟨blk1, hrun1, eh1, ehu1, ehv1, _, _, _, edx1, _⟩ :=
    fullIteration_zero_timestep_binary32 NDEBUG allGhostlayersInSync getRoundTimestep solver
      blk hsync hdx hdx0 hvalue hdt1 hsums1
  obtain ⟨blk2, hrun2, eh2, ehu2, ehv2, _⟩ :=
    fullIteration_zero_timestep_binary32 NDEBUG allGhostlayersInSync getRoundTimestep solver
      blk1 hsync (by rw [edx1]; exact hdx) (by rw [edx1]; exact hdx0)
      (by rw [eh1, ehu1, ehv1]; exact hvalue) (hdt2 blk1 hrun1) (hsums2 blk1 hrun1)
  exact ⟨blk1, blk2, hrun1, hrun2, eh2.trans eh1, ehu2.trans ehu1, ehv2.trans ehv1⟩

/-- The sum `1 + 1` is finite. -/
theorem one32_add_one32_isFinite : (one32 + one32).isFinite = true := by
  have h : one32 + one32 = ⟨XReal.num 2⟩ := by
    rw [Binary32.add_val]
    show Binary32.round (XReal.num 1 + XReal.num 1) = _
    rw [XReal.num_add]
    refine Binary32.round_num_eq _ _ 1 8388608 ?_ ?_ ?_ ?_ ?_ ?_ ?_ <;> norm_num [abs_lt]
  rw [h]
  rfl

/-- The sums of the net updates of the flux operator that returns 1 are finite,
whatever the block is. -/
theorem unitSolver_sumsFinite
    (getRoundTimestep : SWE_DimensionalSplittingChameleon Binary32 → Binary32 → Binary32)
    (blk : SWE_DimensionalSplittingChameleon Binary32) :
    NetUpdateSumsFinite inSync32 getRoundTimestep unitSolver blk := by
  intro x y hx1 hx2 hy1 hy2
  have hX := xSweep_constant_updates unitSolver one32 (fun _ _ _ _ _ _ _ => ⟨rfl, rfl, rfl, rfl⟩)
    blk
  obtain ⟨a1, _, a3, _⟩ := hX x y (by omega) (by omega)
  obtain ⟨_, a2, _, a4⟩ := hX (x - 1) y (by omega) (by omega)
  have e : x - 1 + 1 = x := by omega
  rw [e] at a2 a4
  have p1 : ∀ {β : Type} (f : SWE_DimensionalSplittingChameleon Binary32 → β),
      (∀ b t, f (setMaxTimestep b t) = f b) →
      f (computeNumericalFluxesHorizontal inSync32 getRoundTimestep unitSolver blk)
        = f (xSweep unitSolver blk).1 := fun f hf =>
    computeNumericalFluxesHorizontal_preserves f hf inSync32 getRoundTimestep unitSolver blk rfl
  generalize computeNumericalFluxesHorizontal inSync32 getRoundTimestep unitSolver blk = b1
    at p1
  have b1nx : b1.nx = blk.nx := (p1 (fun b => b.nx) (fun _ _ => rfl)).trans
    (xSweep_preserves (fun b => b.nx) unitSolver (fun _ _ _ => rfl) blk)
  have b1ny : b1.ny = blk.ny := (p1 (fun b => b.ny) (fun _ _ => rfl)).trans
    (xSweep_preserves (fun b => b.ny) unitSolver (fun _ _ _ => rfl) blk)
  have hrun2 := computeNumericalFluxesVertical_of_sync inSync32 unitSolver b1 rfl
  have hY := ySweep_constant_updates unitSolver one32
    (fun _ _ _ _ _ _ _ => ⟨rfl, rfl, rfl, rfl⟩) (intermediateStates b1)
  rw [intermediateStates_preserves (fun b => b.nx) (fun _ _ _ => rfl),
    intermediateStates_preserves (fun b => b.ny) (fun _ _ _ => rfl), b1nx, b1ny, ← hrun2] at hY
  obtain ⟨c1, _, c3, _⟩ := hY x y hx1 hx2 hy2
  obtain ⟨_, c2, _, c4⟩ := hY x (y - 1) hx1 hx2 (by omega)
  have e' : y - 1 + 1 = y := by omega
  rw [e'] at c2 c4
  rw [a1, a2, a3, a4, c1, c2, c3, c4]
  exact ⟨one32_add_one32_isFinite, one32_add_one32_isFinite, one32_add_one32_isFinite,
    one32_add_one32_isFinite⟩

/-- With the rounding that returns 0, the x-sweep of a block under local
timestepping stores `maxTimestep = 0`. -/
theorem maxTimestep_zeroTimestep32 (solver : Solver Binary32)
    (blk : SWE_DimensionalSplittingChameleon Binary32) (hl : blk.localTimestepping = true) :
    (computeNumericalFluxesHorizontal inSync32 zeroTimestep32 solver blk).maxTimestep = 0 := by
  have hlt : (xSweep solver blk).1.localTimestepping = true :=
    (xSweep_preserves (fun b => b.localTimestepping) solver (fun _ _ _ => rfl) blk).trans hl
  rw [computeNumericalFluxesHorizontal_eq_horizontalTimestep inSync32 zeroTimestep32 solver blk
    rfl]
  simp only [horizontalTimestep, hlt, ↓reduceIte]
  rfl

/-- Instance of the amended C19: the small lake under local timestepping, with
the rounding that returns 0 and a flux operator whose net updates are 1. -/
theorem zero_timestep_iterations_witness :
    (∀ b, inSync32 b = true) ∧ localLake.dx.isFinite = true ∧ localLake.dx.toRat ≠ 0 ∧
    (∀ x y, (localLake.h x y).IsValue ∧ (localLake.hu x y).IsValue ∧
      (localLake.hv x y).IsValue) ∧
    (computeNumericalFluxesHorizontal inSync32 zeroTimestep32 unitSolver
      localLake).maxTimestep = 0 ∧
    NetUpdateSumsFinite inSync32 zeroTimestep32 unitSolver localLake ∧
    ∃ blk1 blk2,
      fullIteration false inSync32 zeroTimestep32 unitSolver localLake
        = Run.returned blk1 ∧
      fullIteration false inSync32 zeroTimestep32 unitSolver blk1
        = Run.returned blk2 ∧
      blk2.h = localLake.h ∧ blk2.hu = localLake.hu ∧ blk2.hv = localLake.hv := by
  have hdx0 : localLake.dx.toRat ≠ 0 := by
    show (1 : ℚ) ≠ 0
    norm_num
  have hvalue : ∀ x y, (localLake.h x y).IsValue ∧ (localLake.hu x y).IsValue ∧
      (localLake.hv x y).IsValue :=
    fun _ _ => ⟨Binary32.isValue_one32, Binary32.isValue_zero, Binary32.isValue_zero⟩
  have h1 := maxTimestep_zeroTimestep32 unitSolver localLake rfl
  have hs := unitSolver_sumsFinite zeroTimestep32
  have h2 : ∀ blk1,
      fullIteration false inSync32 zeroTimestep32 unitSolver localLake
        = Run.returned blk1 →
      (computeNumericalFluxesHorizontal inSync32 zeroTimestep32 unitSolver
        blk1).maxTimestep = 0 := by
    intro blk1 hrun
    obtain ⟨b', hrun', _, _, _, _, _, _, _, hlt⟩ :=
      fullIteration_zero_timestep_binary32 false inSync32 zeroTimestep32 unitSolver localLake
        (fun _ => rfl) rfl hdx0 hvalue h1 (hs localLake)
    have e : b' = blk1 := Run.returned.inj (hrun'.symm.trans hrun)
    subst e
    exact maxTimestep_zeroTimestep32 unitSolver b' (hlt.trans rfl)
  exact ⟨fun _ => rfl, rfl, hdx0, hvalue, h1, hs localLake,
    zero_timestep_iterations false inSync32 zeroTimestep32 unitSolver localLake
      (fun _ => rfl) rfl hdx0 hvalue h1 (hs localLake) h2 (fun blk1 _ => hs blk1)⟩


/-- C7, amended: in binary32 arithmetic, for a finite cell width `dx > 0` and a
finite `maxHorizontalWaveSpeed = w > 0` (the value that the x-sweep loops leave,
in whatever order they run), where neither `dx / w` nor `(float) .4 * (dx / w)`
overflows or falls below the normal range `2^(-126)`: under global timestepping
the statement of lines 536-539 stores the rounded product
`maxTimestep = (float) .4 * (dx / w)` and `maxTimestep * w / dx` (evaluated
exactly) lies between `0.4 * (1 - 2^(-22))` and `0.4 * (1 + 2^(-22))`; under
local timestepping `maxTimestep * w / dx ≤ 0.4 * (1 + 2^(-22))` provided
`getRoundTimestep` returns a finite value not larger than its argument. With the
ghost layers in sync `computeNumericalFluxesHorizontal` stores that timestep for
the wave speed of its loops, and so does the kernel (without the rounding). -/
theorem horizontalTimestep_cfl
    (allGhostlayersInSync : SWE_DimensionalSplittingChameleon Binary32 → Bool)
    (getRoundTimestep : SWE_DimensionalSplittingChameleon Binary32 → Binary32 → Binary32)
    (solver : Solver Binary32) (blk : SWE_DimensionalSplittingChameleon Binary32)
    (w : Binary32)
    (hsync : allGhostlayersInSync blk = true)
    (hdx : blk.dx.isFinite = true) (hw : w.isFinite = true)
    (hdx0 : 0 < blk.dx.toRat) (hw0 : 0 < w.toRat)
    (hq : (2 : ℚ) ^ (-126 : ℤ) ≤ blk.dx.toRat / w.toRat)
    (hqfin : (blk.dx / w).isFinite = true)
    (hp : (2 : ℚ) ^ (-126 : ℤ) ≤ (0.4 : Binary32).toRat * (blk.dx / w).toRat)
    (hpfin : ((0.4 : Binary32) * (blk.dx / w)).isFinite = true) :
    (blk.localTimestepping = false →
      (horizontalTimestep getRoundTimestep (xSweep solver blk).1 w).maxTimestep
        = 0.4 * (blk.dx / w) ∧
      2 / 5 * (1 - 1 / 2 ^ 22)
        ≤ (horizontalTimestep getRoundTimestep (xSweep solver blk).1 w).maxTimestep.toRat
            * w.toRat / blk.dx.toRat ∧
      (horizontalTimestep getRoundTimestep (xSweep solver blk).1 w).maxTimestep.toRat
          * w.toRat / blk.dx.toRat
        ≤ 2 / 5 * (1 + 1 / 2 ^ 22)) ∧
    (blk.localTimestepping = true →
      (∀ b t, t.isFinite = true →
        (getRoundTimestep b t).isFinite = true ∧ (getRoundTimestep b t).toRat ≤ t.toRat) →
      (horizontalTimestep getRoundTimestep (xSweep solver blk).1 w).maxTimestep.toRat
          * w.toRat / blk.dx.toRat
        ≤ 2 / 5 * (1 + 1 / 2 ^ 22)) ∧
    ((xSweep solver blk).2 = w →
      computeNumericalFluxesHorizontal allGhostlayersInSync getRoundTimestep solver blk
        = horizontalTimestep getRoundTimestep (xSweep solver blk).1 w) ∧
    ((xSweep solver blk).2 = w → blk.localTimestepping = false →
      (computeNumericalFluxesHorizontalKernel solver blk).1.maxTimestep
        = (horizontalTimestep getRoundTimestep (xSweep solver blk).1 w).maxTimestep) := by
  have hdx1 : (xSweep solver blk).1.dx = blk.dx :=
    xSweep_preserves (fun b => b.dx) solver (fun _ _ _ => rfl) blk
  have hlt1 : (xSweep solver blk).1.localTimestepping = blk.localTimestepping :=
    xSweep_preserves (fun b => b.localTimestepping) solver (fun _ _ _ => rfl) blk
  -- the two roundings
  have e1 : blk.dx / w = Binary32.round (XReal.num (blk.dx.toRat / w.toRat)) := by
    rw [Binary32.div_val, Binary32.val_of_isFinite _ hdx, Binary32.val_of_isFinite _ hw,
      XReal.num_div _ _ (ne_of_gt hw0)]
  have r1 := Binary32.round_relative_error (blk.dx.toRat / w.toRat) hq (e1 ▸ hqfin)
  rw [← e1] at r1
  have e2 : (0.4 : Binary32) * (blk.dx / w)
      = Binary32.round (XReal.num ((0.4 : Binary32).toRat * (blk.dx / w).toRat)) := by
    rw [Binary32.mul_val, Binary32.val_of_isFinite _ Binary32.isFinite_literal_04,
      Binary32.val_of_isFinite _ hqfin, XReal.num_mul]
  have r2 := Binary32.round_relative_error _ hp (e2 ▸ hpfin)
  rw [← e2] at r2
  have hc : (0.4 : Binary32).toRat = 13421773 / 33554432 := by
    rw [Binary32.literal_04]
    rfl
  rw [hc] at r2
  generalize ht : ((0.4 : Binary32) * (blk.dx / w)).toRat = t at r2
  generalize (blk.dx / w).toRat = r at r1 r2
  have hqpos : 0 < blk.dx.toRat / w.toRat := div_pos hdx0 hw0
  generalize hqq : blk.dx.toRat / w.toRat = q at r1 hqpos
  rw [abs_le] at r1 r2
  norm_num at r1 r2
  obtain ⟨r1a, r1b⟩ := r1
  obtain ⟨r2a, r2b⟩ := r2
  have hupper : t ≤ 2 / 5 * (1 + 1 / 2 ^ 22) * q := by
    norm_num
    nlinarith
  have hlower : 2 / 5 * (1 - 1 / 2 ^ 22) * q ≤ t := by
    norm_num
    nlinarith
  have hratio : ∀ s : ℚ, s * w.toRat / blk.dx.toRat = s / q := by
    intro s
    rw [← hqq]
    field_simp
  have hqinv : 0 < q := hqpos
  refine ⟨?_, ?_, ?_, ?_⟩
  · intro hl
    have hmt : (horizontalTimestep getRoundTimestep (xSweep solver blk).1 w).maxTimestep
        = 0.4 * (blk.dx / w) := by
      simp only [horizontalTimestep, hlt1, hdx1, hl, Bool.false_eq_true, if_false]
    rw [hmt, ht, hratio]
    exact ⟨rfl, (le_div_iff₀ hqinv).2 hlower, (div_le_iff₀ hqinv).2 hupper⟩
  · intro hl hround
    have hmt : (horizontalTimestep getRoundTimestep (xSweep solver blk).1 w).maxTimestep
        = getRoundTimestep { (xSweep solver blk).1 with maxTimestep := 0.4 * (blk.dx / w) }
            (0.4 * (blk.dx / w)) := by
      simp only [horizontalTimestep, hlt1, hdx1, hl, if_true]
    obtain ⟨_, hle⟩ := hround { (xSweep solver blk).1 with maxTimestep := 0.4 * (blk.dx / w) }
      (0.4 * (blk.dx / w)) hpfin
    rw [ht] at hle
    rw [hmt, hratio]
    exact (div_le_iff₀ hqinv).2 (le_trans hle hupper)
  · intro hw2
    rw [← hw2]
    exact computeNumericalFluxesHorizontal_eq_horizontalTimestep allGhostlayersInSync
      getRoundTimestep solver blk hsync
  · intro hw2 hl
    rw [← hw2, (computeNumericalFluxesHorizontalKernel_eq_horizontalTimestep
      getRoundTimestep solver blk hl).1]

/-- Instance of the amended C7: the small lake with cell width 1 and a flux
operator that reports the wave speed 1. -/
theorem horizontalTimestep_cfl_witness :
    inSync32 smallLake = true ∧ smallLake.dx.isFinite = true ∧ one32.isFinite = true ∧
    0 < smallLake.dx.toRat ∧ 0 < one32.toRat ∧
    (2 : ℚ) ^ (-126 : ℤ) ≤ smallLake.dx.toRat / one32.toRat ∧
    (smallLake.dx / one32).isFinite = true ∧
    (2 : ℚ) ^ (-126 : ℤ) ≤ (0.4 : Binary32).toRat * (smallLake.dx / one32).toRat ∧
    ((0.4 : Binary32) * (smallLake.dx / one32)).isFinite = true ∧
    (xSweep unitSolver smallLake).2 = one32 ∧
    (computeNumericalFluxesHorizontal inSync32 keepTimestep32 unitSolver smallLake).maxTimestep
      = 0.4 * (smallLake.dx / one32) ∧
    (computeNumericalFluxesHorizontal inSync32 keepTimestep32 unitSolver
        smallLake).maxTimestep.toRat * one32.toRat / smallLake.dx.toRat
      ≤ 2 / 5 * (1 + 1 / 2 ^ 22) := by
  have hd : smallLake.dx / one32 = one32 := Binary32.div_one32 one32 rfl Binary32.isValue_one32
  have hm : (0.4 : Binary32) * (smallLake.dx / one32) = 0.4 := by
    rw [hd]
    exact Binary32.mul_one32 _ Binary32.isFinite_literal_04 Binary32.isValue_literal_04
  have hc : (0.4 : Binary32).toRat = 13421773 / 33554432 := by
    rw [Binary32.literal_04]
    rfl
  have h1 : (1 : ℚ) = one32.toRat := rfl
  have h2 : (1 : ℚ) = smallLake.dx.toRat := rfl
  have hq : (2 : ℚ) ^ (-126 : ℤ) ≤ smallLake.dx.toRat / one32.toRat := by
    rw [← h1, ← h2, div_one]
    exact zpow_le_one_of_nonpos₀ (by norm_num) (by norm_num)
  have hp : (2 : ℚ) ^ (-126 : ℤ) ≤ (0.4 : Binary32).toRat * (smallLake.dx / one32).toRat := by
    rw [hd, hc, ← h1, mul_one]
    refine le_trans (zpow_le_zpow_right₀ (by norm_num) (show (-126 : ℤ) ≤ -2 by norm_num)) ?_
    norm_num
  have hpfin : ((0.4 : Binary32) * (smallLake.dx / one32)).isFinite = true := by
    rw [hm]
    exact Binary32.isFinite_literal_04
  have hw : (xSweep unitSolver smallLake).2 = one32 :=
    xSweep_constant_speed unitSolver one32 (fun _ _ _ _ _ _ _ => rfl) smallLake
  have key := horizontalTimestep_cfl inSync32 keepTimestep32 unitSolver smallLake one32 rfl rfl
    rfl (by rw [← h2]; norm_num) (by rw [← h1]; norm_num) hq (by rw [hd]; rfl) hp hpfin
  obtain ⟨k1, _, k3, _⟩ := key
  obtain ⟨k1a, _, k1c⟩ := k1 rfl
  rw [← k3 hw] at k1a k1c
  exact ⟨rfl, rfl, rfl, by rw [← h2]; norm_num, by rw [← h1]; norm_num, hq,
    by rw [hd]; rfl, hp, hpfin, hw, k1a, k1c⟩

/-- C7, counterexample: with `dx = 1` and the wave speed 3 the x-sweep stores
`maxTimestep = 8947849 / 2^26`. The product `maxTimestep * 3 / 1` exceeds `0.4`
and `(float) .4`, both evaluated exactly and evaluated in binary32, and
`maxTimestep` is not `0.4 * dx / 3`. -/
theorem cfl_bound_exceeded :
    smallLake.dx = one32 ∧ smallLake.localTimestepping = false ∧
    inSync32 smallLake = true ∧
    (xSweep (restSolver three32) smallLake).2 = three32 ∧
    (0 : Binary32) < smallLake.dx ∧ (0 : Binary32) < three32 ∧
    (computeNumericalFluxesHorizontal inSync32 keepTimestep32 (restSolver three32)
      smallLake).maxTimestep = ⟨XReal.num (8947849 / 67108864)⟩ ∧
    (computeNumericalFluxesHorizontalKernel (restSolver three32) smallLake).2
      = ⟨XReal.num (8947849 / 67108864)⟩ ∧
    2 / 5 < (computeNumericalFluxesHorizontal inSync32 keepTimestep32 (restSolver three32)
      smallLake).maxTimestep.toRat * three32.toRat / smallLake.dx.toRat ∧
    (0.4 : Binary32).toRat < (computeNumericalFluxesHorizontal inSync32 keepTimestep32
      (restSolver three32) smallLake).maxTimestep.toRat * three32.toRat / smallLake.dx.toRat ∧
    (0.4 : Binary32) < (computeNumericalFluxesHorizontal inSync32 keepTimestep32
      (restSolver three32) smallLake).maxTimestep * three32 / smallLake.dx ∧
    (computeNumericalFluxesHorizontal inSync32 keepTimestep32 (restSolver three32)
      smallLake).maxTimestep.toRat ≠ 2 / 5 * smallLake.dx.toRat / three32.toRat := by
  have hw : (xSweep (restSolver three32) smallLake).2 = three32 :=
    xSweep_constant_speed (restSolver three32) three32 (fun _ _ _ _ _ _ _ => rfl) smallLake
  have hdx1 : (xSweep (restSolver three32) smallLake).1.dx = one32 :=
    xSweep_preserves (fun b => b.dx) (restSolver three32) (fun _ _ _ => rfl) smallLake
  have hmt : (computeNumericalFluxesHorizontal inSync32 keepTimestep32 (restSolver three32)
      smallLake).maxTimestep = ⟨XReal.num (8947849 / 67108864)⟩ := by
    rw [computeNumericalFluxesHorizontal_eq_horizontalTimestep inSync32 keepTimestep32
        (restSolver three32) smallLake rfl, horizontalTimestep_keepTimestep32, hw, hdx1,
      Binary32.one32_div_three32, Binary32.literal_04_mul_third]
  have hk : (computeNumericalFluxesHorizontalKernel (restSolver three32) smallLake).2
      = ⟨XReal.num (8947849 / 67108864)⟩ := by
    rw [(computeNumericalFluxesHorizontalKernel_eq_horizontalTimestep keepTimestep32
        (restSolver three32) smallLake rfl).2, horizontalTimestep_keepTimestep32, hw, hdx1,
      Binary32.one32_div_three32, Binary32.literal_04_mul_third]
  have hc : (0.4 : Binary32).toRat = 13421773 / 33554432 := by
    rw [Binary32.literal_04]
    rfl
  have h3 : three32.toRat = 3 := rfl
  have h1 : smallLake.dx.toRat = 1 := rfl
  have ht : (⟨XReal.num (8947849 / 67108864)⟩ : Binary32).toRat = 8947849 / 67108864 := rfl
  have hz : ∀ q : ℚ, 0 < q → (0 : Binary32) < ⟨XReal.num q⟩ := by
    intro q hq
    rw [Binary32.lt_val]
    show XReal.num 0 < XReal.num q
    exact (XReal.num_lt _ _).2 hq
  refine ⟨rfl, rfl, rfl, hw, hz 1 (by norm_num), hz 3 (by norm_num), hmt, hk, ?_, ?_, ?_, ?_⟩
  · rw [hmt, ht, h3, h1]
    norm_num
  · rw [hmt, ht, h3, h1, hc]
    norm_num
  · rw [hmt, Binary32.timestep_mul_three32]
    show (0.4 : Binary32) < (⟨XReal.num (6710887 / 16777216)⟩ : Binary32) / one32
    rw [Binary32.div_one32 ⟨XReal.num (6710887 / 16777216)⟩ rfl Binary32.isValue_product,
      Binary32.literal_04,
      Binary32.lt_val]
    show XReal.num _ < XReal.num _
    rw [XReal.num_lt]
    norm_num
  · rw [hmt, ht, h3, h1]
    norm_num

end SWE_DimensionalSplittingChameleon

/-! ### The Charm collector -/

/-- Reading memory after the assignment `*p = v`. -/
theorem DoubleMemory.store_apply {D : Type} (mem : DoubleMemory D) (p : Nat) (v : D)
    (q : Nat) : mem.store p v q = if q = p then v else mem q := rfl

namespace CollectorCharm

variable {F D : Type}

/-- The memory that `serialize` leaves: the five (with timestamps, nine)
elements from `arr` on are written, every other element is kept. -/
theorem serialize_mem (toDouble : F → D) (tickToDouble : Int → D) (c : CollectorCharm F D)
    (mem : DoubleMemory D) (arr : Nat) (all : Bool) (q : Nat) :
    (serialize toDouble tickToDouble c mem arr all).1 q =
      if q < arr then mem q
      else if q = arr then toDouble c.flop_ctr
      else if q < arr + 5 then c.total_ctrs (q - arr - 1)
      else if all = true ∧ q < arr + 9 then tickToDouble (c.measure_ctrs (q - arr - 5))
      else mem q := by
  cases all
  · simp only [serialize, forLoop, List.range', List.foldl, Bool.false_eq_true, if_false,
      DoubleMemory.store_apply, Nat.reduceAdd, Nat.add_zero, false_and]
    split_ifs <;> first | rfl | (exfalso; omega) | (congr 1; omega)
  · simp only [serialize, forLoop, List.range', List.foldl, if_true,
      DoubleMemory.store_apply, Nat.reduceAdd, Nat.add_zero, true_and]
    split_ifs <;> first | rfl | (exfalso; omega) | (congr 1; omega) | (congr 2; omega)

/-- The `flop_ctr` that `deserialize` returns. -/
theorem deserialize_flop_ctr (fresh : CollectorCharm F D) (ofDouble : D → F)
    (doubleToLong : D → Int) (ticksPerMillisecond : Int) (mem : DoubleMemory D) (arr : Nat)
    (all : Bool) :
    (deserialize fresh ofDouble doubleToLong ticksPerMillisecond mem arr all).flop_ctr
      = ofDouble (mem arr) := by
  cases all <;>
    simp only [deserialize, forLoop, List.range', List.foldl, Bool.false_eq_true, if_false,
      if_true, Nat.add_zero]

/-- The `total_ctrs` that `deserialize` returns. -/
theorem deserialize_total_ctrs (fresh : CollectorCharm F D) (ofDouble : D → F)
    (doubleToLong : D → Int) (ticksPerMillisecond : Int) (mem : DoubleMemory D) (arr : Nat)
    (all : Bool) (j : Nat) :
    (deserialize fresh ofDouble doubleToLong ticksPerMillisecond mem arr all).total_ctrs j
      = if j < 4 then mem (arr + (j + 1)) else fresh.total_ctrs j := by
  cases all <;>
    simp only [deserialize, forLoop, List.range', List.foldl, Bool.false_eq_true, if_false,
      if_true, Nat.add_zero, Nat.reduceAdd] <;>
    split_ifs <;> first | rfl | (exfalso; omega) | (subst_vars; rfl)

/-- The `measure_ctrs` that `deserialize` returns. -/
theorem deserialize_measure_ctrs (fresh : CollectorCharm F D) (ofDouble : D → F)
    (doubleToLong : D → Int) (ticksPerMillisecond : Int) (mem : DoubleMemory D) (arr : Nat)
    (all : Bool) (j : Nat) :
    (deserialize fresh ofDouble doubleToLong ticksPerMillisecond mem arr all).measure_ctrs j
      = if all = true ∧ j < 4
        then wrapInt64 (doubleToLong (mem (arr + (j + 5))) * ticksPerMillisecond)
        else fresh.measure_ctrs j := by
  cases all <;>
    simp only [deserialize, forLoop, List.range', List.foldl, Bool.false_eq_true, if_false,
      if_true, Nat.add_zero, Nat.reduceAdd, false_and, true_and]
  split_ifs <;> first | rfl | (exfalso; omega) | (subst_vars; rfl)

/-- A result within the 64-bit range is held as it is. -/
theorem wrapInt64_of_range (n : Int) (h1 : -(2 ^ 63) ≤ n) (h2 : n < 2 ^ 63) :
    wrapInt64 n = n := by
  unfold wrapInt64
  omega

/-- The time point that `deserialize` rebuilds from the memory that `serialize`
wrote with timestamps, when the two casts give back the tick count: the count
is taken as a number of milliseconds. -/
theorem deserialize_serialize_measure_ctrs (toDouble : F → D) (ofDouble : D → F)
    (tickToDouble : Int → D) (doubleToLong : D → Int) (ticksPerMillisecond : Int)
    (fresh c : CollectorCharm F D) (mem : DoubleMemory D) (arr i : Nat) (hi : i < 4)
    (hexact : doubleToLong (tickToDouble (c.measure_ctrs i)) = c.measure_ctrs i) :
    (deserialize fresh ofDouble doubleToLong ticksPerMillisecond
        (serialize toDouble tickToDouble c mem arr true).1
        (serialize toDouble tickToDouble c mem arr true).2 true).measure_ctrs i
      = wrapInt64 (c.measure_ctrs i * ticksPerMillisecond) := by
  have hptr : (serialize toDouble tickToDouble c mem arr true).2 = arr := rfl
  rw [hptr, deserialize_measure_ctrs, if_pos ⟨rfl, hi⟩, serialize_mem,
    if_neg (by omega), if_neg (by omega), if_neg (by omega), if_pos ⟨rfl, by omega⟩]
  have hidx : arr + (i + 5) - arr - 5 = i := by omega
  rw [hidx, hexact]

/-- C25: round trip of a collector without timestamps.  For every collector
`c`, every memory and every buffer address `arr`, `serialize(arr, false)`
returns `arr`, stores `flop_ctr` in `arr[0]` and `total_ctrs[i].count()` in
`arr[i+1]` for `i < 4`, and leaves every element outside `arr[0..4]` as it was;
and `deserialize` of the result has the four `total_ctrs` of `c`, and the
`flop_ctr` of `c` when the conversion of `flop_ctr` to `double` and back gives
`flop_ctr` again (as it does for a `double` or `float` member). -/
theorem serialize_deserialize_without_timestamps (toDouble : F → D) (ofDouble : D → F)
    (tickToDouble : Int → D) (doubleToLong : D → Int) (ticksPerMillisecond : Int)
    (fresh c : CollectorCharm F D) (mem : DoubleMemory D) (arr : Nat)
    (hflop : ofDouble (toDouble c.flop_ctr) = c.flop_ctr) :
    (serialize toDouble tickToDouble c mem arr false).2 = arr ∧
    (serialize toDouble tickToDouble c mem arr false).1 (arr + 0) = toDouble c.flop_ctr ∧
    (∀ i, i < 4 →
      (serialize toDouble tickToDouble c mem arr false).1 (arr + (i + 1)) = c.total_ctrs i) ∧
    (∀ q, (q < arr ∨ arr + 5 ≤ q) →
      (serialize toDouble tickToDouble c mem arr false).1 q = mem q) ∧
    (deserialize fresh ofDouble doubleToLong ticksPerMillisecond
        (serialize toDouble tickToDouble c mem arr false).1
        (serialize toDouble tickToDouble c mem arr false).2 false).flop_ctr = c.flop_ctr ∧
    (∀ i, i < 4 →
      (deserialize fresh ofDouble doubleToLong ticksPerMillisecond
          (serialize toDouble tickToDouble c mem arr false).1
          (serialize toDouble tickToDouble c mem arr false).2 false).total_ctrs i
        = c.total_ctrs i) := by
  have hptr : (serialize toDouble tickToDouble c mem arr false).2 = arr := rfl
  have h0 : (serialize toDouble tickToDouble c mem arr false).1 arr = toDouble c.flop_ctr := by
    rw [serialize_mem, if_neg (by omega), if_pos rfl]
  have hi : ∀ i, i < 4 →
      (serialize toDouble tickToDouble c mem arr false).1 (arr + (i + 1)) = c.total_ctrs i := by
    intro i hi
    rw [serialize_mem, if_neg (by omega), if_neg (by omega), if_pos (by omega)]
    congr 1
    omega
  refine ⟨hptr, h0, hi, ?_, ?_, ?_⟩
  · intro q hq
    rw [serialize_mem]
    rcases hq with hq | hq
    · rw [if_pos hq]
    · rw [if_neg (by omega), if_neg (by omega), if_neg (by omega),
        if_neg (fun h => Bool.noConfusion h.1)]
  · rw [hptr, deserialize_flop_ctr, h0, hflop]
  · intro i hlt
    rw [hptr, deserialize_total_ctrs, if_pos hlt, hi i hlt]

/-- Instance of C25: the concrete collector, whose `flop_ctr` is a `double`, and
a buffer at address 3 of an empty memory. -/
theorem serialize_deserialize_without_timestamps_witness :
    id (id exampleCollector.flop_ctr) = exampleCollector.flop_ctr ∧
    (serialize id exactTickToDouble exampleCollector zeroMemory 3 false).2 = 3 ∧
    (serialize id exactTickToDouble exampleCollector zeroMemory 3 false).1 (3 + 0)
      = id exampleCollector.flop_ctr ∧
    (∀ i, i < 4 →
      (serialize id exactTickToDouble exampleCollector zeroMemory 3 false).1 (3 + (i + 1))
        = exampleCollector.total_ctrs i) ∧
    (∀ q, (q < 3 ∨ 3 + 5 ≤ q) →
      (serialize id exactTickToDouble exampleCollector zeroMemory 3 false).1 q
        = zeroMemory q) ∧
    (deserialize freshCollector id truncateToLong nanosecondClock
        (serialize id exactTickToDouble exampleCollector zeroMemory 3 false).1
        (serialize id exactTickToDouble exampleCollector zeroMemory 3 false).2 false).flop_ctr
      = exampleCollector.flop_ctr ∧
    (∀ i, i < 4 →
      (deserialize freshCollector id truncateToLong nanosecondClock
          (serialize id exactTickToDouble exampleCollector zeroMemory 3 false).1
          (serialize id exactTickToDouble exampleCollector zeroMemory 3 false).2
          false).total_ctrs i
        = exampleCollector.total_ctrs i) :=
  ⟨rfl,
    serialize_deserialize_without_timestamps id id exactTickToDouble truncateToLong
      nanosecondClock freshCollector exampleCollector zeroMemory 3 rfl⟩

/-- The casts of the concrete conversions give back every tick count. -/
theorem truncateToLong_exactTickToDouble (t : Int) :
    truncateToLong (exactTickToDouble t) = t := by
  simp [truncateToLong, exactTickToDouble]

/-- C26, the code at a failing input: round trip of a collector with timestamps,
on a steady clock that counts nanoseconds.  The concrete collector has `measure_ctrs[0]` 5 ticks
after the epoch; `serialize(arr, true)` stores the tick count 5 in `arr[5]`,
the two casts give back every tick count of the collector, and `deserialize`
rebuilds the time point 5 milliseconds, that is 5 000 000 ticks, after the
epoch: none of the four `measure_ctrs` of the result is that of the
collector. -/
theorem deserialize_reads_ticks_as_milliseconds :
    (∀ i, i < 4 →
      truncateToLong (exactTickToDouble (exampleCollector.measure_ctrs i))
        = exampleCollector.measure_ctrs i) ∧
    exampleCollector.measure_ctrs 0 = 5 ∧
    (serialize id exactTickToDouble exampleCollector zeroMemory 0 true).1 (0 + 5) = 5 ∧
    (deserialize freshCollector id truncateToLong nanosecondClock
        (serialize id exactTickToDouble exampleCollector zeroMemory 0 true).1
        (serialize id exactTickToDouble exampleCollector zeroMemory 0 true).2
        true).measure_ctrs 0 = 5000000 ∧
    (∀ i, i < 4 →
      (deserialize freshCollector id truncateToLong nanosecondClock
          (serialize id exactTickToDouble exampleCollector zeroMemory 0 true).1
          (serialize id exactTickToDouble exampleCollector zeroMemory 0 true).2
          true).measure_ctrs i
        = exampleCollector.measure_ctrs i * 1000000 ∧
      (deserialize freshCollector id truncateToLong nanosecondClock
          (serialize id exactTickToDouble exampleCollector zeroMemory 0 true).1
          (serialize id exactTickToDouble exampleCollector zeroMemory 0 true).2
          true).measure_ctrs i
        ≠ exampleCollector.measure_ctrs i) := by
  have hall : ∀ i, i < 4 →
      (deserialize freshCollector id truncateToLong nanosecondClock
          (serialize id exactTickToDouble exampleCollector zeroMemory 0 true).1
          (serialize id exactTickToDouble exampleCollector zeroMemory 0 true).2
          true).measure_ctrs i
        = exampleCollector.measure_ctrs i * 1000000 := by
    intro i hi
    rw [deserialize_serialize_measure_ctrs id id exactTickToDouble truncateToLong
      nanosecondClock freshCollector exampleCollector zeroMemory 0 i hi
      (truncateToLong_exactTickToDouble _)]
    have hv : exampleCollector.measure_ctrs i = (i : Int) + 5 := rfl
    rw [hv]
    apply wrapInt64_of_range
    · simp only [nanosecondClock]; omega
    · simp only [nanosecondClock]; omega
  refine ⟨fun i _ => truncateToLong_exactTickToDouble _, by simp [exampleCollector], ?_, ?_,
    ?_⟩
  · rw [serialize_mem]
    simp [exampleCollector, exactTickToDouble]
  · rw [hall 0 (by omega)]
    simp [exampleCollector]
  · intro i hi
    refine ⟨hall i hi, ?_⟩
    rw [hall i hi]
    have hv : exampleCollector.measure_ctrs i = (i : Int) + 5 := rfl
    rw [hv]
    omega

end CollectorCharm

end SWE
